import Mathlib

/-!
# Pagination links of `lambique` (`pagination.go`)

A shallow embedding of the pagination-link module and of the parts of the Go
standard library it calls (`strconv.Atoi`, `strconv.Itoa`, `net/url`'s query
decoding and encoding), followed by theorems about the link accessors.

Conventions of the embedding:
* a Go `string` is a list of bytes (`GoString`);
* a Go `int` is a 64-bit two's-complement integer (`GoInt`), arithmetic wraps;
* the standard library is a current one: `url.ParseQuery` splits the query at `&`
  only, drops a piece that holds a semicolon, and refuses a query of more than
  10000 parameters (the default of the `urlmaxqueryparams` setting), in which case
  `(*URL).Query` is the empty map;
* a method with a pointer receiver takes the receiver's state and returns the
  new state together with its results;
* a Go `error` result is an `Option GoError`, `none` standing for `nil`;
* URLs are non-nil values, so `copyURL` is the identity on values; the section
  on pointers repeats the link accessors over a store of URL cells, where the
  copy is a fresh cell;
* the text form of a URL, `(*url.URL).String`, is a parameter of the two `String`
  methods;
* a sequence of method calls is a list of `Call`s with their URLs, run from a state.
-/

namespace Lambique

/-! ## Go strings and integers -/

/-- One byte of a Go string. -/
abbrev Byte := Fin 256

/-- Go strings are immutable byte sequences. -/
abbrev GoString := List Byte

/-- The byte of an ASCII character. -/
def ch (c : Char) : Byte := Fin.ofNat c.toNat

/-- The Go string of an ASCII literal. -/
def str (s : String) : GoString := s.toList.map ch

/-- Smallest value of a 64-bit Go `int`. -/
def minInt : Int := -9223372036854775808

/-- Largest value of a 64-bit Go `int`. -/
def maxInt : Int := 9223372036854775807

/-- Two's-complement wrap-around of an integer into the 64-bit `int` range. -/
def wrapInt (x : Int) : Int :=
  (x + 9223372036854775808) % 18446744073709551616 - 9223372036854775808

/-- Values of the Go type `int` (64-bit). -/
abbrev GoInt := { x : Int // minInt ≤ x ∧ x ≤ maxInt }

/-- Conversion of a mathematical integer to `int`, wrapping on overflow. -/
def GoInt.wrap (x : Int) : GoInt :=
  ⟨wrapInt x, by unfold wrapInt minInt maxInt; omega⟩

/-- Go `a + b` on `int`. -/
def GoInt.add (a b : GoInt) : GoInt := GoInt.wrap (a.val + b.val)

/-- Go `a - b` on `int`. -/
def GoInt.sub (a b : GoInt) : GoInt := GoInt.wrap (a.val - b.val)

/-- An `int` constant. -/
def GoInt.lit (n : Nat) (h : (n : Int) ≤ maxInt := by decide) : GoInt :=
  ⟨(n : Int), by unfold minInt; omega, h⟩

/-- Go `error` values; this module never builds one. -/
structure GoError where
  msg : GoString
deriving DecidableEq

/-! ## `strconv` -/

/-- The ASCII digit of `d < 10`. -/
def digitByte (d : Nat) : Byte := Fin.ofNat (48 + d)

/-- Decimal digits of `n`, most significant first, in front of `acc`
(the digit loop of `strconv.formatBits`, with `fuel` bounding the iterations). -/
def decimalAux : Nat → Nat → GoString → GoString
  | 0, _, acc => acc
  | fuel + 1, n, acc =>
    if n < 10 then digitByte n :: acc
    else decimalAux fuel (n / 10) (digitByte (n % 10) :: acc)

/-- Decimal rendering of a natural number. -/
def decimalNat (n : Nat) : GoString := decimalAux (n + 1) n []

/-- Decimal rendering of an integer: a minus sign for negatives, then the digits. -/
def decimal (x : Int) : GoString :=
  if x < 0 then ch '-' :: decimalNat x.natAbs else decimalNat x.natAbs

/-- Go `strconv.Itoa`. -/
def Itoa (i : GoInt) : GoString := decimal i.val

/-- ASCII decimal digit test. -/
def isDigit (c : Byte) : Bool := decide (48 ≤ c.val ∧ c.val ≤ 57)

/-- Value of a digit string read after `n`; `none` on a byte that is not a digit. -/
def parseDigits : GoString → Nat → Option Nat
  | [], n => some n
  | c :: cs, n => if isDigit c then parseDigits cs (n * 10 + (c.val - 48)) else none

/-- Go `strconv.Atoi` on a 64-bit platform: an optional sign followed by at least
one decimal digit, the value lying in the `int` range; `none` stands for a
non-nil error (syntax or range). -/
def Atoi (s : GoString) : Option GoInt :=
  let neg : Bool := decide (s.head? = some (ch '-'))
  let ds : GoString := if s.head? = some (ch '-') ∨ s.head? = some (ch '+') then s.tail else s
  if ds = [] then none
  else
    match parseDigits ds 0 with
    | none => none
    | some n =>
      if neg then
        if h : (n : Int) ≤ 9223372036854775808 then
          some ⟨-(n : Int), by unfold minInt maxInt; omega⟩
        else none
      else
        if h : (n : Int) ≤ 9223372036854775807 then
          some ⟨(n : Int), by unfold minInt maxInt; omega⟩
        else none

/-! ## `net/url` -/

/-- Go `url.Userinfo`. -/
structure Userinfo where
  username : GoString
  password : GoString
  passwordSet : Bool
deriving DecidableEq

/-- Go `url.URL`. -/
structure URL where
  Scheme : GoString
  Opaque : GoString
  User : Option Userinfo
  Host : GoString
  Path : GoString
  RawPath : GoString
  OmitHost : Bool
  ForceQuery : Bool
  RawQuery : GoString
  Fragment : GoString
  RawFragment : GoString
deriving DecidableEq

/-- Go `url.Values`, a `map[string][]string`: an association list whose keys are
kept distinct by `store`, in order of first insertion. -/
abbrev Values := List (GoString × List GoString)

/-- The keys of a map. -/
def Values.keys (m : Values) : List GoString := m.map Prod.fst

/-- Map indexing `m[key]`; `none` when the key is absent. -/
def Values.lookup : Values → GoString → Option (List GoString)
  | [], _ => none
  | (k, vs) :: rest, key => if k = key then some vs else Values.lookup rest key

/-- Map assignment `m[key] = vs`. -/
def Values.store : Values → GoString → List GoString → Values
  | [], key, vs => [(key, vs)]
  | (k, old) :: rest, key, vs =>
    if k = key then (k, vs) :: rest else (k, old) :: Values.store rest key vs

/-- Go `Values.Get`: the first value of the key, or the empty string. -/
def Values.Get (m : Values) (key : GoString) : GoString :=
  match m.lookup key with
  | some (v :: _) => v
  | _ => []

/-- Go `Values.Set`: the key holds exactly the one value afterwards. -/
def Values.Set (m : Values) (key value : GoString) : Values := m.store key [value]

/-- Go `Values.Add`-style append, as done by `parseQuery`: `m[key] = append(m[key], value)`. -/
def Values.Add (m : Values) (key value : GoString) : Values :=
  m.store key ((m.lookup key).getD [] ++ [value])

/-- Hexadecimal digit test of `net/url`. -/
def ishex (c : Byte) : Bool :=
  decide ((48 ≤ c.val ∧ c.val ≤ 57) ∨ (97 ≤ c.val ∧ c.val ≤ 102) ∨ (65 ≤ c.val ∧ c.val ≤ 70))

/-- Value of a hexadecimal digit (`net/url.unhex`). -/
def unhex (c : Byte) : Nat :=
  if 48 ≤ c.val ∧ c.val ≤ 57 then c.val - 48
  else if 97 ≤ c.val ∧ c.val ≤ 102 then c.val - 97 + 10
  else if 65 ≤ c.val ∧ c.val ≤ 70 then c.val - 65 + 10
  else 0

/-- Upper-case hexadecimal digit of `d < 16` (`"0123456789ABCDEF"[d]`). -/
def upperhex (d : Nat) : Byte := if d < 10 then Fin.ofNat (48 + d) else Fin.ofNat (55 + d)

/-- Go `url.QueryUnescape`: `%XX` becomes the byte, `+` a space; `none` on a
malformed escape. -/
def QueryUnescape : GoString → Option GoString
  | [] => some []
  | c :: rest =>
    if c = ch '%' then
      match rest with
      | h1 :: h2 :: rest2 =>
        if ishex h1 && ishex h2 then
          (QueryUnescape rest2).map (fun t => Fin.ofNat (unhex h1 * 16 + unhex h2) :: t)
        else none
      | _ => none
    else
      (QueryUnescape rest).map (fun t => (if c = ch '+' then ch ' ' else c) :: t)

/-- The `shouldEscape` test of `net/url` in query-component mode: everything
but letters, digits and `-`, `_`, `.`, `~` is escaped. -/
def shouldEscape (c : Byte) : Bool :=
  !(decide ((97 ≤ c.val ∧ c.val ≤ 122) ∨ (65 ≤ c.val ∧ c.val ≤ 90) ∨ (48 ≤ c.val ∧ c.val ≤ 57))
    || decide (c = ch '-' ∨ c = ch '_' ∨ c = ch '.' ∨ c = ch '~'))

/-- Go `url.QueryEscape`. -/
def QueryEscape : GoString → GoString
  | [] => []
  | c :: rest =>
    if shouldEscape c then
      if c = ch ' ' then ch '+' :: QueryEscape rest
      else ch '%' :: upperhex (c.val / 16) :: upperhex (c.val % 16) :: QueryEscape rest
    else c :: QueryEscape rest

/-- The pieces of a string between occurrences of the separator byte. -/
def splitOn (sep : Byte) : GoString → List GoString
  | [] => [[]]
  | c :: rest =>
    if c = sep then [] :: splitOn sep rest
    else
      match splitOn sep rest with
      | [] => [[c]]
      | seg :: segs => (c :: seg) :: segs

/-- Go `strings.Cut` at the first occurrence of a separator byte; when the
separator is absent the whole string is the first part. -/
def cut (sep : Byte) : GoString → GoString × GoString
  | [] => ([], [])
  | c :: rest =>
    if c = sep then ([], rest)
    else ((c :: (cut sep rest).1), (cut sep rest).2)

/-- One iteration of the loop of `net/url.parseQuery` on the piece `seg` between
two `&`: pieces holding a semicolon, empty pieces and pieces with a malformed
escape are skipped. -/
def parseQueryStep (m : Values) (seg : GoString) : Values :=
  if ch ';' ∈ seg then m
  else if seg = [] then m
  else
    match QueryUnescape (cut (ch '=') seg).1 with
    | none => m
    | some key =>
      match QueryUnescape (cut (ch '=') seg).2 with
      | none => m
      | some value => m.Add key value

/-- The number of parameters of a query as `net/url` counts them before decoding,
`strings.Count(query, "&") + 1`. -/
def paramCount (query : GoString) : Nat := query.count (ch '&') + 1

/-- The check `urlParamsWithinMax` of `net/url` under the default `urlmaxqueryparams`
setting: at most 10000 parameters. -/
def urlParamsWithinMax (params : Nat) : Bool := decide (params ≤ 10000)

/-- Go `url.ParseQuery` without its error result: the empty map when the query has too
many parameters, else the map built from the well-formed pieces of the query. -/
def parseQuery (query : GoString) : Values :=
  if !urlParamsWithinMax (paramCount query) then []
  else (splitOn (ch '&') query).foldl parseQueryStep []

/-- Go `(*URL).Query`: the decoded query, parse errors dropped. -/
def URL.Query (u : URL) : Values := parseQuery u.RawQuery

/-- Byte-wise lexicographic `a <= b` on Go strings. -/
def strLe : GoString → GoString → Bool
  | [], _ => true
  | _ :: _, [] => false
  | a :: as, b :: bs => if a < b then true else if b < a then false else strLe as bs

/-- The keys of a map in ascending order. -/
def Values.sortedKeys (m : Values) : List GoString :=
  List.insertionSort (fun a b => strLe a b = true) m.keys

/-- Go `Values.Encode`: for the keys in ascending order, one `key=value` pair
per value, both escaped, joined by `&`. -/
def Values.Encode (m : Values) : GoString :=
  List.intercalate [ch '&']
    (m.sortedKeys.flatMap fun k =>
      ((m.lookup k).getD []).map fun v => QueryEscape k ++ [ch '='] ++ QueryEscape v)

/-! ## `pagination.go` -/

/-- A navigation link: relation name and target URL. -/
structure PagingLink where
  Rel : GoString
  URL : URL
deriving DecidableEq

/-- An ordered collection of navigation links. -/
abbrev PagingLinks := List PagingLink

/-- Go `fmt.Sprintf` on the fragment this module uses: string operands, the verbs
`%s` and `%%`, and one operand for every `%s`; `none` outside this fragment. -/
def Sprintf : GoString → List GoString → Option GoString
  | [], [] => some []
  | [], _ :: _ => none
  | c :: rest, args =>
    if c = ch '%' then
      match rest with
      | [] => none
      | v :: rest2 =>
        if v = ch '%' then (Sprintf rest2 args).map (fun t => ch '%' :: t)
        else if v = ch 's' then
          match args with
          | [] => none
          | a :: more => (Sprintf rest2 more).map (fun t => a ++ t)
        else none
    else (Sprintf rest args).map (fun t => c :: t)

/-- Go `strings.Join`: the first element, then the separator and the next element for
each remaining one. -/
def Join (elems : List GoString) (sep : GoString) : GoString :=
  match elems with
  | [] => []
  | a :: rest => rest.foldl (fun b e => b ++ sep ++ e) a

/-- Text form of a link, `fmt.Sprintf` with the format `<%s>; rel="%s"`. The rendering
`urlString` of a URL (`(*url.URL).String` of the standard library) is a parameter. -/
def PagingLink.String (urlString : Lambique.URL → GoString) (link : PagingLink) : GoString :=
  (Sprintf (str "<%s>; rel=\"%s\"") [urlString link.URL, link.Rel]).getD []

/-- Text form of a collection of links: the text forms of the links joined by a comma. -/
def PagingLinks.String (urlString : URL → GoString) (ls : PagingLinks) : GoString :=
  let links : List GoString := ls.foldl (fun links link => links ++ [link.String urlString]) []
  Join links (str ",")

/-- The statement `else if link != nil { links = append(links, link) }`. -/
def appendLink (links : PagingLinks) : Option PagingLink → PagingLinks
  | some l => links ++ [l]
  | none => links

/-- Integer value of the first value of `key`, or `defaultValue` when `Atoi` fails. -/
def vsGetInt (vs : Values) (key : GoString) (defaultValue : GoInt) : GoInt :=
  let s := vs.Get key
  match Atoi s with
  | none => defaultValue
  | some i => i

/-- An independent copy of a URL value. -/
def copyURL (u : URL) : URL := u

/-- State of the page-number strategy. -/
structure PageNumberPagination where
  PageNumberKey : GoString
  PageNumber : GoInt
  parsed : Bool
deriving DecidableEq

/-- Constructor of the page-number strategy. -/
def NewPageNumberPagination : PageNumberPagination :=
  { PageNumberKey := str "page", PageNumber := GoInt.lit 1, parsed := false }

namespace PageNumberPagination

/-- Reads the page number from the URL into the state. -/
def ParseURL (p : PageNumberPagination) (u : URL) : PageNumberPagination × Option GoError :=
  let vs := u.Query
  let p := { p with PageNumber := vsGetInt vs p.PageNumberKey (GoInt.lit 1) }
  let p := { p with parsed := true }
  (p, none)

/-- The guard `if !p.parsed { err := p.ParseURL(u); ... }` opening every accessor. -/
def autoParse (p : PageNumberPagination) (u : URL) : PageNumberPagination × Option GoError :=
  if !p.parsed then p.ParseURL u else (p, none)

/-- Link to page 1. -/
def FirstPagingLink (p : PageNumberPagination) (u : URL) :
    PageNumberPagination × Option PagingLink × Option GoError :=
  match p.autoParse u with
  | (p, some err) => (p, none, some err)
  | (p, none) =>
    let vs := u.Query
    let vs := vs.Set p.PageNumberKey (str "1")
    let u := copyURL u
    let u := { u with RawQuery := vs.Encode }
    (p, some { Rel := str "first", URL := u }, none)

/-- Link to the page before the current one, none below page 2. -/
def PrevPagingLink (p : PageNumberPagination) (u : URL) :
    PageNumberPagination × Option PagingLink × Option GoError :=
  match p.autoParse u with
  | (p, some err) => (p, none, some err)
  | (p, none) =>
    if p.PageNumber.val < 2 then (p, none, none)
    else
      let vs := u.Query
      let vs := vs.Set p.PageNumberKey (Itoa (p.PageNumber.sub (GoInt.lit 1)))
      let u := copyURL u
      let u := { u with RawQuery := vs.Encode }
      (p, some { Rel := str "prev", URL := u }, none)

/-- Link to the page after the current one. -/
def NextPagingLink (p : PageNumberPagination) (u : URL) :
    PageNumberPagination × Option PagingLink × Option GoError :=
  match p.autoParse u with
  | (p, some err) => (p, none, some err)
  | (p, none) =>
    let vs := u.Query
    let vs := vs.Set p.PageNumberKey (Itoa (p.PageNumber.add (GoInt.lit 1)))
    let u := copyURL u
    let u := { u with RawQuery := vs.Encode }
    (p, some { Rel := str "next", URL := u }, none)

/-- Link to the last page: not implemented, always nil. -/
def LastPagingLink (p : PageNumberPagination) (_u : URL) :
    PageNumberPagination × Option PagingLink × Option GoError :=
  (p, none, none)

/-- The applicable links in the order first, prev, next. -/
def PagingLinks (p : PageNumberPagination) (u : URL) :
    PageNumberPagination × Lambique.PagingLinks × Option GoError :=
  match p.autoParse u with
  | (p, some err) => (p, [], some err)
  | (p, none) =>
    let links : Lambique.PagingLinks := []
    match p.FirstPagingLink u with
    | (p, _, some err) => (p, [], some err)
    | (p, firstPage, none) =>
      let links := appendLink links firstPage
      match p.PrevPagingLink u with
      | (p, _, some err) => (p, [], some err)
      | (p, prevPage, none) =>
        let links := appendLink links prevPage
        match p.NextPagingLink u with
        | (p, _, some err) => (p, [], some err)
        | (p, nextPage, none) =>
          let links := appendLink links nextPage
          (p, links, none)

end PageNumberPagination

/-- State of the offset/limit strategy. -/
structure OffsetLimitPagination where
  OffsetKey : GoString
  LimitKey : GoString
  PageSize : GoInt
  Offset : GoInt
  Limit : GoInt
  parsed : Bool
deriving DecidableEq

/-- Constructor of the offset/limit strategy. -/
def NewOffsetLimitPagination : OffsetLimitPagination :=
  let pageSize := GoInt.lit 50
  { OffsetKey := str "offset", LimitKey := str "limit", PageSize := pageSize,
    Offset := GoInt.lit 0, Limit := pageSize, parsed := false }

namespace OffsetLimitPagination

/-- Reads offset and limit from the URL into the state. -/
def ParseURL (p : OffsetLimitPagination) (u : URL) : OffsetLimitPagination × Option GoError :=
  let vs := u.Query
  let p := { p with Offset := vsGetInt vs p.OffsetKey (GoInt.lit 0) }
  let p := { p with Limit := vsGetInt vs p.LimitKey p.PageSize }
  let p := { p with parsed := true }
  (p, none)

/-- The guard `if !p.parsed { err := p.ParseURL(u); ... }` opening every accessor. -/
def autoParse (p : OffsetLimitPagination) (u : URL) : OffsetLimitPagination × Option GoError :=
  if !p.parsed then p.ParseURL u else (p, none)

/-- Link to offset 0 with the configured page size as limit. -/
def FirstPagingLink (p : OffsetLimitPagination) (u : URL) :
    OffsetLimitPagination × Option PagingLink × Option GoError :=
  match p.autoParse u with
  | (p, some err) => (p, none, some err)
  | (p, none) =>
    let vs := u.Query
    let vs := vs.Set p.OffsetKey (str "0")
    let vs := vs.Set p.LimitKey (Itoa p.PageSize)
    let u := copyURL u
    let u := { u with RawQuery := vs.Encode }
    (p, some { Rel := str "first", URL := u }, none)

/-- Link one page size back, none when the offset is below the page size. -/
def PrevPagingLink (p : OffsetLimitPagination) (u : URL) :
    OffsetLimitPagination × Option PagingLink × Option GoError :=
  match p.autoParse u with
  | (p, some err) => (p, none, some err)
  | (p, none) =>
    if p.Offset.val < p.PageSize.val then (p, none, none)
    else
      let vs := u.Query
      let vs := vs.Set p.OffsetKey (Itoa (p.Offset.sub p.PageSize))
      let vs := vs.Set p.LimitKey (Itoa p.PageSize)
      let u := copyURL u
      let u := { u with RawQuery := vs.Encode }
      (p, some { Rel := str "prev", URL := u }, none)

/-- Link one page size forward. -/
def NextPagingLink (p : OffsetLimitPagination) (u : URL) :
    OffsetLimitPagination × Option PagingLink × Option GoError :=
  match p.autoParse u with
  | (p, some err) => (p, none, some err)
  | (p, none) =>
    let vs := u.Query
    let vs := vs.Set p.OffsetKey (Itoa (p.Offset.add p.PageSize))
    let vs := vs.Set p.LimitKey (Itoa p.PageSize)
    let u := copyURL u
    let u := { u with RawQuery := vs.Encode }
    (p, some { Rel := str "next", URL := u }, none)

/-- Link to the last page: not implemented, always nil. -/
def LastPagingLink (p : OffsetLimitPagination) (_u : URL) :
    OffsetLimitPagination × Option PagingLink × Option GoError :=
  (p, none, none)

/-- The applicable links in the order first, prev, next. -/
def PagingLinks (p : OffsetLimitPagination) (u : URL) :
    OffsetLimitPagination × Lambique.PagingLinks × Option GoError :=
  match p.autoParse u with
  | (p, some err) => (p, [], some err)
  | (p, none) =>
    let links : Lambique.PagingLinks := []
    match p.FirstPagingLink u with
    | (p, _, some err) => (p, [], some err)
    | (p, firstPage, none) =>
      let links := appendLink links firstPage
      match p.PrevPagingLink u with
      | (p, _, some err) => (p, [], some err)
      | (p, prevPage, none) =>
        let links := appendLink links prevPage
        match p.NextPagingLink u with
        | (p, _, some err) => (p, [], some err)
        | (p, nextPage, none) =>
          let links := appendLink links nextPage
          (p, links, none)

end OffsetLimitPagination

/-! ## Sequences of calls -/

/-- The methods of the `Pagination` interface. -/
inductive Call where
  | parseURL
  | firstPagingLink
  | prevPagingLink
  | nextPagingLink
  | lastPagingLink
  | pagingLinks
deriving DecidableEq

/-- The state of a page-number strategy after one call of a method on a URL. -/
def PageNumberPagination.call (s : PageNumberPagination) (c : Call) (u : URL) :
    PageNumberPagination :=
  match c with
  | .parseURL => (s.ParseURL u).1
  | .firstPagingLink => (s.FirstPagingLink u).1
  | .prevPagingLink => (s.PrevPagingLink u).1
  | .nextPagingLink => (s.NextPagingLink u).1
  | .lastPagingLink => (s.LastPagingLink u).1
  | .pagingLinks => (s.PagingLinks u).1

/-- The state of a page-number strategy after a sequence of calls. -/
def PageNumberPagination.run (s : PageNumberPagination) (calls : List (Call × URL)) :
    PageNumberPagination :=
  calls.foldl (fun s cu => s.call cu.1 cu.2) s

/-- The state of an offset/limit strategy after one call of a method on a URL. -/
def OffsetLimitPagination.call (s : OffsetLimitPagination) (c : Call) (u : URL) :
    OffsetLimitPagination :=
  match c with
  | .parseURL => (s.ParseURL u).1
  | .firstPagingLink => (s.FirstPagingLink u).1
  | .prevPagingLink => (s.PrevPagingLink u).1
  | .nextPagingLink => (s.NextPagingLink u).1
  | .lastPagingLink => (s.LastPagingLink u).1
  | .pagingLinks => (s.PagingLinks u).1

/-- The state of an offset/limit strategy after a sequence of calls. -/
def OffsetLimitPagination.run (s : OffsetLimitPagination) (calls : List (Call × URL)) :
    OffsetLimitPagination :=
  calls.foldl (fun s cu => s.call cu.1 cu.2) s

/-! ## URLs behind pointers

The methods take and return `*url.URL`. The definitions above pass URL values, which
cannot express that a method leaves the URL of its caller alone; the definitions of
this section repeat the link accessors over a store of URL cells. -/

/-- The URL values behind the pointers `*url.URL`: the value stored at each address and
the first address not yet allocated. -/
structure Heap where
  cells : Nat → URL
  next : Nat

/-- Allocation of a fresh cell holding `v`, as `&copy` does: the new store and the
address of the cell. -/
def Heap.alloc (h : Heap) (v : URL) : Heap × Nat :=
  ({ cells := fun a => if a = h.next then v else h.cells a, next := h.next + 1 }, h.next)

/-- The assignment `u.RawQuery = q` through the pointer `u`. -/
def Heap.setRawQuery (h : Heap) (u : Nat) (q : GoString) : Heap :=
  { cells := fun a => if a = u then { h.cells u with RawQuery := q } else h.cells a,
    next := h.next }

/-- The function `copyURL` on pointers: `copy := *u; return &copy`. -/
def copyURLRef (h : Heap) (u : Nat) : Heap × Nat := h.alloc (h.cells u)

/-- A `PagingLink` with its `URL` field as the pointer it is. -/
structure PagingLinkRef where
  Rel : GoString
  URL : Nat
deriving DecidableEq

/-- The statement `else if link != nil { links = append(links, link) }` on links with
pointers. -/
def appendLinkRef (links : List PagingLinkRef) : Option PagingLinkRef → List PagingLinkRef
  | some l => links ++ [l]
  | none => links

namespace PageNumberPagination

/-- The method `FirstPagingLink` on a pointer `u` into the store `h`. -/
def FirstPagingLinkRef (p : PageNumberPagination) (h : Heap) (u : Nat) :
    Heap × PageNumberPagination × Option PagingLinkRef × Option GoError :=
  match p.autoParse (h.cells u) with
  | (p, some err) => (h, p, none, some err)
  | (p, none) =>
    let vs := (h.cells u).Query
    let vs := vs.Set p.PageNumberKey (str "1")
    let hu := copyURLRef h u
    let h := hu.1.setRawQuery hu.2 vs.Encode
    (h, p, some { Rel := str "first", URL := hu.2 }, none)

/-- The method `PrevPagingLink` on a pointer `u` into the store `h`. -/
def PrevPagingLinkRef (p : PageNumberPagination) (h : Heap) (u : Nat) :
    Heap × PageNumberPagination × Option PagingLinkRef × Option GoError :=
  match p.autoParse (h.cells u) with
  | (p, some err) => (h, p, none, some err)
  | (p, none) =>
    if p.PageNumber.val < 2 then (h, p, none, none)
    else
      let vs := (h.cells u).Query
      let vs := vs.Set p.PageNumberKey (Itoa (p.PageNumber.sub (GoInt.lit 1)))
      let hu := copyURLRef h u
      let h := hu.1.setRawQuery hu.2 vs.Encode
      (h, p, some { Rel := str "prev", URL := hu.2 }, none)

/-- The method `NextPagingLink` on a pointer `u` into the store `h`. -/
def NextPagingLinkRef (p : PageNumberPagination) (h : Heap) (u : Nat) :
    Heap × PageNumberPagination × Option PagingLinkRef × Option GoError :=
  match p.autoParse (h.cells u) with
  | (p, some err) => (h, p, none, some err)
  | (p, none) =>
    let vs := (h.cells u).Query
    let vs := vs.Set p.PageNumberKey (Itoa (p.PageNumber.add (GoInt.lit 1)))
    let hu := copyURLRef h u
    let h := hu.1.setRawQuery hu.2 vs.Encode
    (h, p, some { Rel := str "next", URL := hu.2 }, none)

/-- The method `LastPagingLink` on a pointer: not implemented, always nil. -/
def LastPagingLinkRef (p : PageNumberPagination) (h : Heap) (_u : Nat) :
    Heap × PageNumberPagination × Option PagingLinkRef × Option GoError :=
  (h, p, none, none)

/-- The method `PagingLinks` on a pointer `u` into the store `h`. -/
def PagingLinksRef (p : PageNumberPagination) (h : Heap) (u : Nat) :
    Heap × PageNumberPagination × List PagingLinkRef × Option GoError :=
  match p.autoParse (h.cells u) with
  | (p, some err) => (h, p, [], some err)
  | (p, none) =>
    let links : List PagingLinkRef := []
    match p.FirstPagingLinkRef h u with
    | (h, p, _, some err) => (h, p, [], some err)
    | (h, p, firstPage, none) =>
      let links := appendLinkRef links firstPage
      match p.PrevPagingLinkRef h u with
      | (h, p, _, some err) => (h, p, [], some err)
      | (h, p, prevPage, none) =>
        let links := appendLinkRef links prevPage
        match p.NextPagingLinkRef h u with
        | (h, p, _, some err) => (h, p, [], some err)
        | (h, p, nextPage, none) =>
          let links := appendLinkRef links nextPage
          (h, p, links, none)

/-- The store after a method of the page-number strategy was called on the pointer `u`,
and the links it returned. -/
def returnedLinksRef (p : PageNumberPagination) (c : Call) (h : Heap) (u : Nat) :
    Heap × List PagingLinkRef :=
  match c with
  | .parseURL => (h, [])
  | .firstPagingLink => ((p.FirstPagingLinkRef h u).1, (p.FirstPagingLinkRef h u).2.2.1.toList)
  | .prevPagingLink => ((p.PrevPagingLinkRef h u).1, (p.PrevPagingLinkRef h u).2.2.1.toList)
  | .nextPagingLink => ((p.NextPagingLinkRef h u).1, (p.NextPagingLinkRef h u).2.2.1.toList)
  | .lastPagingLink => ((p.LastPagingLinkRef h u).1, (p.LastPagingLinkRef h u).2.2.1.toList)
  | .pagingLinks => ((p.PagingLinksRef h u).1, (p.PagingLinksRef h u).2.2.1)

end PageNumberPagination

namespace OffsetLimitPagination

/-- The method `FirstPagingLink` on a pointer `u` into the store `h`. -/
def FirstPagingLinkRef (p : OffsetLimitPagination) (h : Heap) (u : Nat) :
    Heap × OffsetLimitPagination × Option PagingLinkRef × Option GoError :=
  match p.autoParse (h.cells u) with
  | (p, some err) => (h, p, none, some err)
  | (p, none) =>
    let vs := (h.cells u).Query
    let vs := vs.Set p.OffsetKey (str "0")
    let vs := vs.Set p.LimitKey (Itoa p.PageSize)
    let hu := copyURLRef h u
    let h := hu.1.setRawQuery hu.2 vs.Encode
    (h, p, some { Rel := str "first", URL := hu.2 }, none)

/-- The method `PrevPagingLink` on a pointer `u` into the store `h`. -/
def PrevPagingLinkRef (p : OffsetLimitPagination) (h : Heap) (u : Nat) :
    Heap × OffsetLimitPagination × Option PagingLinkRef × Option GoError :=
  match p.autoParse (h.cells u) with
  | (p, some err) => (h, p, none, some err)
  | (p, none) =>
    if p.Offset.val < p.PageSize.val then (h, p, none, none)
    else
      let vs := (h.cells u).Query
      let vs := vs.Set p.OffsetKey (Itoa (p.Offset.sub p.PageSize))
      let vs := vs.Set p.LimitKey (Itoa p.PageSize)
      let hu := copyURLRef h u
      let h := hu.1.setRawQuery hu.2 vs.Encode
      (h, p, some { Rel := str "prev", URL := hu.2 }, none)

/-- The method `NextPagingLink` on a pointer `u` into the store `h`. -/
def NextPagingLinkRef (p : OffsetLimitPagination) (h : Heap) (u : Nat) :
    Heap × OffsetLimitPagination × Option PagingLinkRef × Option GoError :=
  match p.autoParse (h.cells u) with
  | (p, some err) => (h, p, none, some err)
  | (p, none) =>
    let vs := (h.cells u).Query
    let vs := vs.Set p.OffsetKey (Itoa (p.Offset.add p.PageSize))
    let vs := vs.Set p.LimitKey (Itoa p.PageSize)
    let hu := copyURLRef h u
    let h := hu.1.setRawQuery hu.2 vs.Encode
    (h, p, some { Rel := str "next", URL := hu.2 }, none)

/-- The method `LastPagingLink` on a pointer: not implemented, always nil. -/
def LastPagingLinkRef (p : OffsetLimitPagination) (h : Heap) (_u : Nat) :
    Heap × OffsetLimitPagination × Option PagingLinkRef × Option GoError :=
  (h, p, none, none)

/-- The method `PagingLinks` on a pointer `u` into the store `h`. -/
def PagingLinksRef (p : OffsetLimitPagination) (h : Heap) (u : Nat) :
    Heap × OffsetLimitPagination × List PagingLinkRef × Option GoError :=
  match p.autoParse (h.cells u) with
  | (p, some err) => (h, p, [], some err)
  | (p, none) =>
    let links : List PagingLinkRef := []
    match p.FirstPagingLinkRef h u with
    | (h, p, _, some err) => (h, p, [], some err)
    | (h, p, firstPage, none) =>
      let links := appendLinkRef links firstPage
      match p.PrevPagingLinkRef h u with
      | (h, p, _, some err) => (h, p, [], some err)
      | (h, p, prevPage, none) =>
        let links := appendLinkRef links prevPage
        match p.NextPagingLinkRef h u with
        | (h, p, _, some err) => (h, p, [], some err)
        | (h, p, nextPage, none) =>
          let links := appendLinkRef links nextPage
          (h, p, links, none)

/-- The store after a method of the offset/limit strategy was called on the pointer `u`,
and the links it returned. -/
def returnedLinksRef (p : OffsetLimitPagination) (c : Call) (h : Heap) (u : Nat) :
    Heap × List PagingLinkRef :=
  match c with
  | .parseURL => (h, [])
  | .firstPagingLink => ((p.FirstPagingLinkRef h u).1, (p.FirstPagingLinkRef h u).2.2.1.toList)
  | .prevPagingLink => ((p.PrevPagingLinkRef h u).1, (p.PrevPagingLinkRef h u).2.2.1.toList)
  | .nextPagingLink => ((p.NextPagingLinkRef h u).1, (p.NextPagingLinkRef h u).2.2.1.toList)
  | .lastPagingLink => ((p.LastPagingLinkRef h u).1, (p.LastPagingLinkRef h u).2.2.1.toList)
  | .pagingLinks => ((p.PagingLinksRef h u).1, (p.PagingLinksRef h u).2.2.1)

end OffsetLimitPagination

/-! ## Specification vocabulary -/

/-- The parameter map `m2` is `m` with every key of `kvs` holding exactly its one
value and every other key as in `m`; its keys are distinct. -/
def Values.IsSetOf (m2 m : Values) (kvs : List (GoString × GoString)) : Prop :=
  m2.keys.Nodup ∧
  (∀ kv ∈ kvs, m2.lookup kv.1 = some [kv.2]) ∧
  (∀ k, k ∉ kvs.map Prod.fst → m2.lookup k = m.lookup k)

/-- The URL `u2` is `u` with the query parameters of `kvs` set to single values:
it differs from `u` in the raw query only, which is the encoding of the decoded
query of `u` after the keys were set. -/
def URL.IsRewriteOf (u2 u : URL) (kvs : List (GoString × GoString)) : Prop :=
  ∃ m2 : Values, m2.IsSetOf u.Query kvs ∧ u2 = { u with RawQuery := m2.Encode }

/-- The digits of a numeral: the string without its leading sign, if it has one. -/
def unsignedPart (s : GoString) : GoString :=
  match s with
  | c :: ds => if c = ch '-' ∨ c = ch '+' then ds else c :: ds
  | [] => []

/-- An integer string is an optional sign followed by one or more decimal digits. -/
def isIntegerString (s : GoString) : Bool :=
  decide (unsignedPart s ≠ []) && (unsignedPart s).all isDigit

/-- Positional value of a string of decimal digits. -/
def digitsValue (ds : GoString) : Nat := ds.foldl (fun n c => n * 10 + (c.val - 48)) 0

/-- The integer denoted by an integer string. -/
def integerValue (s : GoString) : Int :=
  if s.head? = some (ch '-') then -(digitsValue (unsignedPart s) : Int)
  else (digitsValue (unsignedPart s) : Int)

/-- The integer a strategy reads from the parameter `key` of a decoded query: the value
denoted by the first value of `key` when that is an integer string within the `int`
range, and the default `d` when the key is missing or its first value is not such a
string. -/
def specInt (vs : Values) (key : GoString) (d : Int) : Int :=
  match vs.lookup key with
  | some (v :: _) =>
    if isIntegerString v = true ∧ minInt ≤ integerValue v ∧ integerValue v ≤ maxInt then
      integerValue v
    else d
  | _ => d

/-- The number of values a map holds, all keys together. -/
def Values.size (m : Values) : Nat := (m.map fun kv => kv.2.length).sum

/-- The key/value pairs of a map in the order in which `Encode` writes them. -/
def Values.pairs (m : Values) : List (GoString × GoString) :=
  m.sortedKeys.flatMap fun k => ((m.lookup k).getD []).map fun v => (k, v)

/-- The values paired with `k` in a list of pairs, in list order. -/
def valuesOf (k : GoString) (kvs : List (GoString × GoString)) : List GoString :=
  (kvs.filter fun kv => decide (kv.1 = k)).map Prod.snd

/-- The page number in effect for a call on `u`: the stored one on a parsed state, the
one read from `u` otherwise. -/
def PageNumberPagination.current (p : PageNumberPagination) (u : URL) : GoInt :=
  if p.parsed then p.PageNumber else (p.ParseURL u).1.PageNumber

/-- The offset in effect for a call on `u`: the stored one on a parsed state, the one
read from `u` otherwise. -/
def OffsetLimitPagination.current (p : OffsetLimitPagination) (u : URL) : GoInt :=
  if p.parsed then p.Offset else (p.ParseURL u).1.Offset

/-- The URLs `u1` and `u2` differ at most in what their queries hold under the keys of
`keys`: all components other than the raw query are equal, and the decoded queries hold
the same list of values under every other key. -/
def URL.AgreeOutside (u1 u2 : URL) (keys : List GoString) : Prop :=
  u2 = { u1 with RawQuery := u2.RawQuery } ∧
  ∀ k, k ∉ keys → u1.Query.lookup k = u2.Query.lookup k

/-- The page a link points to: the page number that a strategy with the key of `c`
reads from the URL of the link. -/
def PageNumberPagination.targetPage (c : PageNumberPagination) (L : PagingLink) : Int :=
  (c.ParseURL L.URL).1.PageNumber.val

/-- The offset a link points to: the offset that a strategy with the keys of `c` reads
from the URL of the link. -/
def OffsetLimitPagination.targetOffset (c : OffsetLimitPagination) (L : PagingLink) : Int :=
  (c.ParseURL L.URL).1.Offset.val

/-- The links a method of the page-number strategy returns on `u`: the link of
`FirstPagingLink`, `PrevPagingLink`, `NextPagingLink` or `LastPagingLink` when it is not
nil, the elements of the collection of `PagingLinks`, nothing for `ParseURL`. -/
def PageNumberPagination.returnedLinks (p : PageNumberPagination) (c : Call) (u : URL) :
    List PagingLink :=
  match c with
  | .parseURL => []
  | .firstPagingLink => (p.FirstPagingLink u).2.1.toList
  | .prevPagingLink => (p.PrevPagingLink u).2.1.toList
  | .nextPagingLink => (p.NextPagingLink u).2.1.toList
  | .lastPagingLink => (p.LastPagingLink u).2.1.toList
  | .pagingLinks => (p.PagingLinks u).2.1

/-- The links a method of the offset/limit strategy returns on `u`. -/
def OffsetLimitPagination.returnedLinks (p : OffsetLimitPagination) (c : Call) (u : URL) :
    List PagingLink :=
  match c with
  | .parseURL => []
  | .firstPagingLink => (p.FirstPagingLink u).2.1.toList
  | .prevPagingLink => (p.PrevPagingLink u).2.1.toList
  | .nextPagingLink => (p.NextPagingLink u).2.1.toList
  | .lastPagingLink => (p.LastPagingLink u).2.1.toList
  | .pagingLinks => (p.PagingLinks u).2.1

/-- The string `q` is the canonical encoding of the parameter map `m`: some list of
key/value pairs in ascending key order, holding under each key the values of the key in
`m` in their order, is rendered pair by pair as escaped key, `=`, escaped value, and the
renderings are joined with `&`. -/
def IsCanonicalEncoding (q : GoString) (m : Values) : Prop :=
  ∃ kvs : List (GoString × GoString),
    (kvs.map Prod.fst).Pairwise (fun a b => strLe a b = true) ∧
    (∀ k, valuesOf k kvs = (m.lookup k).getD []) ∧
    q = List.intercalate [ch '&']
      (kvs.map fun kv => QueryEscape kv.1 ++ [ch '='] ++ QueryEscape kv.2)

/-- The raw query `q` has a bare parameter with key `k`: one of its pieces between two
`&` is not empty, holds neither `=` nor `;`, and unescapes to `k`. -/
def IsBareParameter (q k : GoString) : Prop :=
  ∃ seg ∈ splitOn (ch '&') q,
    seg ≠ [] ∧ ch '=' ∉ seg ∧ ch ';' ∉ seg ∧ QueryUnescape seg = some k

/-- The link value behind a link with a pointer, read in the store `h`. -/
def PagingLinkRef.deref (h : Heap) (L : PagingLinkRef) : PagingLink :=
  { Rel := L.Rel, URL := h.cells L.URL }

/-- The outcome of a value-level accessor, carried to the store `h`: the link, when
there is one, has its URL in a freshly allocated cell. -/
def Heap.lift {S : Type} (h : Heap) (r : S × Option PagingLink × Option GoError) :
    Heap × S × Option PagingLinkRef × Option GoError :=
  match r.2.1 with
  | none => (h, r.1, none, r.2.2)
  | some L => ((h.alloc L.URL).1, r.1, some { Rel := L.Rel, URL := h.next }, r.2.2)

/-- The store `h2` and the links `links` came out of a call on the store `h` that
returned the link values `vs`: no cell of `h` was written, every link points to a cell
allocated since, and the links read in `h2` are `vs`. -/
def Heap.Stores (h h2 : Heap) (links : List PagingLinkRef) (vs : List PagingLink) : Prop :=
  h.next ≤ h2.next ∧ (∀ a, a < h.next → h2.cells a = h.cells a) ∧
  (∀ L ∈ links, h.next ≤ L.URL ∧ L.URL < h2.next) ∧
  links.map (PagingLinkRef.deref h2) = vs

/-- The bytes with a meaning in an encoded query: `&` between pieces, `=` between key
and value, and `;`, which voids a piece. -/
def isSeparator (b : Byte) : Bool := decide (b = ch '&' ∨ b = ch '=' ∨ b = ch ';')

/-! ## Example states and URLs -/

/-- The largest `int` as a page number or offset. -/
def maxGoInt : GoInt := ⟨9223372036854775807, by decide⟩

/-- The `int` value -1. -/
def negOneGoInt : GoInt := ⟨-1, by decide⟩

/-- A page-number state with the default key. -/
def pageState (n : GoInt) (parsed : Bool) : PageNumberPagination :=
  { PageNumberKey := str "page", PageNumber := n, parsed := parsed }

/-- An offset/limit state with the given keys, its limit equal to the page size. -/
def offsetState (offsetKey limitKey : GoString) (pageSize offset : GoInt) (parsed : Bool) :
    OffsetLimitPagination :=
  { OffsetKey := offsetKey, LimitKey := limitKey, PageSize := pageSize, Offset := offset,
    Limit := pageSize, parsed := parsed }

/-- The offset/limit state of the tests: default keys, page size 50, offset 100, parsed. -/
def offsetExample : OffsetLimitPagination :=
  offsetState (str "offset") (str "limit") (GoInt.lit 50) (GoInt.lit 100) true

/-- An offset/limit state whose two keys are both named `k`. -/
def sameKeyExample : OffsetLimitPagination :=
  offsetState (str "k") (str "k") (GoInt.lit 50) (GoInt.lit 100) true

/-- An offset/limit state at the largest offset, with page size 50. -/
def maxOffsetExample : OffsetLimitPagination :=
  offsetState (str "offset") (str "limit") (GoInt.lit 50) maxGoInt true

/-- An example URL `https://www.example.com/foo?q` with raw query `q`. -/
def exampleURL (q : GoString) : URL :=
  { Scheme := str "https", Opaque := [], User := none, Host := str "www.example.com",
    Path := str "/foo", RawPath := [], OmitHost := false, ForceQuery := false,
    RawQuery := q, Fragment := [], RawFragment := [] }

/-- An example URL carrying parameters of both strategies. -/
def exampleBoth : URL := exampleURL (str "page=3&offset=100&limit=20")

/-- An unparsed offset/limit state whose two keys are both named `k`. -/
def sameKeyFresh : OffsetLimitPagination :=
  offsetState (str "k") (str "k") (GoInt.lit 50) (GoInt.lit 0) false

/-- A parsed offset/limit state whose two keys are both named `k`, at offset 50 with
page size 50. -/
def sameKeyAtPageSize : OffsetLimitPagination :=
  offsetState (str "k") (str "k") (GoInt.lit 50) (GoInt.lit 50) true

/-- A store with one cell, holding `?page=3&offset=100&limit=20`. -/
def exampleHeap : Heap := { cells := fun _ => exampleBoth, next := 1 }

/-- The query that holds the parameter `a=1` `n` times. -/
def repeatedQuery (n : Nat) : GoString :=
  List.intercalate [ch '&'] (List.replicate n (str "a=1"))

/-- A URL whose query holds the parameter `a=1` 10000 times, as many parameters as
`net/url` decodes. -/
def manyParams : URL := exampleURL (repeatedQuery 10000)

/-- The query that is the bare parameter `b` followed by `n` times `&`. -/
def bareQuery (n : Nat) : GoString := str "b" ++ List.replicate n (ch '&')

/-- A URL whose query is the bare parameter `b` followed by 10000 empty parameters, one
parameter more than `net/url` decodes. -/
def bareOverLimit : URL := exampleURL (bareQuery 10000)

/-! ## Lemmas on integers and parameter maps -/

theorem wrapInt_of_range (x : Int) (h1 : minInt ≤ x) (h2 : x ≤ maxInt) : wrapInt x = x := by
  unfold wrapInt
  unfold minInt at h1
  unfold maxInt at h2
  omega

theorem Values.lookup_store_self (m : Values) (k : GoString) (vs : List GoString) :
    (m.store k vs).lookup k = some vs := by
  induction m with
  | nil => simp [Values.store, Values.lookup]
  | cons e rest ih =>
    obtain ⟨k1, old⟩ := e
    by_cases h : k1 = k
    · simp [Values.store, Values.lookup, h]
    · simp [Values.store, Values.lookup, h, ih]

theorem Values.lookup_store_ne (m : Values) (k k2 : GoString) (vs : List GoString)
    (h : k2 ≠ k) : (m.store k vs).lookup k2 = m.lookup k2 := by
  induction m with
  | nil => simp [Values.store, Values.lookup, Ne.symm h]
  | cons e rest ih =>
    obtain ⟨k1, old⟩ := e
    by_cases h1 : k1 = k
    · subst h1
      simp [Values.store, Values.lookup, Ne.symm h]
    · by_cases h2 : k1 = k2
      · subst h2
        simp [Values.store, Values.lookup, h]
      · simp [Values.store, Values.lookup, h1, h2, ih]

theorem Values.mem_keys_store (m : Values) (k k2 : GoString) (vs : List GoString) :
    k2 ∈ (m.store k vs).keys ↔ k2 = k ∨ k2 ∈ m.keys := by
  induction m with
  | nil => simp [Values.store, Values.keys]
  | cons e rest ih =>
    obtain ⟨k1, old⟩ := e
    by_cases h1 : k1 = k
    · subst h1
      simp [Values.store, Values.keys]
    · simp only [Values.keys] at ih
      simp only [Values.store, h1, if_false, Values.keys, List.map_cons, List.mem_cons, ih]
      tauto

theorem Values.nodup_keys_store (m : Values) (k : GoString) (vs : List GoString)
    (h : m.keys.Nodup) : (m.store k vs).keys.Nodup := by
  induction m with
  | nil => simp [Values.store, Values.keys]
  | cons e rest ih =>
    obtain ⟨k1, old⟩ := e
    by_cases h1 : k1 = k
    · subst h1
      simpa [Values.store, Values.keys] using h
    · have hk : (Values.keys ((k1, old) :: rest)) = k1 :: Values.keys rest := rfl
      rw [hk, List.nodup_cons] at h
      have hs : Values.store ((k1, old) :: rest) k vs = (k1, old) :: Values.store rest k vs := by
        simp [Values.store, h1]
      have hk2 : Values.keys ((k1, old) :: Values.store rest k vs)
          = k1 :: Values.keys (Values.store rest k vs) := rfl
      rw [hs, hk2, List.nodup_cons]
      refine ⟨?_, ih h.2⟩
      rw [Values.mem_keys_store]
      rintro (h3 | h3)
      · exact h1 h3
      · exact h.1 h3

theorem Values.lookup_eq_none_iff (m : Values) (k : GoString) :
    m.lookup k = none ↔ k ∉ m.keys := by
  induction m with
  | nil => simp [Values.lookup, Values.keys]
  | cons e rest ih =>
    obtain ⟨k1, old⟩ := e
    simp only [Values.keys] at ih
    by_cases h1 : k1 = k
    · simp [Values.lookup, Values.keys, h1]
    · simp [Values.lookup, Values.keys, h1, ih, Ne.symm h1]

theorem parseQueryStep_nodup (m : Values) (seg : GoString) (h : m.keys.Nodup) :
    (parseQueryStep m seg).keys.Nodup := by
  unfold parseQueryStep
  split
  · exact h
  · split
    · exact h
    · split
      · exact h
      · split
        · exact h
        · exact Values.nodup_keys_store _ _ _ h

theorem foldl_parseQueryStep_nodup (segs : List GoString) (m : Values) (h : m.keys.Nodup) :
    (segs.foldl parseQueryStep m).keys.Nodup := by
  induction segs generalizing m with
  | nil => exact h
  | cons s rest ih => exact ih _ (parseQueryStep_nodup m s h)

theorem parseQuery_of_within (q : GoString) (h : paramCount q ≤ 10000) :
    parseQuery q = (splitOn (ch '&') q).foldl parseQueryStep [] := by
  simp [parseQuery, urlParamsWithinMax, h]

theorem parseQuery_of_over (q : GoString) (h : 10000 < paramCount q) : parseQuery q = [] := by
  simp [parseQuery, urlParamsWithinMax, Nat.not_le.2 h]

theorem parseQuery_nodup (q : GoString) : (parseQuery q).keys.Nodup := by
  by_cases h : paramCount q ≤ 10000
  · rw [parseQuery_of_within q h]
    exact foldl_parseQueryStep_nodup _ [] (by simp [Values.keys])
  · rw [parseQuery_of_over q (Nat.not_le.1 h)]
    simp [Values.keys]

/-! ## The key order and the encoding -/

theorem strLe_total (a b : GoString) : strLe a b = true ∨ strLe b a = true := by
  induction a generalizing b with
  | nil => left; simp [strLe]
  | cons x xs ih =>
    cases b with
    | nil => right; simp [strLe]
    | cons y ys =>
      rcases lt_trichotomy x y with h | h | h
      · left; simp [strLe, h]
      · subst h
        simpa [strLe] using ih ys
      · right; simp [strLe, h]

theorem strLe_trans (a b c : GoString) (h1 : strLe a b = true) (h2 : strLe b c = true) :
    strLe a c = true := by
  induction a generalizing b c with
  | nil => simp [strLe]
  | cons x xs ih =>
    cases b with
    | nil => simp [strLe] at h1
    | cons y ys =>
      cases c with
      | nil => simp [strLe] at h2
      | cons z zs =>
        simp only [strLe] at h1 h2 ⊢
        by_cases hxy : x < y
        · by_cases hyz : y < z
          · simp [lt_trans hxy hyz]
          · by_cases hzy : z < y
            · simp [hyz, hzy] at h2
            · have hyz2 : y = z := le_antisymm (not_lt.1 hzy) (not_lt.1 hyz)
              subst hyz2
              simp [hxy]
        · by_cases hyx : y < x
          · simp [hxy, hyx] at h1
          · have hxy2 : x = y := le_antisymm (not_lt.1 hyx) (not_lt.1 hxy)
            subst hxy2
            simp only [hxy, if_false] at h1
            by_cases hxz : x < z
            · simp [hxz]
            · by_cases hzx : z < x
              · simp [hxz, hzx] at h2
              · simp only [hxz, hzx, if_false] at h2 ⊢
                exact ih ys zs h1 h2

theorem strLe_antisymm (a b : GoString) (h1 : strLe a b = true) (h2 : strLe b a = true) :
    a = b := by
  induction a generalizing b with
  | nil =>
    cases b with
    | nil => rfl
    | cons y ys => simp [strLe] at h2
  | cons x xs ih =>
    cases b with
    | nil => simp [strLe] at h1
    | cons y ys =>
      simp only [strLe] at h1 h2
      by_cases hxy : x < y
      · simp [hxy, not_lt_of_lt hxy] at h2
      · by_cases hyx : y < x
        · simp [hxy, hyx] at h1
        · have hxy2 : x = y := le_antisymm (not_lt.1 hyx) (not_lt.1 hxy)
          subst hxy2
          simp only [hxy, if_false] at h1 h2
          rw [ih ys h1 h2]

theorem Values.sortedKeys_congr (m m2 : Values) (h1 : m.keys.Nodup) (h2 : m2.keys.Nodup)
    (h : ∀ k, m.lookup k = m2.lookup k) : m.sortedKeys = m2.sortedKeys := by
  have hperm : m.keys.Perm m2.keys := by
    refine (List.perm_ext_iff_of_nodup h1 h2).2 (fun k => ?_)
    rw [← not_iff_not, ← Values.lookup_eq_none_iff, ← Values.lookup_eq_none_iff, h k]
  haveI : IsTotal GoString (fun a b => strLe a b = true) := ⟨strLe_total⟩
  haveI : IsTrans GoString (fun a b => strLe a b = true) := ⟨strLe_trans⟩
  haveI : IsAntisymm GoString (fun a b => strLe a b = true) := ⟨strLe_antisymm⟩
  unfold Values.sortedKeys
  refine List.eq_of_perm_of_sorted (r := fun a b => strLe a b = true) ?_
    (List.sorted_insertionSort _ _) (List.sorted_insertionSort _ _)
  exact ((List.perm_insertionSort _ _).trans hperm).trans (List.perm_insertionSort _ _).symm

/-- The encoding depends on the content of a map only, not on the order of insertion. -/
theorem Values.Encode_congr (m m2 : Values) (h1 : m.keys.Nodup) (h2 : m2.keys.Nodup)
    (h : ∀ k, m.lookup k = m2.lookup k) : m.Encode = m2.Encode := by
  unfold Values.Encode
  rw [Values.sortedKeys_congr m m2 h1 h2 h]
  have hf : (fun k => List.map (fun v => QueryEscape k ++ [ch '='] ++ QueryEscape v)
        ((m.lookup k).getD []))
      = (fun k => List.map (fun v => QueryEscape k ++ [ch '='] ++ QueryEscape v)
        ((m2.lookup k).getD [])) := by
    funext k
    rw [h k]
  rw [hf]

theorem Values.IsSetOf.encode_eq {m2 m3 m : Values} {kvs : List (GoString × GoString)}
    (h2 : m2.IsSetOf m kvs) (h3 : m3.IsSetOf m kvs) : m2.Encode = m3.Encode := by
  refine Values.Encode_congr m2 m3 h2.1 h3.1 (fun k => ?_)
  by_cases hk : k ∈ kvs.map Prod.fst
  · obtain ⟨kv, hkv, rfl⟩ := List.mem_map.1 hk
    rw [h2.2.1 kv hkv, h3.2.1 kv hkv]
  · rw [h2.2.2 k hk, h3.2.2 k hk]

/-- No map holds two different single values under one key. -/
theorem Values.IsSetOf.same_key {m2 m : Values} {k v1 v2 : GoString}
    {rest : List (GoString × GoString)} (h : m2.IsSetOf m ((k, v1) :: (k, v2) :: rest)) :
    v1 = v2 := by
  have h1 := h.2.1 (k, v1) (List.mem_cons_self _ _)
  have h2 := h.2.1 (k, v2) (List.mem_cons_of_mem _ (List.mem_cons_self _ _))
  simp only [h1, Option.some.injEq, List.cons.injEq, and_true] at h2
  exact h2

/-- A URL has at most one rewrite for a given list of parameter settings. -/
theorem URL.IsRewriteOf.unique {u2 u3 u : URL} {kvs : List (GoString × GoString)}
    (h2 : u2.IsRewriteOf u kvs) (h3 : u3.IsRewriteOf u kvs) : u2 = u3 := by
  obtain ⟨m2, hm2, rfl⟩ := h2
  obtain ⟨m3, hm3, rfl⟩ := h3
  rw [hm2.encode_eq hm3]

theorem Values.isSetOf_set (m : Values) (k v : GoString) (h : m.keys.Nodup) :
    (m.Set k v).IsSetOf m [(k, v)] := by
  refine ⟨Values.nodup_keys_store _ _ _ h, ?_, ?_⟩
  · intro kv hkv
    simp only [List.mem_singleton] at hkv
    subst hkv
    exact Values.lookup_store_self _ _ _
  · intro k2 hk2
    simp only [List.map_cons, List.map_nil, List.mem_singleton] at hk2
    exact Values.lookup_store_ne _ _ _ _ hk2

theorem Values.isSetOf_set_set (m : Values) (k1 v1 k2 v2 : GoString) (h : m.keys.Nodup)
    (hne : k1 ≠ k2) : ((m.Set k1 v1).Set k2 v2).IsSetOf m [(k1, v1), (k2, v2)] := by
  refine ⟨Values.nodup_keys_store _ _ _ (Values.nodup_keys_store _ _ _ h), ?_, ?_⟩
  · intro kv hkv
    simp only [List.mem_cons, List.mem_singleton, List.not_mem_nil, or_false] at hkv
    rcases hkv with rfl | rfl
    · show Values.lookup (Values.store (Values.store m k1 [v1]) k2 [v2]) k1 = some [v1]
      rw [Values.lookup_store_ne _ _ _ _ hne, Values.lookup_store_self]
    · exact Values.lookup_store_self _ _ _
  · intro k hk
    simp only [List.map_cons, List.map_nil, List.mem_cons, List.mem_singleton,
      List.not_mem_nil, or_false, not_or] at hk
    show Values.lookup (Values.store (Values.store m k1 [v1]) k2 [v2]) k = m.lookup k
    rw [Values.lookup_store_ne _ _ _ _ hk.2, Values.lookup_store_ne _ _ _ _ hk.1]

/-- Setting one key of the decoded query and re-encoding rewrites that parameter. -/
theorem URL.isRewriteOf_set (u : URL) (k v : GoString) :
    URL.IsRewriteOf { u with RawQuery := (u.Query.Set k v).Encode } u [(k, v)] :=
  ⟨_, Values.isSetOf_set _ k v (parseQuery_nodup _), rfl⟩

/-- Setting two distinct keys of the decoded query and re-encoding rewrites both. -/
theorem URL.isRewriteOf_set_set (u : URL) (k1 v1 k2 v2 : GoString) (hne : k1 ≠ k2) :
    URL.IsRewriteOf { u with RawQuery := ((u.Query.Set k1 v1).Set k2 v2).Encode } u
      [(k1, v1), (k2, v2)] :=
  ⟨_, Values.isSetOf_set_set _ k1 v1 k2 v2 (parseQuery_nodup _) hne, rfl⟩

/-! ## The page-number strategy -/

namespace PageNumberPagination

theorem autoParse_eq (p : PageNumberPagination) (u : URL) :
    p.autoParse u = ((p.autoParse u).1, none) ∧
    (p.autoParse u).1.PageNumberKey = p.PageNumberKey ∧
    (p.autoParse u).1.parsed = true ∧
    (p.parsed = true → (p.autoParse u).1 = p) := by
  cases hp : p.parsed <;> simp [autoParse, ParseURL, hp]

theorem FirstPagingLink_eq (p : PageNumberPagination) (u : URL) :
    p.FirstPagingLink u = ((p.autoParse u).1,
      some { Rel := str "first",
             URL := { u with RawQuery := (u.Query.Set p.PageNumberKey (str "1")).Encode } },
      none) := by
  obtain ⟨h1, h2, -, -⟩ := autoParse_eq p u
  unfold FirstPagingLink
  rw [h1]
  simp only [copyURL, h2]

theorem PrevPagingLink_eq (p : PageNumberPagination) (u : URL) :
    p.PrevPagingLink u =
      if (p.autoParse u).1.PageNumber.val < 2 then ((p.autoParse u).1, none, none)
      else ((p.autoParse u).1,
        some { Rel := str "prev",
               URL := { u with RawQuery := (u.Query.Set p.PageNumberKey
                 (Itoa ((p.autoParse u).1.PageNumber.sub (GoInt.lit 1)))).Encode } },
        none) := by
  obtain ⟨h1, h2, -, -⟩ := autoParse_eq p u
  unfold PrevPagingLink
  rw [h1]
  simp only [copyURL, h2]

theorem NextPagingLink_eq (p : PageNumberPagination) (u : URL) :
    p.NextPagingLink u = ((p.autoParse u).1,
      some { Rel := str "next",
             URL := { u with RawQuery := (u.Query.Set p.PageNumberKey
               (Itoa ((p.autoParse u).1.PageNumber.add (GoInt.lit 1)))).Encode } },
      none) := by
  obtain ⟨h1, h2, -, -⟩ := autoParse_eq p u
  unfold NextPagingLink
  rw [h1]
  simp only [copyURL, h2]

/-- C1: on a parsed page-number state with page number `p`, `PrevPagingLink` returns
no link and no error when `p < 2`, and otherwise a link with relation `prev` whose URL
is the given URL with the page parameter set to the single value `decimal (p - 1)`. -/
theorem prevPagingLink_parsed (p : PageNumberPagination) (u : URL) (h : p.parsed = true) :
    if p.PageNumber.val < 2 then (p.PrevPagingLink u).2 = (none, none)
    else ∃ l, (p.PrevPagingLink u).2 = (some l, none) ∧ l.Rel = str "prev" ∧
      l.URL.IsRewriteOf u [(p.PageNumberKey, decimal (p.PageNumber.val - 1))] := by
  have hp : (p.autoParse u).1 = p := (autoParse_eq p u).2.2.2 h
  rw [PrevPagingLink_eq, hp]
  by_cases hlt : p.PageNumber.val < 2
  · simp [hlt]
  · simp only [hlt, if_false]
    refine ⟨_, rfl, rfl, ?_⟩
    have hval : Itoa (p.PageNumber.sub (GoInt.lit 1)) = decimal (p.PageNumber.val - 1) := by
      have hr := p.PageNumber.property
      unfold minInt maxInt at hr
      have hw : wrapInt (p.PageNumber.val - 1) = p.PageNumber.val - 1 :=
        wrapInt_of_range _ (by unfold minInt; omega) (by unfold maxInt; omega)
      simp only [Itoa, GoInt.sub, GoInt.wrap, GoInt.lit, Nat.cast_one, hw]
    rw [hval]
    exact URL.isRewriteOf_set u _ _

/-- Instance of C1 at page 3 of `?bar+baz%3Aqux&page=3`. -/
theorem prevPagingLink_parsed_witness :
    (pageState (GoInt.lit 3) true).parsed = true ∧
    (if (pageState (GoInt.lit 3) true).PageNumber.val < 2 then
      ((pageState (GoInt.lit 3) true).PrevPagingLink
        (exampleURL (str "bar+baz%3Aqux&page=3"))).2 = (none, none)
    else ∃ l, ((pageState (GoInt.lit 3) true).PrevPagingLink
        (exampleURL (str "bar+baz%3Aqux&page=3"))).2 = (some l, none) ∧ l.Rel = str "prev" ∧
      l.URL.IsRewriteOf (exampleURL (str "bar+baz%3Aqux&page=3"))
        [((pageState (GoInt.lit 3) true).PageNumberKey,
          decimal ((pageState (GoInt.lit 3) true).PageNumber.val - 1))]) :=
  ⟨rfl, prevPagingLink_parsed (pageState (GoInt.lit 3) true)
    (exampleURL (str "bar+baz%3Aqux&page=3")) rfl⟩

/-- C2 fails at the largest page number: the `int` addition wraps, the link carries
`page=-9223372036854775808`, which is not the URL with the page parameter set to
`decimal (p + 1)`. -/
theorem nextPagingLink_overflow :
    ((pageState maxGoInt true).NextPagingLink (exampleURL [])).2.1.map
        (fun l => l.URL.RawQuery) = some (str "page=-9223372036854775808") ∧
    ¬ ∃ l, ((pageState maxGoInt true).NextPagingLink (exampleURL [])).2 = (some l, none) ∧
      l.Rel = str "next" ∧
      l.URL.IsRewriteOf (exampleURL [])
        [((pageState maxGoInt true).PageNumberKey,
          decimal ((pageState maxGoInt true).PageNumber.val + 1))] := by
  refine ⟨by decide, ?_⟩
  rintro ⟨l, hl, -, hrw⟩
  have hu := hrw.unique (URL.isRewriteOf_set (exampleURL []) _ _)
  rw [NextPagingLink_eq] at hl
  have hl2 := congrArg (fun r => r.1.map (fun l => l.URL.RawQuery)) hl
  simp only [Option.map_some', hu] at hl2
  revert hl2
  decide

/-- C2, amended: on a parsed page-number state with page number `p < 2^63 - 1`,
`NextPagingLink` returns a link with relation `next` whose URL is the given URL with
the page parameter set to the single value `decimal (p + 1)`, and no error. -/
theorem nextPagingLink_parsed (p : PageNumberPagination) (u : URL) (h : p.parsed = true)
    (hmax : p.PageNumber.val < maxInt) :
    ∃ l, (p.NextPagingLink u).2 = (some l, none) ∧ l.Rel = str "next" ∧
      l.URL.IsRewriteOf u [(p.PageNumberKey, decimal (p.PageNumber.val + 1))] := by
  have hp : (p.autoParse u).1 = p := (autoParse_eq p u).2.2.2 h
  rw [NextPagingLink_eq, hp]
  refine ⟨_, rfl, rfl, ?_⟩
  have hval : Itoa (p.PageNumber.add (GoInt.lit 1)) = decimal (p.PageNumber.val + 1) := by
    have hr := p.PageNumber.property
    unfold minInt at hr
    unfold maxInt at hmax
    have hw : wrapInt (p.PageNumber.val + 1) = p.PageNumber.val + 1 :=
      wrapInt_of_range _ (by unfold minInt; omega) (by unfold maxInt; omega)
    simp only [Itoa, GoInt.add, GoInt.wrap, GoInt.lit, Nat.cast_one, hw]
  rw [hval]
  exact URL.isRewriteOf_set u _ _

/-- Instance of the amended C2 at page 3 of `?bar+baz%3Aqux&page=3`. -/
theorem nextPagingLink_parsed_witness :
    (pageState (GoInt.lit 3) true).parsed = true ∧
    (pageState (GoInt.lit 3) true).PageNumber.val < maxInt ∧
    ∃ l, ((pageState (GoInt.lit 3) true).NextPagingLink
        (exampleURL (str "bar+baz%3Aqux&page=3"))).2 = (some l, none) ∧ l.Rel = str "next" ∧
      l.URL.IsRewriteOf (exampleURL (str "bar+baz%3Aqux&page=3"))
        [((pageState (GoInt.lit 3) true).PageNumberKey,
          decimal ((pageState (GoInt.lit 3) true).PageNumber.val + 1))] :=
  ⟨rfl, by decide, nextPagingLink_parsed (pageState (GoInt.lit 3) true)
    (exampleURL (str "bar+baz%3Aqux&page=3")) rfl (by decide)⟩

/-- C3: on every page-number state, parsed or not, `FirstPagingLink` returns a link
with relation `first` whose URL is the given URL with the page parameter set to the
single value `1`, and no error; the result is the same whatever the stored page number
and parsed flag are. -/
theorem firstPagingLink_spec (p : PageNumberPagination) (u : URL) (n : GoInt) (b : Bool) :
    (∃ l, (p.FirstPagingLink u).2 = (some l, none) ∧ l.Rel = str "first" ∧
      l.URL.IsRewriteOf u [(p.PageNumberKey, str "1")]) ∧
    ({ p with PageNumber := n, parsed := b }.FirstPagingLink u).2 = (p.FirstPagingLink u).2 := by
  rw [FirstPagingLink_eq, FirstPagingLink_eq]
  exact ⟨⟨_, rfl, rfl, URL.isRewriteOf_set u _ _⟩, rfl⟩

end PageNumberPagination

/-! ## The offset/limit strategy -/

namespace OffsetLimitPagination

theorem offset_autoParse_eq (p : OffsetLimitPagination) (u : URL) :
    p.autoParse u = ((p.autoParse u).1, none) ∧
    (p.autoParse u).1.OffsetKey = p.OffsetKey ∧
    (p.autoParse u).1.LimitKey = p.LimitKey ∧
    (p.autoParse u).1.PageSize = p.PageSize ∧
    (p.autoParse u).1.parsed = true ∧
    (p.parsed = true → (p.autoParse u).1 = p) := by
  cases hp : p.parsed <;> simp [autoParse, ParseURL, hp]

theorem offset_FirstPagingLink_eq (p : OffsetLimitPagination) (u : URL) :
    p.FirstPagingLink u = ((p.autoParse u).1,
      some { Rel := str "first",
             URL := { u with RawQuery := ((u.Query.Set p.OffsetKey (str "0")).Set p.LimitKey
               (Itoa p.PageSize)).Encode } },
      none) := by
  obtain ⟨h1, h2, h3, h4, -, -⟩ := offset_autoParse_eq p u
  unfold FirstPagingLink
  rw [h1]
  simp only [copyURL, h2, h3, h4]

theorem offset_PrevPagingLink_eq (p : OffsetLimitPagination) (u : URL) :
    p.PrevPagingLink u =
      if (p.autoParse u).1.Offset.val < p.PageSize.val then ((p.autoParse u).1, none, none)
      else ((p.autoParse u).1,
        some { Rel := str "prev",
               URL := { u with RawQuery := ((u.Query.Set p.OffsetKey
                 (Itoa ((p.autoParse u).1.Offset.sub p.PageSize))).Set p.LimitKey
                 (Itoa p.PageSize)).Encode } },
        none) := by
  obtain ⟨h1, h2, h3, h4, -, -⟩ := offset_autoParse_eq p u
  unfold PrevPagingLink
  rw [h1]
  simp only [copyURL, h2, h3, h4]

theorem offset_NextPagingLink_eq (p : OffsetLimitPagination) (u : URL) :
    p.NextPagingLink u = ((p.autoParse u).1,
      some { Rel := str "next",
             URL := { u with RawQuery := ((u.Query.Set p.OffsetKey
               (Itoa ((p.autoParse u).1.Offset.add p.PageSize))).Set p.LimitKey
               (Itoa p.PageSize)).Encode } },
      none) := by
  obtain ⟨h1, h2, h3, h4, -, -⟩ := offset_autoParse_eq p u
  unfold NextPagingLink
  rw [h1]
  simp only [copyURL, h2, h3, h4]

/-- C4 fails in two kinds of states. With offset `2^63 - 1` and page size `-1` the `int`
subtraction wraps and the link carries `offset=-9223372036854775808`, not
`decimal (o - s)`. With the same name for both keys the second assignment overwrites
the first: the link carries `k=50` alone, so the offset parameter is not `decimal (o - s)`. -/
theorem prevPagingLink_offset_counterexample :
    (((offsetState (str "offset") (str "limit") negOneGoInt maxGoInt true).PrevPagingLink
        (exampleURL [])).2.1.map (fun l => l.URL.RawQuery)
      = some (str "limit=-1&offset=-9223372036854775808") ∧
     ¬ ∃ l, ((offsetState (str "offset") (str "limit") negOneGoInt maxGoInt true).PrevPagingLink
          (exampleURL [])).2 = (some l, none) ∧ l.Rel = str "prev" ∧
        l.URL.IsRewriteOf (exampleURL [])
          [(str "offset", decimal (maxGoInt.val - negOneGoInt.val)),
           (str "limit", decimal negOneGoInt.val)]) ∧
    (((offsetState (str "k") (str "k") (GoInt.lit 50) (GoInt.lit 150) true).PrevPagingLink
        (exampleURL [])).2.1.map (fun l => l.URL.RawQuery) = some (str "k=50") ∧
     ¬ ∃ l, ((offsetState (str "k") (str "k") (GoInt.lit 50) (GoInt.lit 150) true).PrevPagingLink
          (exampleURL [])).2 = (some l, none) ∧ l.Rel = str "prev" ∧
        l.URL.IsRewriteOf (exampleURL [])
          [(str "k", decimal ((GoInt.lit 150).val - (GoInt.lit 50).val)),
           (str "k", decimal (GoInt.lit 50).val)]) := by
  refine ⟨⟨by decide, ?_⟩, ⟨by decide, ?_⟩⟩
  · rintro ⟨l, hl, -, hrw⟩
    have hu := hrw.unique
      (URL.isRewriteOf_set_set (exampleURL []) _ _ _ _ (by decide))
    rw [offset_PrevPagingLink_eq] at hl
    have hl2 := congrArg (fun r => r.1.map (fun l => l.URL.RawQuery)) hl
    rw [if_neg (by decide)] at hl2
    simp only [Option.map_some', hu] at hl2
    revert hl2
    decide
  · rintro ⟨l, -, -, m2, hset, -⟩
    have h2 := Values.IsSetOf.same_key hset
    revert h2
    decide

/-- C4, amended: on a parsed offset/limit state with distinct offset and limit keys,
offset `o` and page size `s` such that `o - s` does not exceed `2^63 - 1` (as for every
`s >= 0`), `PrevPagingLink` returns no link and no error when `o < s`, and otherwise a
link with relation `prev` whose URL is the given URL with the offset parameter set to
`decimal (o - s)` and the limit parameter set to `decimal s`. -/
theorem prevPagingLink_offset_parsed (p : OffsetLimitPagination) (u : URL)
    (h : p.parsed = true) (hk : p.OffsetKey ≠ p.LimitKey)
    (ho : p.Offset.val - p.PageSize.val ≤ maxInt) :
    if p.Offset.val < p.PageSize.val then (p.PrevPagingLink u).2 = (none, none)
    else ∃ l, (p.PrevPagingLink u).2 = (some l, none) ∧ l.Rel = str "prev" ∧
      l.URL.IsRewriteOf u
        [(p.OffsetKey, decimal (p.Offset.val - p.PageSize.val)),
         (p.LimitKey, decimal p.PageSize.val)] := by
  have hp : (p.autoParse u).1 = p := (offset_autoParse_eq p u).2.2.2.2.2 h
  rw [offset_PrevPagingLink_eq, hp]
  by_cases hlt : p.Offset.val < p.PageSize.val
  · simp [hlt]
  · simp only [hlt, if_false]
    refine ⟨_, rfl, rfl, ?_⟩
    have hval : Itoa (p.Offset.sub p.PageSize) = decimal (p.Offset.val - p.PageSize.val) := by
      have hw : wrapInt (p.Offset.val - p.PageSize.val) = p.Offset.val - p.PageSize.val :=
        wrapInt_of_range _ (by unfold minInt; omega) ho
      simp only [Itoa, GoInt.sub, GoInt.wrap, hw]
    rw [hval]
    exact URL.isRewriteOf_set_set u _ _ _ _ hk

/-- Instance of the amended C4 at offset 100 with page size 50. -/
theorem prevPagingLink_offset_parsed_witness :
    (offsetState (str "offset") (str "limit") (GoInt.lit 50) (GoInt.lit 100) true).parsed = true ∧
    str "offset" ≠ str "limit" ∧
    (GoInt.lit 100).val - (GoInt.lit 50).val ≤ maxInt ∧
    (if (offsetState (str "offset") (str "limit") (GoInt.lit 50) (GoInt.lit 100) true).Offset.val
        < (offsetState (str "offset") (str "limit") (GoInt.lit 50) (GoInt.lit 100) true).PageSize.val
     then ((offsetState (str "offset") (str "limit") (GoInt.lit 50) (GoInt.lit 100) true).PrevPagingLink
        (exampleURL (str "offset=100&limit=50"))).2 = (none, none)
     else ∃ l, ((offsetState (str "offset") (str "limit") (GoInt.lit 50) (GoInt.lit 100)
          true).PrevPagingLink (exampleURL (str "offset=100&limit=50"))).2 = (some l, none) ∧
        l.Rel = str "prev" ∧
        l.URL.IsRewriteOf (exampleURL (str "offset=100&limit=50"))
          [((offsetState (str "offset") (str "limit") (GoInt.lit 50) (GoInt.lit 100) true).OffsetKey,
            decimal ((offsetState (str "offset") (str "limit") (GoInt.lit 50) (GoInt.lit 100)
              true).Offset.val
              - (offsetState (str "offset") (str "limit") (GoInt.lit 50) (GoInt.lit 100)
              true).PageSize.val)),
           ((offsetState (str "offset") (str "limit") (GoInt.lit 50) (GoInt.lit 100) true).LimitKey,
            decimal (offsetState (str "offset") (str "limit") (GoInt.lit 50) (GoInt.lit 100)
              true).PageSize.val)]) :=
  ⟨rfl, by decide, by decide,
    prevPagingLink_offset_parsed
      (offsetState (str "offset") (str "limit") (GoInt.lit 50) (GoInt.lit 100) true)
      (exampleURL (str "offset=100&limit=50")) rfl (by decide) (by decide)⟩

/-- C5 fails in two kinds of states. At offset `2^63 - 1` with page size 50 the `int`
addition wraps and the link carries `offset=-9223372036854775759`, not
`decimal (o + s)`. With the same name for both keys the link carries `k=50` alone, so
the offset parameter is not `decimal (o + s)`. -/
theorem nextPagingLink_offset_counterexample :
    ((maxOffsetExample.NextPagingLink (exampleURL [])).2.1.map (fun l => l.URL.RawQuery)
      = some (str "limit=50&offset=-9223372036854775759") ∧
     ¬ ∃ l, (maxOffsetExample.NextPagingLink (exampleURL [])).2 = (some l, none) ∧
        l.Rel = str "next" ∧
        l.URL.IsRewriteOf (exampleURL [])
          [(maxOffsetExample.OffsetKey,
            decimal (maxOffsetExample.Offset.val + maxOffsetExample.PageSize.val)),
           (maxOffsetExample.LimitKey, decimal maxOffsetExample.PageSize.val)]) ∧
    ((sameKeyExample.NextPagingLink (exampleURL [])).2.1.map (fun l => l.URL.RawQuery)
      = some (str "k=50") ∧
     ¬ ∃ l, (sameKeyExample.NextPagingLink (exampleURL [])).2 = (some l, none) ∧
        l.Rel = str "next" ∧
        l.URL.IsRewriteOf (exampleURL [])
          [(sameKeyExample.OffsetKey,
            decimal (sameKeyExample.Offset.val + sameKeyExample.PageSize.val)),
           (sameKeyExample.LimitKey, decimal sameKeyExample.PageSize.val)]) := by
  refine ⟨⟨by decide, ?_⟩, ⟨by decide, ?_⟩⟩
  · rintro ⟨l, hl, -, hrw⟩
    have hu := hrw.unique
      (URL.isRewriteOf_set_set (exampleURL []) _ _ _ _ (by decide))
    rw [offset_NextPagingLink_eq] at hl
    have hl2 := congrArg (fun r => r.1.map (fun l => l.URL.RawQuery)) hl
    simp only [Option.map_some', hu] at hl2
    revert hl2
    decide
  · rintro ⟨l, -, -, m2, hset, -⟩
    have h2 := Values.IsSetOf.same_key hset
    revert h2
    decide

/-- C5, amended: on a parsed offset/limit state with distinct offset and limit keys,
offset `o` and page size `s` such that `o + s` lies in the `int` range,
`NextPagingLink` returns a link with relation `next` whose URL is the given URL with
the offset parameter set to `decimal (o + s)` and the limit parameter set to
`decimal s`, and no error. -/
theorem nextPagingLink_offset_parsed (p : OffsetLimitPagination) (u : URL)
    (h : p.parsed = true) (hk : p.OffsetKey ≠ p.LimitKey)
    (hlo : minInt ≤ p.Offset.val + p.PageSize.val)
    (hhi : p.Offset.val + p.PageSize.val ≤ maxInt) :
    ∃ l, (p.NextPagingLink u).2 = (some l, none) ∧ l.Rel = str "next" ∧
      l.URL.IsRewriteOf u
        [(p.OffsetKey, decimal (p.Offset.val + p.PageSize.val)),
         (p.LimitKey, decimal p.PageSize.val)] := by
  have hp : (p.autoParse u).1 = p := (offset_autoParse_eq p u).2.2.2.2.2 h
  rw [offset_NextPagingLink_eq, hp]
  refine ⟨_, rfl, rfl, ?_⟩
  have hval : Itoa (p.Offset.add p.PageSize) = decimal (p.Offset.val + p.PageSize.val) := by
    simp only [Itoa, GoInt.add, GoInt.wrap, wrapInt_of_range _ hlo hhi]
  rw [hval]
  exact URL.isRewriteOf_set_set u _ _ _ _ hk

/-- Instance of the amended C5 at offset 100 with page size 50. -/
theorem nextPagingLink_offset_parsed_witness :
    offsetExample.parsed = true ∧ offsetExample.OffsetKey ≠ offsetExample.LimitKey ∧
    minInt ≤ offsetExample.Offset.val + offsetExample.PageSize.val ∧
    offsetExample.Offset.val + offsetExample.PageSize.val ≤ maxInt ∧
    ∃ l, (offsetExample.NextPagingLink (exampleURL (str "offset=100&limit=50"))).2
        = (some l, none) ∧ l.Rel = str "next" ∧
      l.URL.IsRewriteOf (exampleURL (str "offset=100&limit=50"))
        [(offsetExample.OffsetKey,
          decimal (offsetExample.Offset.val + offsetExample.PageSize.val)),
         (offsetExample.LimitKey, decimal offsetExample.PageSize.val)] :=
  ⟨rfl, by decide, by decide, by decide,
    nextPagingLink_offset_parsed offsetExample (exampleURL (str "offset=100&limit=50"))
      rfl (by decide) (by decide) (by decide)⟩

/-- C6 fails when both keys have the same name: the limit assignment overwrites the
offset assignment, the link carries `k=50` alone and the offset parameter is not `0`. -/
theorem firstPagingLink_offset_counterexample :
    (sameKeyExample.FirstPagingLink (exampleURL [])).2.1.map (fun l => l.URL.RawQuery)
      = some (str "k=50") ∧
    ¬ ∃ l, (sameKeyExample.FirstPagingLink (exampleURL [])).2 = (some l, none) ∧
      l.Rel = str "first" ∧
      l.URL.IsRewriteOf (exampleURL [])
        [(sameKeyExample.OffsetKey, str "0"),
         (sameKeyExample.LimitKey, decimal sameKeyExample.PageSize.val)] := by
  refine ⟨by decide, ?_⟩
  rintro ⟨l, -, -, m2, hset, -⟩
  have h2 := Values.IsSetOf.same_key hset
  revert h2
  decide

/-- C6, amended: on every offset/limit state with distinct offset and limit keys,
parsed or not, `FirstPagingLink` returns a link with relation `first` whose URL is the
given URL with the offset parameter set to `0` and the limit parameter set to
`decimal PageSize`, and no error; the result is the same whatever the stored offset,
limit and parsed flag are, so the offset and limit requested by the URL play no part. -/
theorem firstPagingLink_offset_spec (p : OffsetLimitPagination) (u : URL)
    (hk : p.OffsetKey ≠ p.LimitKey) (o n : GoInt) (b : Bool) :
    (∃ l, (p.FirstPagingLink u).2 = (some l, none) ∧ l.Rel = str "first" ∧
      l.URL.IsRewriteOf u [(p.OffsetKey, str "0"), (p.LimitKey, decimal p.PageSize.val)]) ∧
    ({ p with Offset := o, Limit := n, parsed := b }.FirstPagingLink u).2
      = (p.FirstPagingLink u).2 := by
  rw [offset_FirstPagingLink_eq, offset_FirstPagingLink_eq]
  exact ⟨⟨_, rfl, rfl, URL.isRewriteOf_set_set u _ _ _ _ hk⟩, rfl⟩

/-- Instance of the amended C6 on the unparsed default state and `?offset=100&limit=7`. -/
theorem firstPagingLink_offset_spec_witness :
    NewOffsetLimitPagination.OffsetKey ≠ NewOffsetLimitPagination.LimitKey ∧
    (∃ l, (NewOffsetLimitPagination.FirstPagingLink
        (exampleURL (str "offset=100&limit=7"))).2 = (some l, none) ∧ l.Rel = str "first" ∧
      l.URL.IsRewriteOf (exampleURL (str "offset=100&limit=7"))
        [(NewOffsetLimitPagination.OffsetKey, str "0"),
         (NewOffsetLimitPagination.LimitKey, decimal NewOffsetLimitPagination.PageSize.val)]) ∧
    ({ NewOffsetLimitPagination with
        Offset := GoInt.lit 100, Limit := GoInt.lit 7, parsed := true }.FirstPagingLink
        (exampleURL (str "offset=100&limit=7"))).2
      = (NewOffsetLimitPagination.FirstPagingLink (exampleURL (str "offset=100&limit=7"))).2 :=
  ⟨by decide,
    firstPagingLink_offset_spec NewOffsetLimitPagination
      (exampleURL (str "offset=100&limit=7")) (by decide) (GoInt.lit 100) (GoInt.lit 7) true⟩

end OffsetLimitPagination

/-! ## Last links and aggregated links -/

/-- C7: `LastPagingLink` of both strategies returns no link and no error, on every
state, parsed or not, and every URL. -/
theorem lastPagingLink_none (p : PageNumberPagination) (q : OffsetLimitPagination) (u : URL) :
    (p.LastPagingLink u).2 = (none, none) ∧ (q.LastPagingLink u).2 = (none, none) :=
  ⟨rfl, rfl⟩

namespace PageNumberPagination

theorem autoParse_idem (p : PageNumberPagination) (u : URL) :
    (p.autoParse u).1.autoParse u = ((p.autoParse u).1, none) := by
  obtain ⟨-, -, h3, -⟩ := autoParse_eq p u
  obtain ⟨h1, -, -, h4⟩ := autoParse_eq (p.autoParse u).1 u
  rw [h1, h4 h3]

theorem PagingLinks_eq (p : PageNumberPagination) (u : URL) :
    p.PagingLinks u = ((p.autoParse u).1,
      appendLink (appendLink (appendLink [] (p.FirstPagingLink u).2.1)
        (p.PrevPagingLink u).2.1) (p.NextPagingLink u).2.1,
      none) := by
  obtain ⟨h1, h2, -, -⟩ := autoParse_eq p u
  have hq : ((p.autoParse u).1.autoParse u).1 = (p.autoParse u).1 := by rw [autoParse_idem]
  have e1 : (p.autoParse u).1.FirstPagingLink u = p.FirstPagingLink u := by
    rw [FirstPagingLink_eq, FirstPagingLink_eq p u, hq, h2]
  have e2 : (p.autoParse u).1.PrevPagingLink u = p.PrevPagingLink u := by
    rw [PrevPagingLink_eq, PrevPagingLink_eq p u, hq, h2]
  have e3 : (p.autoParse u).1.NextPagingLink u = p.NextPagingLink u := by
    rw [NextPagingLink_eq, NextPagingLink_eq p u, hq, h2]
  have s1 : p.FirstPagingLink u = ((p.autoParse u).1, (p.FirstPagingLink u).2.1, none) := by
    rw [FirstPagingLink_eq]
  have s2 : p.PrevPagingLink u = ((p.autoParse u).1, (p.PrevPagingLink u).2.1, none) := by
    rw [PrevPagingLink_eq]
    split <;> rfl
  have s3 : p.NextPagingLink u = ((p.autoParse u).1, (p.NextPagingLink u).2.1, none) := by
    rw [NextPagingLink_eq]
  unfold PagingLinks
  rw [h1]
  simp only []
  rw [e1, s1]
  simp only []
  rw [e2, s2]
  simp only []
  rw [e3, s3]

/-- C8: with `n` the page number in effect (the stored one on a parsed state, the one
read from the URL otherwise), `PagingLinks` returns exactly the links of
`FirstPagingLink`, `PrevPagingLink` and `NextPagingLink`, in this order, when `n >= 2`,
and exactly those of `FirstPagingLink` and `NextPagingLink` when `n < 2`, where
`PrevPagingLink` gives none; their relations are `first`, `prev`, `next`, and no
element has the relation `last`. -/
theorem pagingLinks_page_spec (p : PageNumberPagination) (u : URL) :
    (if 2 ≤ (if p.parsed then p.PageNumber else (p.ParseURL u).1.PageNumber).val then
      ∃ f pr nx, (p.FirstPagingLink u).2 = (some f, none) ∧
        (p.PrevPagingLink u).2 = (some pr, none) ∧ (p.NextPagingLink u).2 = (some nx, none) ∧
        (p.PagingLinks u).2 = ([f, pr, nx], none) ∧
        f.Rel = str "first" ∧ pr.Rel = str "prev" ∧ nx.Rel = str "next"
    else
      ∃ f nx, (p.FirstPagingLink u).2 = (some f, none) ∧
        (p.PrevPagingLink u).2 = (none, none) ∧ (p.NextPagingLink u).2 = (some nx, none) ∧
        (p.PagingLinks u).2 = ([f, nx], none) ∧
        f.Rel = str "first" ∧ nx.Rel = str "next") ∧
    ∀ l ∈ (p.PagingLinks u).2.1, l.Rel ≠ str "last" := by
  have heff : (if p.parsed then p.PageNumber else (p.ParseURL u).1.PageNumber)
      = (p.autoParse u).1.PageNumber := by
    cases hp : p.parsed <;> simp [autoParse, hp]
  rw [heff, PagingLinks_eq, PrevPagingLink_eq, FirstPagingLink_eq, NextPagingLink_eq]
  by_cases hlt : (p.autoParse u).1.PageNumber.val < 2
  · have hge : ¬ 2 ≤ (p.autoParse u).1.PageNumber.val := not_le.2 hlt
    rw [if_neg hge, if_pos hlt]
    refine ⟨⟨_, _, rfl, rfl, rfl, rfl, rfl, rfl⟩, ?_⟩
    intro l hl
    simp only [appendLink, List.nil_append, List.cons_append, List.mem_cons,
      List.not_mem_nil, or_false] at hl
    rcases hl with rfl | rfl
    · exact (by decide : str "first" ≠ str "last")
    · exact (by decide : str "next" ≠ str "last")
  · have hge : 2 ≤ (p.autoParse u).1.PageNumber.val := not_lt.1 hlt
    rw [if_pos hge, if_neg hlt]
    refine ⟨⟨_, _, _, rfl, rfl, rfl, rfl, rfl, rfl, rfl⟩, ?_⟩
    intro l hl
    simp only [appendLink, List.nil_append, List.cons_append, List.mem_cons,
      List.not_mem_nil, or_false] at hl
    rcases hl with rfl | rfl | rfl
    · exact (by decide : str "first" ≠ str "last")
    · exact (by decide : str "prev" ≠ str "last")
    · exact (by decide : str "next" ≠ str "last")

end PageNumberPagination

namespace OffsetLimitPagination

theorem offset_autoParse_idem (p : OffsetLimitPagination) (u : URL) :
    (p.autoParse u).1.autoParse u = ((p.autoParse u).1, none) := by
  obtain ⟨-, -, -, -, h5, -⟩ := offset_autoParse_eq p u
  obtain ⟨h1, -, -, -, -, h6⟩ := offset_autoParse_eq (p.autoParse u).1 u
  rw [h1, h6 h5]

theorem offset_PagingLinks_eq (p : OffsetLimitPagination) (u : URL) :
    p.PagingLinks u = ((p.autoParse u).1,
      appendLink (appendLink (appendLink [] (p.FirstPagingLink u).2.1)
        (p.PrevPagingLink u).2.1) (p.NextPagingLink u).2.1,
      none) := by
  obtain ⟨h1, h2, h3, h4, -, -⟩ := offset_autoParse_eq p u
  have hq : ((p.autoParse u).1.autoParse u).1 = (p.autoParse u).1 := by
    rw [offset_autoParse_idem]
  have e1 : (p.autoParse u).1.FirstPagingLink u = p.FirstPagingLink u := by
    rw [offset_FirstPagingLink_eq, offset_FirstPagingLink_eq p u, hq, h2, h3, h4]
  have e2 : (p.autoParse u).1.PrevPagingLink u = p.PrevPagingLink u := by
    rw [offset_PrevPagingLink_eq, offset_PrevPagingLink_eq p u, hq, h2, h3, h4]
  have e3 : (p.autoParse u).1.NextPagingLink u = p.NextPagingLink u := by
    rw [offset_NextPagingLink_eq, offset_NextPagingLink_eq p u, hq, h2, h3, h4]
  have s1 : p.FirstPagingLink u = ((p.autoParse u).1, (p.FirstPagingLink u).2.1, none) := by
    rw [offset_FirstPagingLink_eq]
  have s2 : p.PrevPagingLink u = ((p.autoParse u).1, (p.PrevPagingLink u).2.1, none) := by
    rw [offset_PrevPagingLink_eq]
    split <;> rfl
  have s3 : p.NextPagingLink u = ((p.autoParse u).1, (p.NextPagingLink u).2.1, none) := by
    rw [offset_NextPagingLink_eq]
  unfold PagingLinks
  rw [h1]
  simp only []
  rw [e1, s1]
  simp only []
  rw [e2, s2]
  simp only []
  rw [e3, s3]

/-- C9: with `o` the offset in effect (the stored one on a parsed state, the one read
from the URL otherwise), `PagingLinks` returns exactly the links of `FirstPagingLink`,
`PrevPagingLink` and `NextPagingLink`, in this order, when `o >= PageSize`, and exactly
those of `FirstPagingLink` and `NextPagingLink` when `o < PageSize`, where
`PrevPagingLink` gives none; their relations are `first`, `prev`, `next`. -/
theorem pagingLinks_offset_spec (p : OffsetLimitPagination) (u : URL) :
    if p.PageSize.val ≤ (if p.parsed then p.Offset else (p.ParseURL u).1.Offset).val then
      ∃ f pr nx, (p.FirstPagingLink u).2 = (some f, none) ∧
        (p.PrevPagingLink u).2 = (some pr, none) ∧ (p.NextPagingLink u).2 = (some nx, none) ∧
        (p.PagingLinks u).2 = ([f, pr, nx], none) ∧
        f.Rel = str "first" ∧ pr.Rel = str "prev" ∧ nx.Rel = str "next"
    else
      ∃ f nx, (p.FirstPagingLink u).2 = (some f, none) ∧
        (p.PrevPagingLink u).2 = (none, none) ∧ (p.NextPagingLink u).2 = (some nx, none) ∧
        (p.PagingLinks u).2 = ([f, nx], none) ∧
        f.Rel = str "first" ∧ nx.Rel = str "next" := by
  have heff : (if p.parsed then p.Offset else (p.ParseURL u).1.Offset)
      = (p.autoParse u).1.Offset := by
    cases hp : p.parsed <;> simp [autoParse, hp]
  rw [heff, offset_PagingLinks_eq, offset_PrevPagingLink_eq, offset_FirstPagingLink_eq,
    offset_NextPagingLink_eq]
  by_cases hlt : (p.autoParse u).1.Offset.val < p.PageSize.val
  · have hge : ¬ p.PageSize.val ≤ (p.autoParse u).1.Offset.val := not_le.2 hlt
    rw [if_neg hge, if_pos hlt]
    exact ⟨_, _, rfl, rfl, rfl, rfl, rfl, rfl⟩
  · have hge : p.PageSize.val ≤ (p.autoParse u).1.Offset.val := not_lt.1 hlt
    rw [if_pos hge, if_neg hlt]
    exact ⟨_, _, _, rfl, rfl, rfl, rfl, rfl, rfl, rfl⟩

end OffsetLimitPagination

/-! ## Reading integers -/

theorem parseDigits_eq (ds : GoString) (n : Nat) :
    parseDigits ds n =
      if ds.all isDigit = true then some (ds.foldl (fun n c => n * 10 + (c.val - 48)) n)
      else none := by
  induction ds generalizing n with
  | nil => simp [parseDigits]
  | cons c cs ih =>
    by_cases hc : isDigit c = true
    · simp [parseDigits, hc, ih]
    · simp [parseDigits, hc]

theorem atoi_neg_aux (N : Nat) (P : Prop) [Decidable P] (hP : P) :
    Option.map Subtype.val
      (if h : (N : Int) ≤ 9223372036854775808 then
        some (⟨-(N : Int), by unfold minInt maxInt; omega⟩ : GoInt)
      else none) =
    if P ∧ minInt ≤ -(N : Int) ∧ -(N : Int) ≤ maxInt then some (-(N : Int)) else none := by
  by_cases h : (N : Int) ≤ 9223372036854775808
  · rw [dif_pos h, if_pos ⟨hP, by unfold minInt; omega, by unfold maxInt; omega⟩]
    rfl
  · rw [dif_neg h, if_neg (fun hc => h (by have := hc.2.1; unfold minInt at this; omega))]
    rfl

theorem atoi_pos_aux (N : Nat) (P : Prop) [Decidable P] (hP : P) :
    Option.map Subtype.val
      (if h : (N : Int) ≤ 9223372036854775807 then
        some (⟨(N : Int), by unfold minInt maxInt; omega⟩ : GoInt)
      else none) =
    if P ∧ minInt ≤ (N : Int) ∧ (N : Int) ≤ maxInt then some (N : Int) else none := by
  by_cases h : (N : Int) ≤ 9223372036854775807
  · rw [dif_pos h, if_pos ⟨hP, by unfold minInt; omega, by unfold maxInt; omega⟩]
    rfl
  · rw [dif_neg h, if_neg (fun hc => h (by have := hc.2.2; unfold maxInt at this; omega))]
    rfl

/-- `Atoi` succeeds exactly on the integer strings whose value lies in the `int` range,
and then returns the value denoted. -/
theorem Atoi_val (s : GoString) :
    (Atoi s).map Subtype.val =
      if isIntegerString s = true ∧ minInt ≤ integerValue s ∧ integerValue s ≤ maxInt then
        some (integerValue s)
      else none := by
  cases s with
  | nil => simp [Atoi, isIntegerString, unsignedPart]
  | cons c rest =>
    by_cases hm : c = ch '-'
    · subst hm
      simp only [Atoi, isIntegerString, unsignedPart, integerValue, List.head?_cons,
        List.tail_cons, true_or, if_true, decide_True, parseDigits_eq, digitsValue]
      by_cases hr : rest = []
      · simp [hr]
      · by_cases hd : rest.all isDigit = true
        · simp only [hr, hd, if_false, if_true]
          exact atoi_neg_aux _ _ (by simp [hr])
        · simp [hr, hd]
    · by_cases hp : c = ch '+'
      · subst hp
        simp only [Atoi, isIntegerString, unsignedPart, integerValue, List.head?_cons,
          List.tail_cons, or_true, if_true, parseDigits_eq, digitsValue, Option.some.injEq,
          hm, decide_False, if_false]
        by_cases hr : rest = []
        · simp [hr]
        · by_cases hd : rest.all isDigit = true
          · simp only [hr, hd, if_false, if_true]
            exact atoi_pos_aux _ _ (by simp [hr])
          · simp [hr, hd]
      · simp only [Atoi, isIntegerString, unsignedPart, integerValue, List.head?_cons,
          List.tail_cons, parseDigits_eq, digitsValue, Option.some.injEq, hm, hp,
          decide_False, if_false, or_self]
        by_cases hd : (c :: rest).all isDigit = true
        · simp only [hd, if_true]
          rw [if_neg (by simp)]
          exact atoi_pos_aux _ _ (by simp)
        · simp [hd]

/-- `vsGetInt` reads the integer that `specInt` describes. -/
theorem vsGetInt_val (vs : Values) (key : GoString) (d : GoInt) :
    (vsGetInt vs key d).val = specInt vs key d.val := by
  have hA : ∀ s : GoString, (match Atoi s with | none => d | some i => i).val
      = if isIntegerString s = true ∧ minInt ≤ integerValue s ∧ integerValue s ≤ maxInt then
          integerValue s else d.val := by
    intro s
    have h := Atoi_val s
    cases hs : Atoi s with
    | none =>
      rw [hs] at h
      by_cases hc : isIntegerString s = true ∧ minInt ≤ integerValue s ∧ integerValue s ≤ maxInt
      · rw [if_pos hc] at h
        simp at h
      · rw [if_neg hc]
    | some i =>
      rw [hs] at h
      by_cases hc : isIntegerString s = true ∧ minInt ≤ integerValue s ∧ integerValue s ≤ maxInt
      · rw [if_pos hc] at h ⊢
        simpa using h
      · rw [if_neg hc] at h
        simp at h
  have hempty : isIntegerString ([] : GoString) = false := by decide
  unfold vsGetInt specInt Values.Get
  simp only []
  cases hl : vs.lookup key with
  | none => simp [hA, hempty]
  | some l =>
    cases l with
    | nil => simp [hA, hempty]
    | cons v rest => simp only [hA]

namespace PageNumberPagination

/-- C10 fails on an integer string beyond the `int` range: `?page=9223372036854775808`
carries an integer string of value `2^63`, and `ParseURL` stores page number 1. -/
theorem parseURL_page_out_of_range :
    (exampleURL (str "page=9223372036854775808")).Query.lookup
        NewPageNumberPagination.PageNumberKey = some [str "9223372036854775808"] ∧
    isIntegerString (str "9223372036854775808") = true ∧
    integerValue (str "9223372036854775808") = 9223372036854775808 ∧
    (NewPageNumberPagination.ParseURL
        (exampleURL (str "page=9223372036854775808"))).1.PageNumber.val = 1 ∧
    (NewPageNumberPagination.ParseURL
        (exampleURL (str "page=9223372036854775808"))).1.PageNumber.val
      ≠ integerValue (str "9223372036854775808") := by
  decide

/-- C10, amended: after `ParseURL` the page number is the integer denoted by the first
value of the page parameter when that value is an integer string within the 64-bit
`int` range, and 1 when the parameter is missing, not an integer string or out of
range; the state is parsed, the key is unchanged and the error is nil. -/
theorem parseURL_page_spec (p : PageNumberPagination) (u : URL) :
    (p.ParseURL u).1.PageNumber.val = specInt u.Query p.PageNumberKey 1 ∧
    (p.ParseURL u).1.parsed = true ∧
    (p.ParseURL u).1.PageNumberKey = p.PageNumberKey ∧
    (p.ParseURL u).2 = none := by
  refine ⟨?_, rfl, rfl, rfl⟩
  show (vsGetInt u.Query p.PageNumberKey (GoInt.lit 1)).val = _
  rw [vsGetInt_val]
  rfl

/-- The examples of C10: `?bar+baz%3Aqux&page=2` gives page 2, a URL without a page
parameter gives page 1, and so do a non-numeric and an out-of-range value. -/
theorem parseURL_page_examples :
    (NewPageNumberPagination.ParseURL (exampleURL (str "bar+baz%3Aqux&page=2"))).1
      = pageState (GoInt.lit 2) true ∧
    (NewPageNumberPagination.ParseURL (exampleURL [])).1 = pageState (GoInt.lit 1) true ∧
    ((pageState (GoInt.lit 7) true).ParseURL (exampleURL (str "page=abc"))).1
      = pageState (GoInt.lit 1) true ∧
    ((pageState (GoInt.lit 7) true).ParseURL (exampleURL (str "page=-3&page=9"))).1.PageNumber.val
      = -3 := by
  decide

end PageNumberPagination

/-! ## Parsing of the offset/limit strategy and `vsGetInt` -/

namespace OffsetLimitPagination

/-- C11 fails on an integer string beyond the `int` range:
`?offset=9223372036854775808` carries an integer string of value `2^63`, and `ParseURL`
stores offset 0. -/
theorem parseURL_offset_out_of_range :
    (exampleURL (str "offset=9223372036854775808")).Query.lookup
        NewOffsetLimitPagination.OffsetKey = some [str "9223372036854775808"] ∧
    isIntegerString (str "9223372036854775808") = true ∧
    integerValue (str "9223372036854775808") = 9223372036854775808 ∧
    (NewOffsetLimitPagination.ParseURL
        (exampleURL (str "offset=9223372036854775808"))).1.Offset.val = 0 ∧
    (NewOffsetLimitPagination.ParseURL
        (exampleURL (str "offset=9223372036854775808"))).1.Offset.val
      ≠ integerValue (str "9223372036854775808") := by
  decide

/-- C11, amended: after `ParseURL` the offset is the integer denoted by the first value
of the offset parameter when that value is an integer string within the 64-bit `int`
range, and 0 when the parameter is missing, not an integer string or out of range; the
limit is read in the same way from the limit parameter, with the page size as default;
the state is parsed, both keys and the page size are unchanged and the error is nil. -/
theorem parseURL_offset_spec (p : OffsetLimitPagination) (u : URL) :
    (p.ParseURL u).1.Offset.val = specInt u.Query p.OffsetKey 0 ∧
    (p.ParseURL u).1.Limit.val = specInt u.Query p.LimitKey p.PageSize.val ∧
    (p.ParseURL u).1.parsed = true ∧
    (p.ParseURL u).1.OffsetKey = p.OffsetKey ∧
    (p.ParseURL u).1.LimitKey = p.LimitKey ∧
    (p.ParseURL u).1.PageSize = p.PageSize ∧
    (p.ParseURL u).2 = none := by
  refine ⟨?_, ?_, rfl, rfl, rfl, rfl, rfl⟩
  · show (vsGetInt u.Query p.OffsetKey (GoInt.lit 0)).val = _
    rw [vsGetInt_val]
    rfl
  · show (vsGetInt u.Query p.LimitKey p.PageSize).val = _
    rw [vsGetInt_val]

/-- The example of the tests for C11, and a URL without parameters, with a malformed
offset and with a second value. -/
theorem parseURL_offset_examples :
    (NewOffsetLimitPagination.ParseURL
        (exampleURL (str "bar+baz%3Aqux&offset=100&limit=50"))).1
      = offsetState (str "offset") (str "limit") (GoInt.lit 50) (GoInt.lit 100) true ∧
    (NewOffsetLimitPagination.ParseURL (exampleURL [])).1
      = offsetState (str "offset") (str "limit") (GoInt.lit 50) (GoInt.lit 0) true ∧
    (NewOffsetLimitPagination.ParseURL (exampleURL (str "offset=x&limit=7&limit=9"))).1
      = { offsetState (str "offset") (str "limit") (GoInt.lit 50) (GoInt.lit 0) true with
          Limit := GoInt.lit 7 } := by
  decide

end OffsetLimitPagination

/-- C12 fails on an integer string beyond the `int` range: with `foo` holding
`9223372036854775808`, an integer string of value `2^63`, `vsGetInt` returns the
default 1. -/
theorem vsGetInt_out_of_range :
    Values.lookup [(str "foo", [str "9223372036854775808"])] (str "foo")
      = some [str "9223372036854775808"] ∧
    isIntegerString (str "9223372036854775808") = true ∧
    integerValue (str "9223372036854775808") = 9223372036854775808 ∧
    (vsGetInt [(str "foo", [str "9223372036854775808"])] (str "foo") (GoInt.lit 1)).val = 1 ∧
    (vsGetInt [(str "foo", [str "9223372036854775808"])] (str "foo") (GoInt.lit 1)).val
      ≠ integerValue (str "9223372036854775808") := by
  decide

/-- C12, amended: `vsGetInt vs key d` is the integer denoted by the first value stored
under `key` when that value is an integer string within the 64-bit `int` range, and `d`
in every other case: key absent, key with an empty value list, first value empty, not
an integer string, or out of range. It is a total function. -/
theorem vsGetInt_spec (vs : Values) (key : GoString) (d : GoInt) :
    (vsGetInt vs key d).val =
      (match vs.lookup key with
        | none => d.val
        | some [] => d.val
        | some (v :: _) =>
          if isIntegerString v = true ∧ minInt ≤ integerValue v ∧ integerValue v ≤ maxInt then
            integerValue v
          else d.val) ∧
    isIntegerString [] = false := by
  refine ⟨?_, by decide⟩
  rw [vsGetInt_val]
  unfold specInt
  cases hl : vs.lookup key with
  | none => rfl
  | some l =>
    cases l with
    | nil => rfl
    | cons v rest => rfl

/-- The examples of the tests for C12: `13` gives 13; `str`, a nil value list and an
absent key give the default 1. -/
theorem vsGetInt_examples :
    vsGetInt [(str "foo", [str "13"])] (str "foo") (GoInt.lit 1) = GoInt.lit 13 ∧
    vsGetInt [(str "foo", [str "str"])] (str "foo") (GoInt.lit 1) = GoInt.lit 1 ∧
    vsGetInt [(str "foo", [])] (str "foo") (GoInt.lit 1) = GoInt.lit 1 ∧
    vsGetInt [] (str "foo") (GoInt.lit 1) = GoInt.lit 1 ∧
    vsGetInt [(str "foo", [str ""])] (str "foo") (GoInt.lit 1) = GoInt.lit 1 := by
  decide

/-! ## Text form of links -/

/-- C13: the text form of a link with relation `r` and URL `u` is `<`, the text form
of `u`, `>; rel="`, `r` and a closing `"`, in this order and with nothing else. -/
theorem pagingLink_String_spec (urlString : URL → GoString) (r : GoString) (u : URL) :
    PagingLink.String urlString { Rel := r, URL := u }
      = str "<" ++ urlString u ++ str ">; rel=\"" ++ r ++ str "\"" := by
  have h : PagingLink.String urlString { Rel := r, URL := u }
      = str "<" ++ (urlString u ++ (str ">; rel=\"" ++ (r ++ str "\""))) := rfl
  rw [h]
  simp only [List.append_assoc]

theorem foldl_append_singleton {α β : Type} (f : α → β) (ls : List α) (acc : List β) :
    ls.foldl (fun links link => links ++ [f link]) acc = acc ++ ls.map f := by
  induction ls generalizing acc with
  | nil => simp
  | cons a rest ih => simp [ih]

theorem intercalate_cons_cons (sep a b : GoString) (rest : List GoString) :
    List.intercalate sep (a :: b :: rest) = a ++ sep ++ List.intercalate sep (b :: rest) := by
  simp [List.intercalate, List.intersperse]

theorem foldl_join_eq (sep : GoString) (rest : List GoString) (pre a : GoString) :
    rest.foldl (fun b e => b ++ sep ++ e) (pre ++ a)
      = pre ++ List.intercalate sep (a :: rest) := by
  induction rest generalizing pre a with
  | nil => simp [List.intercalate, List.intersperse]
  | cons b r ih =>
    rw [List.foldl_cons, intercalate_cons_cons]
    have h := ih (pre ++ a ++ sep) b
    simp only [List.append_assoc] at h ⊢
    exact h

/-- Go `strings.Join` is the interleaving of the elements with the separator. -/
theorem Join_eq_intercalate (elems : List GoString) (sep : GoString) :
    Join elems sep = List.intercalate sep elems := by
  cases elems with
  | nil => simp [Join, List.intercalate, List.intersperse]
  | cons a rest =>
    have h := foldl_join_eq sep rest [] a
    simpa [Join] using h

/-- C14: the text form of a collection of links is the text forms of its elements, in
list order, interleaved with the one-byte string `,`; the empty collection renders
as the empty string, a single link as its own text form, and two links as their text
forms with one comma between them. -/
theorem pagingLinks_String_spec (urlString : URL → GoString) (ls : PagingLinks)
    (l l2 : PagingLink) :
    PagingLinks.String urlString ls
      = List.intercalate [ch ','] (ls.map (PagingLink.String urlString)) ∧
    PagingLinks.String urlString [] = [] ∧
    PagingLinks.String urlString [l] = l.String urlString ∧
    PagingLinks.String urlString [l, l2]
      = l.String urlString ++ [ch ','] ++ l2.String urlString := by
  have h : ∀ xs : PagingLinks, PagingLinks.String urlString xs
      = List.intercalate [ch ','] (xs.map (PagingLink.String urlString)) := by
    intro xs
    unfold PagingLinks.String
    simp only []
    rw [foldl_append_singleton, Join_eq_intercalate, List.nil_append]
    rfl
  refine ⟨h ls, ?_, ?_, ?_⟩
  · rw [h]; rfl
  · rw [h]; simp [List.intercalate, List.intersperse]
  · rw [h]; simp [List.intercalate, List.intersperse]

/-! ## Automatic parsing and repeated parsing -/

namespace PageNumberPagination

theorem autoParse_of_unparsed (p : PageNumberPagination) (u : URL) (h : p.parsed = false) :
    p.autoParse u = p.ParseURL u := by
  simp [autoParse, h]

theorem accessors_after_autoParse (p : PageNumberPagination) (u : URL) :
    (p.autoParse u).1.FirstPagingLink u = p.FirstPagingLink u ∧
    (p.autoParse u).1.PrevPagingLink u = p.PrevPagingLink u ∧
    (p.autoParse u).1.NextPagingLink u = p.NextPagingLink u ∧
    (p.autoParse u).1.PagingLinks u = p.PagingLinks u := by
  obtain ⟨-, h2, -, -⟩ := autoParse_eq p u
  have hq : ((p.autoParse u).1.autoParse u).1 = (p.autoParse u).1 := by rw [autoParse_idem]
  have e1 : (p.autoParse u).1.FirstPagingLink u = p.FirstPagingLink u := by
    rw [FirstPagingLink_eq, FirstPagingLink_eq p u, hq, h2]
  have e2 : (p.autoParse u).1.PrevPagingLink u = p.PrevPagingLink u := by
    rw [PrevPagingLink_eq, PrevPagingLink_eq p u, hq, h2]
  have e3 : (p.autoParse u).1.NextPagingLink u = p.NextPagingLink u := by
    rw [NextPagingLink_eq, NextPagingLink_eq p u, hq, h2]
  refine ⟨e1, e2, e3, ?_⟩
  rw [PagingLinks_eq, PagingLinks_eq p u, hq, e1, e2, e3]

theorem state_after_accessor (p : PageNumberPagination) (u : URL) :
    (p.FirstPagingLink u).1 = (p.autoParse u).1 ∧
    (p.PrevPagingLink u).1 = (p.autoParse u).1 ∧
    (p.NextPagingLink u).1 = (p.autoParse u).1 ∧
    (p.PagingLinks u).1 = (p.autoParse u).1 := by
  refine ⟨by rw [FirstPagingLink_eq], ?_, by rw [NextPagingLink_eq], by rw [PagingLinks_eq]⟩
  rw [PrevPagingLink_eq]
  split <;> rfl

end PageNumberPagination

namespace OffsetLimitPagination

theorem offset_autoParse_of_unparsed (p : OffsetLimitPagination) (u : URL)
    (h : p.parsed = false) : p.autoParse u = p.ParseURL u := by
  simp [autoParse, h]

theorem offset_accessors_after_autoParse (p : OffsetLimitPagination) (u : URL) :
    (p.autoParse u).1.FirstPagingLink u = p.FirstPagingLink u ∧
    (p.autoParse u).1.PrevPagingLink u = p.PrevPagingLink u ∧
    (p.autoParse u).1.NextPagingLink u = p.NextPagingLink u ∧
    (p.autoParse u).1.PagingLinks u = p.PagingLinks u := by
  obtain ⟨-, h2, h3, h4, -, -⟩ := offset_autoParse_eq p u
  have hq : ((p.autoParse u).1.autoParse u).1 = (p.autoParse u).1 := by
    rw [offset_autoParse_idem]
  have e1 : (p.autoParse u).1.FirstPagingLink u = p.FirstPagingLink u := by
    rw [offset_FirstPagingLink_eq, offset_FirstPagingLink_eq p u, hq, h2, h3, h4]
  have e2 : (p.autoParse u).1.PrevPagingLink u = p.PrevPagingLink u := by
    rw [offset_PrevPagingLink_eq, offset_PrevPagingLink_eq p u, hq, h2, h3, h4]
  have e3 : (p.autoParse u).1.NextPagingLink u = p.NextPagingLink u := by
    rw [offset_NextPagingLink_eq, offset_NextPagingLink_eq p u, hq, h2, h3, h4]
  refine ⟨e1, e2, e3, ?_⟩
  rw [offset_PagingLinks_eq, offset_PagingLinks_eq p u, hq, e1, e2, e3]

theorem offset_state_after_accessor (p : OffsetLimitPagination) (u : URL) :
    (p.FirstPagingLink u).1 = (p.autoParse u).1 ∧
    (p.PrevPagingLink u).1 = (p.autoParse u).1 ∧
    (p.NextPagingLink u).1 = (p.autoParse u).1 ∧
    (p.PagingLinks u).1 = (p.autoParse u).1 := by
  refine ⟨by rw [offset_FirstPagingLink_eq], ?_, by rw [offset_NextPagingLink_eq],
    by rw [offset_PagingLinks_eq]⟩
  rw [offset_PrevPagingLink_eq]
  split <;> rfl

end OffsetLimitPagination

/-- C15: on an unparsed state of either strategy, each of `FirstPagingLink`,
`PrevPagingLink`, `NextPagingLink`, `LastPagingLink` and `PagingLinks` returns the same
links and error as it does on the state that `ParseURL` of the same URL produces. -/
theorem autoParse_equivalence (p : PageNumberPagination) (q : OffsetLimitPagination) (u : URL)
    (hp : p.parsed = false) (hq : q.parsed = false) :
    ((p.FirstPagingLink u).2 = ((p.ParseURL u).1.FirstPagingLink u).2 ∧
     (p.PrevPagingLink u).2 = ((p.ParseURL u).1.PrevPagingLink u).2 ∧
     (p.NextPagingLink u).2 = ((p.ParseURL u).1.NextPagingLink u).2 ∧
     (p.LastPagingLink u).2 = ((p.ParseURL u).1.LastPagingLink u).2 ∧
     (p.PagingLinks u).2 = ((p.ParseURL u).1.PagingLinks u).2) ∧
    ((q.FirstPagingLink u).2 = ((q.ParseURL u).1.FirstPagingLink u).2 ∧
     (q.PrevPagingLink u).2 = ((q.ParseURL u).1.PrevPagingLink u).2 ∧
     (q.NextPagingLink u).2 = ((q.ParseURL u).1.NextPagingLink u).2 ∧
     (q.LastPagingLink u).2 = ((q.ParseURL u).1.LastPagingLink u).2 ∧
     (q.PagingLinks u).2 = ((q.ParseURL u).1.PagingLinks u).2) := by
  obtain ⟨a1, a2, a3, a4⟩ := PageNumberPagination.accessors_after_autoParse p u
  obtain ⟨b1, b2, b3, b4⟩ := OffsetLimitPagination.offset_accessors_after_autoParse q u
  rw [PageNumberPagination.autoParse_of_unparsed p u hp] at a1 a2 a3 a4
  rw [OffsetLimitPagination.offset_autoParse_of_unparsed q u hq] at b1 b2 b3 b4
  rw [a1, a2, a3, a4, b1, b2, b3, b4]
  exact ⟨⟨rfl, rfl, rfl, rfl, rfl⟩, ⟨rfl, rfl, rfl, rfl, rfl⟩⟩

/-- Instance of C15 on the unparsed default states and `?page=3&offset=100`. -/
theorem autoParse_equivalence_witness :
    NewPageNumberPagination.parsed = false ∧ NewOffsetLimitPagination.parsed = false ∧
    ((NewPageNumberPagination.FirstPagingLink (exampleURL (str "page=3&offset=100"))).2
        = ((NewPageNumberPagination.ParseURL (exampleURL (str "page=3&offset=100"))).1.FirstPagingLink
            (exampleURL (str "page=3&offset=100"))).2 ∧
     (NewPageNumberPagination.PrevPagingLink (exampleURL (str "page=3&offset=100"))).2
        = ((NewPageNumberPagination.ParseURL (exampleURL (str "page=3&offset=100"))).1.PrevPagingLink
            (exampleURL (str "page=3&offset=100"))).2 ∧
     (NewPageNumberPagination.NextPagingLink (exampleURL (str "page=3&offset=100"))).2
        = ((NewPageNumberPagination.ParseURL (exampleURL (str "page=3&offset=100"))).1.NextPagingLink
            (exampleURL (str "page=3&offset=100"))).2 ∧
     (NewPageNumberPagination.LastPagingLink (exampleURL (str "page=3&offset=100"))).2
        = ((NewPageNumberPagination.ParseURL (exampleURL (str "page=3&offset=100"))).1.LastPagingLink
            (exampleURL (str "page=3&offset=100"))).2 ∧
     (NewPageNumberPagination.PagingLinks (exampleURL (str "page=3&offset=100"))).2
        = ((NewPageNumberPagination.ParseURL (exampleURL (str "page=3&offset=100"))).1.PagingLinks
            (exampleURL (str "page=3&offset=100"))).2) ∧
    ((NewOffsetLimitPagination.FirstPagingLink (exampleURL (str "page=3&offset=100"))).2
        = ((NewOffsetLimitPagination.ParseURL (exampleURL (str "page=3&offset=100"))).1.FirstPagingLink
            (exampleURL (str "page=3&offset=100"))).2 ∧
     (NewOffsetLimitPagination.PrevPagingLink (exampleURL (str "page=3&offset=100"))).2
        = ((NewOffsetLimitPagination.ParseURL (exampleURL (str "page=3&offset=100"))).1.PrevPagingLink
            (exampleURL (str "page=3&offset=100"))).2 ∧
     (NewOffsetLimitPagination.NextPagingLink (exampleURL (str "page=3&offset=100"))).2
        = ((NewOffsetLimitPagination.ParseURL (exampleURL (str "page=3&offset=100"))).1.NextPagingLink
            (exampleURL (str "page=3&offset=100"))).2 ∧
     (NewOffsetLimitPagination.LastPagingLink (exampleURL (str "page=3&offset=100"))).2
        = ((NewOffsetLimitPagination.ParseURL (exampleURL (str "page=3&offset=100"))).1.LastPagingLink
            (exampleURL (str "page=3&offset=100"))).2 ∧
     (NewOffsetLimitPagination.PagingLinks (exampleURL (str "page=3&offset=100"))).2
        = ((NewOffsetLimitPagination.ParseURL (exampleURL (str "page=3&offset=100"))).1.PagingLinks
            (exampleURL (str "page=3&offset=100"))).2) :=
  ⟨rfl, rfl, autoParse_equivalence NewPageNumberPagination NewOffsetLimitPagination
    (exampleURL (str "page=3&offset=100")) rfl rfl⟩

/-- C16 fails for `LastPagingLink`: it returns without parsing, so an unparsed state
stays as it was and differs from the state that `ParseURL` produces. -/
theorem lastPagingLink_does_not_parse :
    NewPageNumberPagination.parsed = false ∧
    (NewPageNumberPagination.LastPagingLink (exampleURL (str "page=3"))).1
      = NewPageNumberPagination ∧
    (NewPageNumberPagination.LastPagingLink (exampleURL (str "page=3"))).1
      ≠ (NewPageNumberPagination.ParseURL (exampleURL (str "page=3"))).1 ∧
    NewOffsetLimitPagination.parsed = false ∧
    (NewOffsetLimitPagination.LastPagingLink (exampleURL (str "offset=100"))).1
      = NewOffsetLimitPagination ∧
    (NewOffsetLimitPagination.LastPagingLink (exampleURL (str "offset=100"))).1
      ≠ (NewOffsetLimitPagination.ParseURL (exampleURL (str "offset=100"))).1 := by
  decide

/-- C16, amended: on an unparsed state of either strategy, the state after
`FirstPagingLink`, `PrevPagingLink` or `NextPagingLink` is the state that `ParseURL` of
the same URL produces; in particular it is parsed. -/
theorem accessor_auto_parses (p : PageNumberPagination) (q : OffsetLimitPagination) (u : URL)
    (hp : p.parsed = false) (hq : q.parsed = false) :
    ((p.FirstPagingLink u).1 = (p.ParseURL u).1 ∧
     (p.PrevPagingLink u).1 = (p.ParseURL u).1 ∧
     (p.NextPagingLink u).1 = (p.ParseURL u).1 ∧
     (p.ParseURL u).1.parsed = true) ∧
    ((q.FirstPagingLink u).1 = (q.ParseURL u).1 ∧
     (q.PrevPagingLink u).1 = (q.ParseURL u).1 ∧
     (q.NextPagingLink u).1 = (q.ParseURL u).1 ∧
     (q.ParseURL u).1.parsed = true) := by
  obtain ⟨a1, a2, a3, -⟩ := PageNumberPagination.state_after_accessor p u
  obtain ⟨b1, b2, b3, -⟩ := OffsetLimitPagination.offset_state_after_accessor q u
  rw [PageNumberPagination.autoParse_of_unparsed p u hp] at a1 a2 a3
  rw [OffsetLimitPagination.offset_autoParse_of_unparsed q u hq] at b1 b2 b3
  exact ⟨⟨a1, a2, a3, rfl⟩, ⟨b1, b2, b3, rfl⟩⟩

/-- Instance of the amended C16 on the unparsed default states and `?page=3&offset=100`. -/
theorem accessor_auto_parses_witness :
    NewPageNumberPagination.parsed = false ∧ NewOffsetLimitPagination.parsed = false ∧
    ((NewPageNumberPagination.FirstPagingLink (exampleURL (str "page=3&offset=100"))).1
        = (NewPageNumberPagination.ParseURL (exampleURL (str "page=3&offset=100"))).1 ∧
     (NewPageNumberPagination.PrevPagingLink (exampleURL (str "page=3&offset=100"))).1
        = (NewPageNumberPagination.ParseURL (exampleURL (str "page=3&offset=100"))).1 ∧
     (NewPageNumberPagination.NextPagingLink (exampleURL (str "page=3&offset=100"))).1
        = (NewPageNumberPagination.ParseURL (exampleURL (str "page=3&offset=100"))).1 ∧
     (NewPageNumberPagination.ParseURL (exampleURL (str "page=3&offset=100"))).1.parsed = true) ∧
    ((NewOffsetLimitPagination.FirstPagingLink (exampleURL (str "page=3&offset=100"))).1
        = (NewOffsetLimitPagination.ParseURL (exampleURL (str "page=3&offset=100"))).1 ∧
     (NewOffsetLimitPagination.PrevPagingLink (exampleURL (str "page=3&offset=100"))).1
        = (NewOffsetLimitPagination.ParseURL (exampleURL (str "page=3&offset=100"))).1 ∧
     (NewOffsetLimitPagination.NextPagingLink (exampleURL (str "page=3&offset=100"))).1
        = (NewOffsetLimitPagination.ParseURL (exampleURL (str "page=3&offset=100"))).1 ∧
     (NewOffsetLimitPagination.ParseURL (exampleURL (str "page=3&offset=100"))).1.parsed = true) :=
  ⟨rfl, rfl, accessor_auto_parses NewPageNumberPagination NewOffsetLimitPagination
    (exampleURL (str "page=3&offset=100")) rfl rfl⟩

/-- C17: for both strategies, `ParseURL` on `u1` followed by `ParseURL` on `u2` gives the
same state and error as `ParseURL` on `u2` alone, whatever the starting state; in
particular parsing the same URL twice gives the same as parsing it once. -/
theorem parseURL_last_wins (p : PageNumberPagination) (q : OffsetLimitPagination)
    (u1 u2 : URL) :
    (p.ParseURL u1).1.ParseURL u2 = p.ParseURL u2 ∧
    (q.ParseURL u1).1.ParseURL u2 = q.ParseURL u2 ∧
    (p.ParseURL u1).1.ParseURL u1 = p.ParseURL u1 ∧
    (q.ParseURL u1).1.ParseURL u1 = q.ParseURL u1 :=
  ⟨rfl, rfl, rfl, rfl⟩

/-! ## Reachable states -/

namespace PageNumberPagination

theorem state_after_call (s : PageNumberPagination) (c : Call) (u : URL) :
    s.call c u = s ∨ s.call c u = (s.ParseURL u).1 := by
  obtain ⟨a1, a2, a3, a4⟩ := state_after_accessor s u
  have hauto : (s.autoParse u).1 = s ∨ (s.autoParse u).1 = (s.ParseURL u).1 := by
    cases hp : s.parsed
    · right; rw [autoParse_of_unparsed s u hp]
    · left; exact (autoParse_eq s u).2.2.2 hp
  cases c
  · right; rfl
  · show (s.FirstPagingLink u).1 = s ∨ (s.FirstPagingLink u).1 = _
    rw [a1]; exact hauto
  · show (s.PrevPagingLink u).1 = s ∨ (s.PrevPagingLink u).1 = _
    rw [a2]; exact hauto
  · show (s.NextPagingLink u).1 = s ∨ (s.NextPagingLink u).1 = _
    rw [a3]; exact hauto
  · left; rfl
  · show (s.PagingLinks u).1 = s ∨ (s.PagingLinks u).1 = _
    rw [a4]; exact hauto

theorem run_invariant (calls : List (Call × URL)) (s : PageNumberPagination)
    (h : ∀ cu ∈ calls, 1 ≤ specInt cu.2.Query (str "page") 1)
    (hk : s.PageNumberKey = str "page") (hs : 1 ≤ s.PageNumber.val) :
    (s.run calls).PageNumberKey = str "page" ∧ 1 ≤ (s.run calls).PageNumber.val := by
  induction calls generalizing s with
  | nil => exact ⟨hk, hs⟩
  | cons cu rest ih =>
    have hrest : ∀ x ∈ rest, 1 ≤ specInt x.2.Query (str "page") 1 :=
      fun x hx => h x (List.mem_cons_of_mem _ hx)
    have hcu := h cu (List.mem_cons_self _ _)
    have hrun : s.run (cu :: rest) = (s.call cu.1 cu.2).run rest := rfl
    rw [hrun]
    rcases state_after_call s cu.1 cu.2 with hc | hc
    · rw [hc]; exact ih s hrest hk hs
    · rw [hc]
      refine ih _ hrest hk ?_
      show 1 ≤ (vsGetInt cu.2.Query s.PageNumberKey (GoInt.lit 1)).val
      rw [vsGetInt_val, hk]
      exact hcu

/-- C19 fails: parsing `?page=0` from the initial state gives page number 0, and
`NextPagingLink` on `?page=-5` parses on its own and leaves page number -5. -/
theorem pageNumber_invariant_fails :
    (NewPageNumberPagination.run [(Call.parseURL, exampleURL (str "page=0"))]).PageNumber.val
      = 0 ∧
    (NewPageNumberPagination.run
      [(Call.nextPagingLink, exampleURL (str "page=-5"))]).PageNumber.val = -5 ∧
    ¬ ∀ calls : List (Call × URL), 1 ≤ (NewPageNumberPagination.run calls).PageNumber.val := by
  refine ⟨by decide, by decide, fun h => ?_⟩
  have h0 := h [(Call.parseURL, exampleURL (str "page=0"))]
  revert h0
  decide

/-- C19, amended: in every state reached from `NewPageNumberPagination` by a sequence
of `ParseURL` and link-accessor calls on URLs whose page parameter is missing, is not
an integer string within the `int` range, or denotes an integer `>= 1`, the page
number is `>= 1`. -/
theorem pageNumber_invariant (calls : List (Call × URL))
    (h : ∀ cu ∈ calls, 1 ≤ specInt cu.2.Query (str "page") 1) :
    1 ≤ (NewPageNumberPagination.run calls).PageNumber.val :=
  (run_invariant calls NewPageNumberPagination h rfl (by decide)).2

/-- Instance of the amended C19 on `PagingLinks` at `?page=3` followed by `ParseURL`
at `?page=x`. -/
theorem pageNumber_invariant_witness :
    (∀ cu ∈ [(Call.pagingLinks, exampleURL (str "page=3")),
        (Call.parseURL, exampleURL (str "page=x"))],
      1 ≤ specInt cu.2.Query (str "page") 1) ∧
    1 ≤ (NewPageNumberPagination.run [(Call.pagingLinks, exampleURL (str "page=3")),
        (Call.parseURL, exampleURL (str "page=x"))]).PageNumber.val :=
  ⟨by decide, pageNumber_invariant _ (by decide)⟩

end PageNumberPagination

namespace OffsetLimitPagination

theorem offset_state_after_call (s : OffsetLimitPagination) (c : Call) (u : URL) :
    s.call c u = s ∨ s.call c u = (s.ParseURL u).1 := by
  obtain ⟨a1, a2, a3, a4⟩ := offset_state_after_accessor s u
  have hauto : (s.autoParse u).1 = s ∨ (s.autoParse u).1 = (s.ParseURL u).1 := by
    cases hp : s.parsed
    · right; rw [offset_autoParse_of_unparsed s u hp]
    · left; exact (offset_autoParse_eq s u).2.2.2.2.2 hp
  cases c
  · right; rfl
  · show (s.FirstPagingLink u).1 = s ∨ (s.FirstPagingLink u).1 = _
    rw [a1]; exact hauto
  · show (s.PrevPagingLink u).1 = s ∨ (s.PrevPagingLink u).1 = _
    rw [a2]; exact hauto
  · show (s.NextPagingLink u).1 = s ∨ (s.NextPagingLink u).1 = _
    rw [a3]; exact hauto
  · left; rfl
  · show (s.PagingLinks u).1 = s ∨ (s.PagingLinks u).1 = _
    rw [a4]; exact hauto

theorem offset_run_invariant (calls : List (Call × URL)) (s : OffsetLimitPagination)
    (h : ∀ cu ∈ calls,
      0 ≤ specInt cu.2.Query (str "offset") 0 ∧ 0 < specInt cu.2.Query (str "limit") 50)
    (hk1 : s.OffsetKey = str "offset") (hk2 : s.LimitKey = str "limit")
    (hps : s.PageSize = GoInt.lit 50) (ho : 0 ≤ s.Offset.val) (hl : 0 < s.Limit.val) :
    (s.run calls).PageSize = GoInt.lit 50 ∧ 0 ≤ (s.run calls).Offset.val ∧
      0 < (s.run calls).Limit.val := by
  induction calls generalizing s with
  | nil => exact ⟨hps, ho, hl⟩
  | cons cu rest ih =>
    have hrest : ∀ x ∈ rest,
        0 ≤ specInt x.2.Query (str "offset") 0 ∧ 0 < specInt x.2.Query (str "limit") 50 :=
      fun x hx => h x (List.mem_cons_of_mem _ hx)
    have hcu := h cu (List.mem_cons_self _ _)
    have hrun : s.run (cu :: rest) = (s.call cu.1 cu.2).run rest := rfl
    rw [hrun]
    rcases offset_state_after_call s cu.1 cu.2 with hc | hc
    · rw [hc]; exact ih s hrest hk1 hk2 hps ho hl
    · rw [hc]
      refine ih _ hrest hk1 hk2 hps ?_ ?_
      · show 0 ≤ (vsGetInt cu.2.Query s.OffsetKey (GoInt.lit 0)).val
        rw [vsGetInt_val, hk1]
        exact hcu.1
      · show 0 < (vsGetInt cu.2.Query s.LimitKey s.PageSize).val
        rw [vsGetInt_val, hk2, hps]
        exact hcu.2

/-- C20 fails: parsing `?offset=-5&limit=0` from the initial state gives offset -5 and
limit 0. -/
theorem offset_invariant_fails :
    (NewOffsetLimitPagination.run
      [(Call.parseURL, exampleURL (str "offset=-5&limit=0"))]).Offset.val = -5 ∧
    (NewOffsetLimitPagination.run
      [(Call.parseURL, exampleURL (str "offset=-5&limit=0"))]).Limit.val = 0 ∧
    ¬ ∀ calls : List (Call × URL),
      0 ≤ (NewOffsetLimitPagination.run calls).Offset.val ∧
      0 < (NewOffsetLimitPagination.run calls).Limit.val ∧
      0 < (NewOffsetLimitPagination.run calls).PageSize.val := by
  refine ⟨by decide, by decide, fun h => ?_⟩
  have h0 := (h [(Call.parseURL, exampleURL (str "offset=-5&limit=0"))]).1
  revert h0
  decide

/-- C20, amended: in every state reached from `NewOffsetLimitPagination` by a sequence
of `ParseURL` and link-accessor calls on URLs whose offset parameter is missing, is not
an integer string within the `int` range, or denotes an integer `>= 0`, and whose limit
parameter is missing, is not such a string, or denotes an integer `> 0`, the offset is
`>= 0`, the limit is `> 0` and the page size is 50. -/
theorem offset_invariant (calls : List (Call × URL))
    (h : ∀ cu ∈ calls,
      0 ≤ specInt cu.2.Query (str "offset") 0 ∧ 0 < specInt cu.2.Query (str "limit") 50) :
    0 ≤ (NewOffsetLimitPagination.run calls).Offset.val ∧
    0 < (NewOffsetLimitPagination.run calls).Limit.val ∧
    0 < (NewOffsetLimitPagination.run calls).PageSize.val ∧
    (NewOffsetLimitPagination.run calls).PageSize.val = 50 := by
  obtain ⟨h1, h2, h3⟩ := offset_run_invariant calls NewOffsetLimitPagination h rfl rfl rfl
    (by decide) (by decide)
  refine ⟨h2, h3, ?_, ?_⟩
  · rw [h1]; decide
  · rw [h1]; rfl

/-- Instance of the amended C20 on `PagingLinks` at `?offset=100&limit=20` followed by
`ParseURL` at `?offset=x`. -/
theorem offset_invariant_witness :
    (∀ cu ∈ [(Call.pagingLinks, exampleURL (str "offset=100&limit=20")),
        (Call.parseURL, exampleURL (str "offset=x"))],
      0 ≤ specInt cu.2.Query (str "offset") 0 ∧ 0 < specInt cu.2.Query (str "limit") 50) ∧
    0 ≤ (NewOffsetLimitPagination.run [(Call.pagingLinks, exampleURL (str "offset=100&limit=20")),
        (Call.parseURL, exampleURL (str "offset=x"))]).Offset.val ∧
    0 < (NewOffsetLimitPagination.run [(Call.pagingLinks, exampleURL (str "offset=100&limit=20")),
        (Call.parseURL, exampleURL (str "offset=x"))]).Limit.val ∧
    0 < (NewOffsetLimitPagination.run [(Call.pagingLinks, exampleURL (str "offset=100&limit=20")),
        (Call.parseURL, exampleURL (str "offset=x"))]).PageSize.val ∧
    (NewOffsetLimitPagination.run [(Call.pagingLinks, exampleURL (str "offset=100&limit=20")),
        (Call.parseURL, exampleURL (str "offset=x"))]).PageSize.val = 50 :=
  ⟨by decide, offset_invariant _ (by decide)⟩

end OffsetLimitPagination

/-! ## Escaping and unescaping -/

set_option maxRecDepth 100000 in
theorem unreserved_facts : ∀ c : Byte, shouldEscape c = false →
    c ≠ ch '%' ∧ c ≠ ch '+' ∧ isSeparator c = false := by
  decide

set_option maxRecDepth 100000 in
theorem hex_facts : ∀ c : Byte,
    ishex (upperhex (c.val / 16)) = true ∧ ishex (upperhex (c.val % 16)) = true ∧
    (Fin.ofNat (unhex (upperhex (c.val / 16)) * 16 + unhex (upperhex (c.val % 16))) : Byte) = c ∧
    isSeparator (upperhex (c.val / 16)) = false ∧
    isSeparator (upperhex (c.val % 16)) = false := by
  decide

/-- An escaped string holds none of `&`, `=`, `;`. -/
theorem QueryEscape_clean (s : GoString) : ∀ b ∈ QueryEscape s, isSeparator b = false := by
  induction s with
  | nil => simp [QueryEscape]
  | cons c rest ih =>
    intro b hb
    unfold QueryEscape at hb
    by_cases hesc : shouldEscape c = true
    · rw [if_pos hesc] at hb
      by_cases hsp : c = ch ' '
      · rw [if_pos hsp, List.mem_cons] at hb
        rcases hb with rfl | hb
        · decide
        · exact ih b hb
      · rw [if_neg hsp] at hb
        obtain ⟨-, -, -, h4, h5⟩ := hex_facts c
        simp only [List.mem_cons] at hb
        rcases hb with rfl | rfl | rfl | hb
        · decide
        · exact h4
        · exact h5
        · exact ih b hb
    · rw [if_neg hesc, List.mem_cons] at hb
      rcases hb with rfl | hb
      · exact (unreserved_facts b (by simpa using hesc)).2.2
      · exact ih b hb

/-- Unescaping undoes escaping. -/
theorem QueryUnescape_QueryEscape (s : GoString) : QueryUnescape (QueryEscape s) = some s := by
  induction s with
  | nil => simp [QueryEscape, QueryUnescape]
  | cons c rest ih =>
    unfold QueryEscape
    by_cases hesc : shouldEscape c = true
    · rw [if_pos hesc]
      by_cases hsp : c = ch ' '
      · rw [if_pos hsp]
        unfold QueryUnescape
        rw [if_neg (by decide), ih, if_pos rfl, hsp]
        rfl
      · rw [if_neg hsp]
        obtain ⟨h1, h2, h3, -, -⟩ := hex_facts c
        unfold QueryUnescape
        rw [if_pos rfl]
        simp only [h1, h2, Bool.and_self, if_true, ih, h3, Option.map_some']
    · rw [if_neg hesc]
      obtain ⟨h1, h2, -⟩ := unreserved_facts c (by simpa using hesc)
      unfold QueryUnescape
      rw [if_neg h1, ih, if_neg h2]
      rfl

/-! ## Splitting an encoded query -/

theorem splitOn_ne_nil (sep : Byte) (s : GoString) : splitOn sep s ≠ [] := by
  cases s with
  | nil => simp [splitOn]
  | cons c rest =>
    unfold splitOn
    split
    · simp
    · split <;> simp

theorem splitOn_cons_sep (sep : Byte) (rest : GoString) :
    splitOn sep (sep :: rest) = [] :: splitOn sep rest := by
  rw [splitOn, if_pos rfl]

theorem splitOn_cons_ne (sep c : Byte) (rest seg : GoString) (segs : List GoString)
    (hc : c ≠ sep) (h : splitOn sep rest = seg :: segs) :
    splitOn sep (c :: rest) = (c :: seg) :: segs := by
  rw [splitOn, if_neg hc, h]

theorem splitOn_of_not_mem (sep : Byte) (p : GoString) (h : sep ∉ p) : splitOn sep p = [p] := by
  induction p with
  | nil => rfl
  | cons c rest ih =>
    rw [List.mem_cons, not_or] at h
    exact splitOn_cons_ne sep c rest rest [] (Ne.symm h.1) (ih h.2)

theorem splitOn_append (sep : Byte) (p rest : GoString) (h : sep ∉ p) :
    splitOn sep (p ++ sep :: rest) = p :: splitOn sep rest := by
  induction p with
  | nil => exact splitOn_cons_sep sep rest
  | cons c p2 ih =>
    rw [List.mem_cons, not_or] at h
    exact splitOn_cons_ne sep c _ p2 _ (Ne.symm h.1) (ih h.2)

theorem splitOn_intercalate (sep : Byte) (ps : List GoString) (hne : ps ≠ [])
    (h : ∀ p ∈ ps, sep ∉ p) : splitOn sep (List.intercalate [sep] ps) = ps := by
  induction ps with
  | nil => exact absurd rfl hne
  | cons a rest ih =>
    cases rest with
    | nil =>
      have : List.intercalate [sep] [a] = a := by simp [List.intercalate, List.intersperse]
      rw [this]
      exact splitOn_of_not_mem sep a (h a (List.mem_cons_self _ _))
    | cons b r =>
      rw [intercalate_cons_cons, List.append_assoc]
      show splitOn sep (a ++ sep :: List.intercalate [sep] (b :: r)) = _
      rw [splitOn_append sep a _ (h a (List.mem_cons_self _ _)),
        ih (by simp) (fun p hp => h p (List.mem_cons_of_mem _ hp))]

theorem cut_append (sep : Byte) (a b : GoString) (h : sep ∉ a) :
    cut sep (a ++ sep :: b) = (a, b) := by
  induction a with
  | nil =>
    show cut sep (sep :: b) = _
    unfold cut
    rw [if_pos rfl]
  | cons c a2 ih =>
    rw [List.mem_cons, not_or] at h
    show cut sep (c :: (a2 ++ sep :: b)) = _
    unfold cut
    rw [if_neg (Ne.symm h.1), ih h.2]

theorem not_mem_of_clean (sep : Byte) (hsep : isSeparator sep = true) (s : GoString) :
    sep ∉ QueryEscape s := fun hmem => by
  have := QueryEscape_clean s sep hmem
  rw [hsep] at this
  exact absurd this (by decide)

/-- The decoding loop reads an encoded pair back as the pair. -/
theorem parseQueryStep_encoded (m : Values) (k v : GoString) :
    parseQueryStep m (QueryEscape k ++ [ch '='] ++ QueryEscape v) = m.Add k v := by
  have hsemi : ch ';' ∉ QueryEscape k ++ [ch '='] ++ QueryEscape v := by
    simp only [List.mem_append, List.mem_singleton, not_or]
    exact ⟨⟨not_mem_of_clean _ (by decide) k, by decide⟩, not_mem_of_clean _ (by decide) v⟩
  have hne : QueryEscape k ++ [ch '='] ++ QueryEscape v ≠ [] := by simp
  have hcut : cut (ch '=') (QueryEscape k ++ [ch '='] ++ QueryEscape v)
      = (QueryEscape k, QueryEscape v) := by
    rw [List.append_assoc]
    exact cut_append _ _ _ (not_mem_of_clean _ (by decide) k)
  unfold parseQueryStep
  rw [if_neg hsemi, if_neg hne, hcut]
  simp only [QueryUnescape_QueryEscape]

/-! ## Decoding an encoded map -/

theorem Values.Encode_eq_pairs (m : Values) :
    m.Encode = List.intercalate [ch '&']
      (m.pairs.map fun kv => QueryEscape kv.1 ++ [ch '='] ++ QueryEscape kv.2) := by
  unfold Values.Encode Values.pairs
  rw [List.map_flatMap]
  simp only [List.map_map, Function.comp_def]

theorem foldl_parseQueryStep_encoded (kvs : List (GoString × GoString)) (m0 : Values) :
    (kvs.map fun kv => QueryEscape kv.1 ++ [ch '='] ++ QueryEscape kv.2).foldl parseQueryStep m0
      = kvs.foldl (fun acc kv => acc.Add kv.1 kv.2) m0 := by
  induction kvs generalizing m0 with
  | nil => rfl
  | cons kv rest ih =>
    rw [List.map_cons, List.foldl_cons, List.foldl_cons, parseQueryStep_encoded, ih]

/-- Decoding the encoding of a map adds its pairs, in encoding order, to the empty map. -/
theorem parseQuery_Encode (m : Values) (hw : paramCount m.Encode ≤ 10000) :
    parseQuery m.Encode
      = m.pairs.foldl (fun (acc : Values) kv => acc.Add kv.1 kv.2) ([] : Values) := by
  rw [parseQuery_of_within _ hw, Values.Encode_eq_pairs]
  by_cases hp : m.pairs = []
  · rw [hp]
    rfl
  · have hclean : ∀ p ∈ m.pairs.map
        (fun kv => QueryEscape kv.1 ++ [ch '='] ++ QueryEscape kv.2), ch '&' ∉ p := by
      intro p hp2
      obtain ⟨kv, -, rfl⟩ := List.mem_map.1 hp2
      simp only [List.mem_append, List.mem_singleton, not_or]
      exact ⟨⟨not_mem_of_clean _ (by decide) kv.1, by decide⟩,
        not_mem_of_clean _ (by decide) kv.2⟩
    rw [splitOn_intercalate _ _ (by simpa using hp) hclean, foldl_parseQueryStep_encoded]

theorem Values.lookup_Add_self (m : Values) (k v : GoString) :
    (m.Add k v).lookup k = some ((m.lookup k).getD [] ++ [v]) :=
  Values.lookup_store_self _ _ _

theorem Values.lookup_Add_ne (m : Values) (k k2 v : GoString) (h : k2 ≠ k) :
    (m.Add k v).lookup k2 = m.lookup k2 :=
  Values.lookup_store_ne _ _ _ _ h

theorem lookup_foldl_Add (kvs : List (GoString × GoString)) (m0 : Values) (k : GoString) :
    (kvs.foldl (fun acc kv => acc.Add kv.1 kv.2) m0).lookup k =
      if valuesOf k kvs = [] then m0.lookup k
      else some ((m0.lookup k).getD [] ++ valuesOf k kvs) := by
  induction kvs generalizing m0 with
  | nil => simp [valuesOf]
  | cons kv rest ih =>
    rw [List.foldl_cons, ih]
    by_cases hk : kv.1 = k
    · subst hk
      have hv : valuesOf kv.1 (kv :: rest) = kv.2 :: valuesOf kv.1 rest := by
        simp [valuesOf]
      rw [hv, Values.lookup_Add_self]
      by_cases hr : valuesOf kv.1 rest = []
      · simp [hr]
      · simp [hr]
    · have hv : valuesOf k (kv :: rest) = valuesOf k rest := by
        simp [valuesOf, hk]
      rw [hv, Values.lookup_Add_ne _ _ _ _ (Ne.symm hk)]

theorem valuesOf_flatMap (f : GoString → List GoString) (ks : List GoString) (k : GoString)
    (hnd : ks.Nodup) :
    valuesOf k (ks.flatMap fun k2 => (f k2).map fun v => (k2, v)) = if k ∈ ks then f k else [] := by
  induction ks with
  | nil => simp [valuesOf]
  | cons a rest ih =>
    rw [List.nodup_cons] at hnd
    have happ : valuesOf k ((a :: rest).flatMap fun k2 => (f k2).map fun v => (k2, v))
        = valuesOf k ((f a).map fun v => (a, v))
          ++ valuesOf k (rest.flatMap fun k2 => (f k2).map fun v => (k2, v)) := by
      simp [valuesOf, List.flatMap_cons]
    rw [happ, ih hnd.2]
    by_cases hak : a = k
    · subst hak
      have h1 : valuesOf a ((f a).map fun v => (a, v)) = f a := by
        simp [valuesOf, List.filter_map, Function.comp_def]
      rw [h1, if_neg hnd.1, if_pos (List.mem_cons_self _ _), List.append_nil]
    · have h1 : valuesOf k ((f a).map fun v => (a, v)) = [] := by
        simp [valuesOf, List.filter_map, Function.comp_def, hak]
      rw [h1, List.nil_append]
      by_cases hmem : k ∈ rest
      · rw [if_pos hmem, if_pos (List.mem_cons_of_mem _ hmem)]
      · rw [if_neg hmem, if_neg (by simp [hmem, Ne.symm hak])]

theorem Values.sortedKeys_perm (m : Values) : m.sortedKeys.Perm m.keys :=
  List.perm_insertionSort _ _

theorem Values.valuesOf_pairs (m : Values) (k : GoString) (hnd : m.keys.Nodup) :
    valuesOf k m.pairs = (m.lookup k).getD [] := by
  unfold Values.pairs
  rw [valuesOf_flatMap (fun k2 => (m.lookup k2).getD []) _ _
    ((Values.sortedKeys_perm m).nodup_iff.2 hnd)]
  by_cases hmem : k ∈ m.sortedKeys
  · rw [if_pos hmem]
  · rw [if_neg hmem]
    have : k ∉ m.keys := fun h => hmem ((Values.sortedKeys_perm m).mem_iff.2 h)
    rw [(Values.lookup_eq_none_iff m k).2 this]
    rfl

/-- Decoding the encoding of a map with distinct keys gives back, under every key, the
values of that key; a key without values is dropped. -/
theorem lookup_parseQuery_Encode (m : Values) (k : GoString) (hnd : m.keys.Nodup)
    (hw : paramCount m.Encode ≤ 10000) :
    (parseQuery m.Encode).lookup k =
      if (m.lookup k).getD [] = [] then none else some ((m.lookup k).getD []) := by
  rw [parseQuery_Encode m hw, lookup_foldl_Add, Values.valuesOf_pairs m k hnd]
  rfl

/-- `Get` reads the same from a map and from the decoding of its encoding. -/
theorem Get_parseQuery_Encode (m : Values) (k : GoString) (hnd : m.keys.Nodup)
    (hw : paramCount m.Encode ≤ 10000) : (parseQuery m.Encode).Get k = m.Get k := by
  unfold Values.Get
  rw [lookup_parseQuery_Encode m k hnd hw]
  cases hl : m.lookup k with
  | none => rfl
  | some l =>
    cases l with
    | nil => rfl
    | cons v rest => rfl

/-! ## The parameter limit -/

theorem paramCount_eq_length (q : GoString) :
    paramCount q = (splitOn (ch '&') q).length := by
  induction q with
  | nil => rfl
  | cons c rest ih =>
    unfold paramCount at ih ⊢
    by_cases hc : c = ch '&'
    · rw [hc, splitOn_cons_sep, List.count_cons_self, List.length_cons, ih]
    · obtain ⟨seg, segs, hs⟩ := List.exists_cons_of_ne_nil (splitOn_ne_nil (ch '&') rest)
      rw [splitOn_cons_ne _ _ _ _ _ hc hs, List.count_cons_of_ne (Ne.symm hc), ih, hs]
      rfl

/-- The encoding of a map has one parameter per pair, and one when there is no pair. -/
theorem Values.paramCount_Encode (m : Values) :
    paramCount m.Encode = max 1 m.pairs.length := by
  rw [Values.Encode_eq_pairs, paramCount_eq_length]
  by_cases hp : m.pairs = []
  · rw [hp]
    rfl
  · have hclean : ∀ p ∈ m.pairs.map
        (fun kv => QueryEscape kv.1 ++ [ch '='] ++ QueryEscape kv.2), ch '&' ∉ p := by
      intro p hp2
      obtain ⟨kv, -, rfl⟩ := List.mem_map.1 hp2
      simp only [List.mem_append, List.mem_singleton, not_or]
      exact ⟨⟨not_mem_of_clean _ (by decide) kv.1, by decide⟩,
        not_mem_of_clean _ (by decide) kv.2⟩
    rw [splitOn_intercalate _ _ (by simpa using hp) hclean, List.length_map]
    have : 0 < m.pairs.length := List.length_pos.2 hp
    omega

theorem Values.size_store (m : Values) (k : GoString) (vs : List GoString) :
    (m.store k vs).size + ((m.lookup k).getD []).length = m.size + vs.length := by
  induction m with
  | nil => simp [Values.store, Values.size, Values.lookup]
  | cons e rest ih =>
    obtain ⟨k1, old⟩ := e
    by_cases h : k1 = k
    · simp only [Values.store, Values.lookup, if_pos h, Values.size, List.map_cons,
        List.sum_cons, Option.getD_some]
      omega
    · simp only [Values.store, Values.lookup, if_neg h, Values.size, List.map_cons,
        List.sum_cons] at ih ⊢
      omega

theorem Values.size_Add (m : Values) (k v : GoString) : (m.Add k v).size = m.size + 1 := by
  have h := Values.size_store m k ((m.lookup k).getD [] ++ [v])
  rw [List.length_append, List.length_singleton] at h
  unfold Values.Add
  omega

theorem Values.size_Set_le (m : Values) (k v : GoString) : (m.Set k v).size ≤ m.size + 1 := by
  have h := Values.size_store m k [v]
  rw [List.length_singleton] at h
  unfold Values.Set
  omega

theorem size_parseQueryStep_le (m : Values) (seg : GoString) :
    (parseQueryStep m seg).size ≤ m.size + 1 := by
  unfold parseQueryStep
  split
  · omega
  · split
    · omega
    · split
      · omega
      · split
        · omega
        · rw [Values.size_Add]

theorem size_foldl_parseQueryStep_le (segs : List GoString) (m : Values) :
    (segs.foldl parseQueryStep m).size ≤ m.size + segs.length := by
  induction segs generalizing m with
  | nil => simp
  | cons s rest ih =>
    have h1 := ih (parseQueryStep m s)
    have h2 := size_parseQueryStep_le m s
    rw [List.foldl_cons, List.length_cons]
    omega

/-- A decoded query holds at most as many values as the query has parameters. -/
theorem size_parseQuery_le (q : GoString) : (parseQuery q).size ≤ paramCount q := by
  by_cases h : paramCount q ≤ 10000
  · rw [parseQuery_of_within q h, paramCount_eq_length]
    have := size_foldl_parseQueryStep_le (splitOn (ch '&') q) []
    simpa [Values.size] using this
  · rw [parseQuery_of_over q (Nat.not_le.1 h)]
    simp [Values.size]

theorem Values.size_eq_sum_keys (m : Values) (hnd : m.keys.Nodup) :
    (m.keys.map fun k => ((m.lookup k).getD []).length).sum = m.size := by
  induction m with
  | nil => rfl
  | cons e rest ih =>
    obtain ⟨k1, vs⟩ := e
    have hnd2 : k1 ∉ Values.keys rest ∧ (Values.keys rest).Nodup := by
      simpa [Values.keys] using hnd
    have hrest : (Values.keys rest).map
          (fun k => ((Values.lookup ((k1, vs) :: rest) k).getD []).length)
        = (Values.keys rest).map (fun k => ((Values.lookup rest k).getD []).length) := by
      refine List.map_congr_left (fun k hk => ?_)
      have : k1 ≠ k := fun hc => hnd2.1 (hc ▸ hk)
      simp [Values.lookup, this]
    simp only [Values.keys, List.map_cons, List.sum_cons, Values.size] at ih ⊢
    simp only [Values.keys] at hrest
    rw [hrest, ih hnd2.2]
    simp [Values.lookup]

theorem Values.length_pairs (m : Values) (hnd : m.keys.Nodup) : m.pairs.length = m.size := by
  rw [← Values.size_eq_sum_keys m hnd]
  unfold Values.pairs
  rw [List.length_flatMap]
  have hp := (Values.sortedKeys_perm m).map (fun k => ((m.lookup k).getD []).length)
  rw [← hp.sum_eq]
  congr 1
  refine List.map_congr_left (fun k _ => ?_)
  simp

/-- Setting one key of a decoded query adds at most one parameter to the encoding. -/
theorem paramCount_set_le (q k v : GoString) :
    paramCount ((parseQuery q).Set k v).Encode ≤ paramCount q + 1 := by
  have hl := Values.length_pairs ((parseQuery q).Set k v)
    (Values.nodup_keys_store _ _ _ (parseQuery_nodup q))
  rw [Values.paramCount_Encode, hl]
  have h0 : 1 ≤ paramCount q := by unfold paramCount; omega
  have h1 := Values.size_Set_le (parseQuery q) k v
  have h2 := size_parseQuery_le q
  omega

/-- Setting two keys of a decoded query adds at most two parameters to the encoding. -/
theorem paramCount_set_set_le (q k1 v1 k2 v2 : GoString) :
    paramCount (((parseQuery q).Set k1 v1).Set k2 v2).Encode ≤ paramCount q + 2 := by
  have hl := Values.length_pairs (((parseQuery q).Set k1 v1).Set k2 v2)
    (Values.nodup_keys_store _ _ _ (Values.nodup_keys_store _ _ _ (parseQuery_nodup q)))
  rw [Values.paramCount_Encode, hl]
  have h0 : 1 ≤ paramCount q := by unfold paramCount; omega
  have h1 := Values.size_Set_le (parseQuery q) k1 v1
  have h2 := Values.size_Set_le ((parseQuery q).Set k1 v1) k2 v2
  have h3 := size_parseQuery_le q
  omega

/-! ## Reading back a written integer -/

theorem digitByte_facts : ∀ d : Fin 10,
    isDigit (digitByte d.val) = true ∧ (digitByte d.val).val - 48 = d.val := by
  decide

set_option maxRecDepth 100000 in
theorem isDigit_not_sign : ∀ c : Byte, isDigit c = true → c ≠ ch '-' ∧ c ≠ ch '+' := by
  decide

theorem digitsValue_append_singleton (ds : GoString) (c : Byte) :
    digitsValue (ds ++ [c]) = digitsValue ds * 10 + (c.val - 48) := by
  simp [digitsValue, List.foldl_append]

theorem decimalAux_spec (fuel n : Nat) (acc : GoString) (h : n < fuel) :
    ∃ ds : GoString, decimalAux fuel n acc = ds ++ acc ∧ ds ≠ [] ∧
      ds.all isDigit = true ∧ digitsValue ds = n := by
  induction fuel generalizing n acc with
  | zero => exact absurd h (Nat.not_lt_zero _)
  | succ fuel ih =>
    unfold decimalAux
    by_cases hn : n < 10
    · rw [if_pos hn]
      obtain ⟨h1, h2⟩ := digitByte_facts ⟨n, hn⟩
      refine ⟨[digitByte n], rfl, by simp, by simpa using h1, ?_⟩
      simp only [digitsValue, List.foldl_cons, List.foldl_nil, Nat.zero_mul, Nat.zero_add]
      exact h2
    · rw [if_neg hn]
      obtain ⟨ds, hds, hne, hall, hval⟩ := ih (n / 10) (digitByte (n % 10) :: acc) (by omega)
      obtain ⟨h1, h2⟩ := digitByte_facts ⟨n % 10, Nat.mod_lt _ (by decide)⟩
      refine ⟨ds ++ [digitByte (n % 10)], ?_, by simp, ?_, ?_⟩
      · rw [hds, List.append_assoc]
        rfl
      · rw [List.all_append, hall]
        simpa using h1
      · rw [digitsValue_append_singleton, hval]
        have h3 : (digitByte (n % 10)).val - 48 = n % 10 := h2
        rw [h3]
        omega

theorem decimalNat_spec (n : Nat) :
    decimalNat n ≠ [] ∧ (decimalNat n).all isDigit = true ∧ digitsValue (decimalNat n) = n := by
  obtain ⟨ds, hds, hne, hall, hval⟩ := decimalAux_spec (n + 1) n [] (Nat.lt_succ_self n)
  unfold decimalNat
  rw [hds, List.append_nil]
  exact ⟨hne, hall, hval⟩

/-- The decimal rendering of an integer is an integer string that denotes it. -/
theorem decimal_spec (x : Int) :
    isIntegerString (decimal x) = true ∧ integerValue (decimal x) = x := by
  obtain ⟨hne, hall, hval⟩ := decimalNat_spec x.natAbs
  by_cases hx : x < 0
  · have hd : decimal x = ch '-' :: decimalNat x.natAbs := by
      unfold decimal
      rw [if_pos hx]
    have hu : unsignedPart (ch '-' :: decimalNat x.natAbs) = decimalNat x.natAbs := by
      simp [unsignedPart]
    rw [hd]
    refine ⟨?_, ?_⟩
    · unfold isIntegerString
      rw [hu, hall]
      simp [hne]
    · unfold integerValue
      rw [hu, hval]
      simp only [List.head?_cons, if_true]
      omega
  · have hd : decimal x = decimalNat x.natAbs := by
      unfold decimal
      rw [if_neg hx]
    rw [hd]
    cases hds : decimalNat x.natAbs with
    | nil => exact absurd hds hne
    | cons c rest =>
      rw [hds] at hall hval
      have hc : isDigit c = true := by
        rw [List.all_cons, Bool.and_eq_true] at hall
        exact hall.1
      obtain ⟨hm, hp⟩ := isDigit_not_sign c hc
      have hu : unsignedPart (c :: rest) = c :: rest := by
        simp [unsignedPart, hm, hp]
      refine ⟨?_, ?_⟩
      · unfold isIntegerString
        rw [hu, hall]
        simp
      · unfold integerValue
        rw [hu, hval]
        have hh : ¬ ((c :: rest).head? = some (ch '-')) := by
          simp [hm]
        rw [if_neg hh]
        omega

/-- `Atoi` reads back what `Itoa` writes. -/
theorem Atoi_Itoa (i : GoInt) : Atoi (Itoa i) = some i := by
  have h := Atoi_val (Itoa i)
  obtain ⟨h1, h2⟩ := decimal_spec i.val
  unfold Itoa at h ⊢
  rw [if_pos ⟨h1, by rw [h2]; exact i.property.1, by rw [h2]; exact i.property.2⟩, h2] at h
  cases ha : Atoi (decimal i.val) with
  | none => rw [ha] at h; simp at h
  | some j =>
    rw [ha] at h
    simp only [Option.map_some', Option.some.injEq] at h
    exact congrArg some (Subtype.ext h)

theorem vsGetInt_parseQuery_Encode (m : Values) (k : GoString) (d : GoInt)
    (hnd : m.keys.Nodup) (hw : paramCount m.Encode ≤ 10000) :
    vsGetInt (parseQuery m.Encode) k d = vsGetInt m k d := by
  unfold vsGetInt
  rw [Get_parseQuery_Encode m k hnd hw]

theorem vsGetInt_of_lookup (m : Values) (k v : GoString) (d i : GoInt)
    (hl : m.lookup k = some [v]) (ha : Atoi v = some i) : vsGetInt m k d = i := by
  unfold vsGetInt Values.Get
  rw [hl]
  simp only [ha]

/-- A strategy reads back the integer written under a key that was set last or that
differs from the key set after it, when the encoding is within the parameter limit. -/
theorem vsGetInt_reparse (m : Values) (k v : GoString) (d i : GoInt) (hnd : m.keys.Nodup)
    (ha : Atoi v = some i) (hw : paramCount (m.Set k v).Encode ≤ 10000) :
    vsGetInt (parseQuery (m.Set k v).Encode) k d = i := by
  rw [vsGetInt_parseQuery_Encode (m.Set k v) k d (Values.nodup_keys_store _ _ _ hnd) hw]
  exact vsGetInt_of_lookup _ _ _ _ _ (Values.lookup_store_self _ _ _) ha

theorem vsGetInt_reparse_fst (m : Values) (k1 v1 k2 v2 : GoString) (d i : GoInt)
    (hnd : m.keys.Nodup) (hne : k1 ≠ k2) (ha : Atoi v1 = some i)
    (hw : paramCount ((m.Set k1 v1).Set k2 v2).Encode ≤ 10000) :
    vsGetInt (parseQuery ((m.Set k1 v1).Set k2 v2).Encode) k1 d = i := by
  rw [vsGetInt_parseQuery_Encode ((m.Set k1 v1).Set k2 v2) k1 d
    (Values.nodup_keys_store _ _ _ (Values.nodup_keys_store _ _ _ hnd)) hw]
  refine vsGetInt_of_lookup _ _ _ _ _ ?_ ha
  show Values.lookup (Values.store (Values.store m k1 [v1]) k2 [v2]) k1 = some [v1]
  rw [Values.lookup_store_ne _ _ _ _ hne, Values.lookup_store_self]

/-! ## Round trip of rewriting and parsing -/

namespace PageNumberPagination

theorem current_eq (p : PageNumberPagination) (u : URL) :
    p.current u = (p.autoParse u).1.PageNumber := by
  cases hp : p.parsed <;> simp [current, autoParse, hp]

theorem ParseURL_PageNumber (p : PageNumberPagination) (u : URL) :
    (p.ParseURL u).1.PageNumber = vsGetInt (parseQuery u.RawQuery) p.PageNumberKey (GoInt.lit 1) :=
  rfl

theorem reparse_page (p : PageNumberPagination) (u : URL) (n : GoInt) (b : Bool)
    (v : GoString) (i : GoInt) (ha : Atoi v = some i)
    (hw : paramCount (u.Query.Set p.PageNumberKey v).Encode ≤ 10000) :
    (({ p with PageNumber := n, parsed := b } : PageNumberPagination).ParseURL
      { u with RawQuery := (u.Query.Set p.PageNumberKey v).Encode }).1.PageNumber = i := by
  rw [ParseURL_PageNumber]
  exact vsGetInt_reparse u.Query p.PageNumberKey v (GoInt.lit 1) i (parseQuery_nodup _) ha hw

end PageNumberPagination

namespace OffsetLimitPagination

theorem offset_current_eq (p : OffsetLimitPagination) (u : URL) :
    p.current u = (p.autoParse u).1.Offset := by
  cases hp : p.parsed <;> simp [current, autoParse, hp]

theorem ParseURL_Offset (p : OffsetLimitPagination) (u : URL) :
    (p.ParseURL u).1.Offset = vsGetInt (parseQuery u.RawQuery) p.OffsetKey (GoInt.lit 0) :=
  rfl

theorem ParseURL_Limit (p : OffsetLimitPagination) (u : URL) :
    (p.ParseURL u).1.Limit = vsGetInt (parseQuery u.RawQuery) p.LimitKey p.PageSize :=
  rfl

theorem reparse_offset (p : OffsetLimitPagination) (u : URL) (o l : GoInt) (b : Bool)
    (v1 v2 : GoString) (i1 i2 : GoInt) (hk : p.OffsetKey ≠ p.LimitKey)
    (h1 : Atoi v1 = some i1) (h2 : Atoi v2 = some i2)
    (hw : paramCount ((u.Query.Set p.OffsetKey v1).Set p.LimitKey v2).Encode ≤ 10000) :
    (({ p with Offset := o, Limit := l, parsed := b } : OffsetLimitPagination).ParseURL
      { u with RawQuery := ((u.Query.Set p.OffsetKey v1).Set p.LimitKey v2).Encode }).1.Offset
      = i1 ∧
    (({ p with Offset := o, Limit := l, parsed := b } : OffsetLimitPagination).ParseURL
      { u with RawQuery := ((u.Query.Set p.OffsetKey v1).Set p.LimitKey v2).Encode }).1.Limit
      = i2 := by
  rw [ParseURL_Offset, ParseURL_Limit]
  constructor
  · exact vsGetInt_reparse_fst u.Query p.OffsetKey v1 p.LimitKey v2 (GoInt.lit 0) i1
      (parseQuery_nodup _) hk h1 hw
  · exact vsGetInt_reparse (u.Query.Set p.OffsetKey v1) p.LimitKey v2 p.PageSize i2
      (Values.nodup_keys_store _ _ _ (parseQuery_nodup _)) h2 hw

end OffsetLimitPagination

/-- C18 fails when both keys of the offset/limit strategy have the same name: the first
link of `sameKeyExample` carries `k=50` alone, and parsing it gives offset 50, not the
offset 0 of a first link. -/
theorem reparse_same_key_counterexample :
    (sameKeyExample.FirstPagingLink (exampleURL [])).2.1.map (fun L => L.URL.RawQuery)
      = some (str "k=50") ∧
    (sameKeyExample.FirstPagingLink (exampleURL [])).2.1.map
        (fun L => (sameKeyExample.ParseURL L.URL).1.Offset.val) = some 50 ∧
    (sameKeyExample.FirstPagingLink (exampleURL [])).2.1.map
        (fun L => (sameKeyExample.ParseURL L.URL).1.Offset.val) ≠ some 0 := by
  decide

/-- C18, amended: for every state of either strategy and every URL whose raw query has
at most 9999 parameters (9998 for the offset/limit strategy), counted as `net/url`
counts them, parsing the URL of a returned link with a strategy of the same
configuration reads back the value written into the link. Page-number strategy, `n` the
page number in effect: 1 from the first link, `n - 1` from the prev link (returned when
`n >= 2`), `n + 1` in `int` arithmetic from the next link. Offset/limit strategy with
distinct keys, `o` the offset in effect and `s` the page size: offset 0, `o - s`
(returned when `o >= s`) and `o + s` in `int` arithmetic, and limit `s` each time. -/
theorem reparse_written_value (p : PageNumberPagination) (q : OffsetLimitPagination)
    (u : URL) (n : GoInt) (b : Bool) (o l : GoInt) (b2 : Bool)
    (hk : q.OffsetKey ≠ q.LimitKey) :
    (paramCount u.RawQuery + 1 ≤ 10000 →
     ((p.FirstPagingLink u).2.1.map
        (fun L => (({ p with PageNumber := n, parsed := b } : PageNumberPagination).ParseURL
          L.URL).1.PageNumber.val) = some 1 ∧
     (p.PrevPagingLink u).2.1.map
        (fun L => (({ p with PageNumber := n, parsed := b } : PageNumberPagination).ParseURL
          L.URL).1.PageNumber.val)
        = (if (p.current u).val < 2 then none else some ((p.current u).val - 1)) ∧
     (p.NextPagingLink u).2.1.map
        (fun L => (({ p with PageNumber := n, parsed := b } : PageNumberPagination).ParseURL
          L.URL).1.PageNumber.val) = some (wrapInt ((p.current u).val + 1)))) ∧
    (paramCount u.RawQuery + 2 ≤ 10000 →
     ((q.FirstPagingLink u).2.1.map
        (fun L =>
          ((({ q with Offset := o, Limit := l, parsed := b2 } : OffsetLimitPagination).ParseURL
            L.URL).1.Offset.val,
           (({ q with Offset := o, Limit := l, parsed := b2 } : OffsetLimitPagination).ParseURL
            L.URL).1.Limit.val)) = some (0, q.PageSize.val) ∧
     (q.PrevPagingLink u).2.1.map
        (fun L =>
          ((({ q with Offset := o, Limit := l, parsed := b2 } : OffsetLimitPagination).ParseURL
            L.URL).1.Offset.val,
           (({ q with Offset := o, Limit := l, parsed := b2 } : OffsetLimitPagination).ParseURL
            L.URL).1.Limit.val))
        = (if (q.current u).val < q.PageSize.val then none
           else some (wrapInt ((q.current u).val - q.PageSize.val), q.PageSize.val)) ∧
     (q.NextPagingLink u).2.1.map
        (fun L =>
          ((({ q with Offset := o, Limit := l, parsed := b2 } : OffsetLimitPagination).ParseURL
            L.URL).1.Offset.val,
           (({ q with Offset := o, Limit := l, parsed := b2 } : OffsetLimitPagination).ParseURL
            L.URL).1.Limit.val))
        = some (wrapInt ((q.current u).val + q.PageSize.val), q.PageSize.val))) := by
  constructor
  · intro hu
    have hw : ∀ v, paramCount (u.Query.Set p.PageNumberKey v).Encode ≤ 10000 :=
      fun v => Nat.le_trans (paramCount_set_le u.RawQuery _ v) hu
    rw [PageNumberPagination.current_eq, PageNumberPagination.FirstPagingLink_eq,
      PageNumberPagination.PrevPagingLink_eq, PageNumberPagination.NextPagingLink_eq]
    refine ⟨?_, ?_, ?_⟩
    · simp only [Option.map_some']
      rw [PageNumberPagination.reparse_page p u n b (str "1") (GoInt.lit 1) (by decide)
        (hw _)]
      rfl
    · by_cases hlt : (p.autoParse u).1.PageNumber.val < 2
      · rw [if_pos hlt, if_pos hlt]
        rfl
      · rw [if_neg hlt, if_neg hlt]
        simp only [Option.map_some']
        rw [PageNumberPagination.reparse_page p u n b _ _ (Atoi_Itoa _) (hw _)]
        have hr := (p.autoParse u).1.PageNumber.property
        unfold minInt maxInt at hr
        have hw2 : wrapInt ((p.autoParse u).1.PageNumber.val - 1)
            = (p.autoParse u).1.PageNumber.val - 1 :=
          wrapInt_of_range _ (by unfold minInt; omega) (by unfold maxInt; omega)
        simp only [GoInt.sub, GoInt.wrap, GoInt.lit, Nat.cast_one, hw2]
    · simp only [Option.map_some']
      rw [PageNumberPagination.reparse_page p u n b _ _ (Atoi_Itoa _) (hw _)]
      rfl
  · intro hu
    have hw : ∀ v1 v2,
        paramCount ((u.Query.Set q.OffsetKey v1).Set q.LimitKey v2).Encode ≤ 10000 :=
      fun v1 v2 => Nat.le_trans (paramCount_set_set_le u.RawQuery _ v1 _ v2) hu
    rw [OffsetLimitPagination.offset_current_eq,
      OffsetLimitPagination.offset_FirstPagingLink_eq,
      OffsetLimitPagination.offset_PrevPagingLink_eq,
      OffsetLimitPagination.offset_NextPagingLink_eq]
    refine ⟨?_, ?_, ?_⟩
    · simp only [Option.map_some']
      obtain ⟨h1, h2⟩ := OffsetLimitPagination.reparse_offset q u o l b2 (str "0")
        (Itoa q.PageSize) (GoInt.lit 0) q.PageSize hk (by decide) (Atoi_Itoa _) (hw _ _)
      rw [h1, h2]
      rfl
    · by_cases hlt : (q.autoParse u).1.Offset.val < q.PageSize.val
      · rw [if_pos hlt, if_pos hlt]
        rfl
      · rw [if_neg hlt, if_neg hlt]
        simp only [Option.map_some']
        obtain ⟨h1, h2⟩ := OffsetLimitPagination.reparse_offset q u o l b2
          (Itoa ((q.autoParse u).1.Offset.sub q.PageSize))
          (Itoa q.PageSize) _ q.PageSize hk (Atoi_Itoa _) (Atoi_Itoa _) (hw _ _)
        rw [h1, h2]
        rfl
    · simp only [Option.map_some']
      obtain ⟨h1, h2⟩ := OffsetLimitPagination.reparse_offset q u o l b2
        (Itoa ((q.autoParse u).1.Offset.add q.PageSize))
        (Itoa q.PageSize) _ q.PageSize hk (Atoi_Itoa _) (Atoi_Itoa _) (hw _ _)
      rw [h1, h2]
      rfl

/-- Instance of the amended C18 on the default states and `?page=3&offset=100&limit=20`,
a query of three parameters. -/
theorem reparse_written_value_witness :
    NewOffsetLimitPagination.OffsetKey ≠ NewOffsetLimitPagination.LimitKey ∧
    paramCount exampleBoth.RawQuery = 3 ∧
    ((NewPageNumberPagination.FirstPagingLink exampleBoth).2.1.map
        (fun L => (({ NewPageNumberPagination with PageNumber := GoInt.lit 7, parsed := true } : PageNumberPagination).ParseURL
          L.URL).1.PageNumber.val) = some 1 ∧
     (NewPageNumberPagination.PrevPagingLink exampleBoth).2.1.map
        (fun L => (({ NewPageNumberPagination with PageNumber := GoInt.lit 7, parsed := true } : PageNumberPagination).ParseURL
          L.URL).1.PageNumber.val)
        = (if (NewPageNumberPagination.current exampleBoth).val < 2 then none else some ((NewPageNumberPagination.current exampleBoth).val - 1)) ∧
     (NewPageNumberPagination.NextPagingLink exampleBoth).2.1.map
        (fun L => (({ NewPageNumberPagination with PageNumber := GoInt.lit 7, parsed := true } : PageNumberPagination).ParseURL
          L.URL).1.PageNumber.val) = some (wrapInt ((NewPageNumberPagination.current exampleBoth).val + 1))) ∧
    ((NewOffsetLimitPagination.FirstPagingLink exampleBoth).2.1.map
        (fun L =>
          ((({ NewOffsetLimitPagination with Offset := GoInt.lit 5, Limit := GoInt.lit 6, parsed := false } : OffsetLimitPagination).ParseURL
            L.URL).1.Offset.val,
           (({ NewOffsetLimitPagination with Offset := GoInt.lit 5, Limit := GoInt.lit 6, parsed := false } : OffsetLimitPagination).ParseURL
            L.URL).1.Limit.val)) = some (0, NewOffsetLimitPagination.PageSize.val) ∧
     (NewOffsetLimitPagination.PrevPagingLink exampleBoth).2.1.map
        (fun L =>
          ((({ NewOffsetLimitPagination with Offset := GoInt.lit 5, Limit := GoInt.lit 6, parsed := false } : OffsetLimitPagination).ParseURL
            L.URL).1.Offset.val,
           (({ NewOffsetLimitPagination with Offset := GoInt.lit 5, Limit := GoInt.lit 6, parsed := false } : OffsetLimitPagination).ParseURL
            L.URL).1.Limit.val))
        = (if (NewOffsetLimitPagination.current exampleBoth).val < NewOffsetLimitPagination.PageSize.val then none
           else some (wrapInt ((NewOffsetLimitPagination.current exampleBoth).val - NewOffsetLimitPagination.PageSize.val), NewOffsetLimitPagination.PageSize.val)) ∧
     (NewOffsetLimitPagination.NextPagingLink exampleBoth).2.1.map
        (fun L =>
          ((({ NewOffsetLimitPagination with Offset := GoInt.lit 5, Limit := GoInt.lit 6, parsed := false } : OffsetLimitPagination).ParseURL
            L.URL).1.Offset.val,
           (({ NewOffsetLimitPagination with Offset := GoInt.lit 5, Limit := GoInt.lit 6, parsed := false } : OffsetLimitPagination).ParseURL
            L.URL).1.Limit.val))
        = some (wrapInt ((NewOffsetLimitPagination.current exampleBoth).val + NewOffsetLimitPagination.PageSize.val), NewOffsetLimitPagination.PageSize.val)) :=
  ⟨by decide, by decide,
    (reparse_written_value NewPageNumberPagination NewOffsetLimitPagination
      exampleBoth (GoInt.lit 7) true (GoInt.lit 5) (GoInt.lit 6) false (by decide)).1
      (by decide),
    (reparse_written_value NewPageNumberPagination NewOffsetLimitPagination
      exampleBoth (GoInt.lit 7) true (GoInt.lit 5) (GoInt.lit 6) false (by decide)).2
      (by decide)⟩

/-- The round trip on `?page=3&offset=100&limit=20`: the links of page 3 parse back to
pages 1, 2 and 4, those of offset 100 to offsets 0, 50 and 150 with limit 50; at the
largest page number the next link parses back to the wrapped sum `-2^63`. -/
theorem reparse_examples :
    (NewPageNumberPagination.FirstPagingLink exampleBoth).2.1.map
        (fun L => (NewPageNumberPagination.ParseURL L.URL).1.PageNumber.val) = some 1 ∧
    (NewPageNumberPagination.PrevPagingLink exampleBoth).2.1.map
        (fun L => (NewPageNumberPagination.ParseURL L.URL).1.PageNumber.val) = some 2 ∧
    (NewPageNumberPagination.NextPagingLink exampleBoth).2.1.map
        (fun L => (NewPageNumberPagination.ParseURL L.URL).1.PageNumber.val) = some 4 ∧
    (NewOffsetLimitPagination.FirstPagingLink exampleBoth).2.1.map
        (fun L => ((NewOffsetLimitPagination.ParseURL L.URL).1.Offset.val,
          (NewOffsetLimitPagination.ParseURL L.URL).1.Limit.val)) = some (0, 50) ∧
    (NewOffsetLimitPagination.PrevPagingLink exampleBoth).2.1.map
        (fun L => ((NewOffsetLimitPagination.ParseURL L.URL).1.Offset.val,
          (NewOffsetLimitPagination.ParseURL L.URL).1.Limit.val)) = some (50, 50) ∧
    (NewOffsetLimitPagination.NextPagingLink exampleBoth).2.1.map
        (fun L => ((NewOffsetLimitPagination.ParseURL L.URL).1.Offset.val,
          (NewOffsetLimitPagination.ParseURL L.URL).1.Limit.val)) = some (150, 50) ∧
    ((pageState maxGoInt true).NextPagingLink exampleBoth).2.1.map
        (fun L => (NewPageNumberPagination.ParseURL L.URL).1.PageNumber.val)
      = some (-9223372036854775808) := by
  decide

/-! ## Errors and the state of a parsed strategy -/

/-- C21: no method of either strategy returns an error: `ParseURL`, `FirstPagingLink`,
`PrevPagingLink`, `NextPagingLink`, `LastPagingLink` and `PagingLinks` return a nil error
on every state and every URL. -/
theorem no_error (p : PageNumberPagination) (q : OffsetLimitPagination) (u : URL) :
    ((p.ParseURL u).2 = none ∧ (p.FirstPagingLink u).2.2 = none ∧
     (p.PrevPagingLink u).2.2 = none ∧ (p.NextPagingLink u).2.2 = none ∧
     (p.LastPagingLink u).2.2 = none ∧ (p.PagingLinks u).2.2 = none) ∧
    ((q.ParseURL u).2 = none ∧ (q.FirstPagingLink u).2.2 = none ∧
     (q.PrevPagingLink u).2.2 = none ∧ (q.NextPagingLink u).2.2 = none ∧
     (q.LastPagingLink u).2.2 = none ∧ (q.PagingLinks u).2.2 = none) := by
  refine ⟨⟨rfl, ?_, ?_, ?_, rfl, ?_⟩, ⟨rfl, ?_, ?_, ?_, rfl, ?_⟩⟩
  · rw [PageNumberPagination.FirstPagingLink_eq]
  · rw [PageNumberPagination.PrevPagingLink_eq]; split <;> rfl
  · rw [PageNumberPagination.NextPagingLink_eq]
  · rw [PageNumberPagination.PagingLinks_eq]
  · rw [OffsetLimitPagination.offset_FirstPagingLink_eq]
  · rw [OffsetLimitPagination.offset_PrevPagingLink_eq]; split <;> rfl
  · rw [OffsetLimitPagination.offset_NextPagingLink_eq]
  · rw [OffsetLimitPagination.offset_PagingLinks_eq]

/-- C24: on a parsed state of either strategy, the state after `FirstPagingLink`,
`PrevPagingLink`, `NextPagingLink`, `LastPagingLink` or `PagingLinks` is the state before
the call. -/
theorem accessors_keep_parsed_state (p : PageNumberPagination) (q : OffsetLimitPagination)
    (u : URL) (hp : p.parsed = true) (hq : q.parsed = true) :
    ((p.FirstPagingLink u).1 = p ∧ (p.PrevPagingLink u).1 = p ∧ (p.NextPagingLink u).1 = p ∧
     (p.LastPagingLink u).1 = p ∧ (p.PagingLinks u).1 = p) ∧
    ((q.FirstPagingLink u).1 = q ∧ (q.PrevPagingLink u).1 = q ∧ (q.NextPagingLink u).1 = q ∧
     (q.LastPagingLink u).1 = q ∧ (q.PagingLinks u).1 = q) := by
  obtain ⟨a1, a2, a3, a4⟩ := PageNumberPagination.state_after_accessor p u
  obtain ⟨b1, b2, b3, b4⟩ := OffsetLimitPagination.offset_state_after_accessor q u
  have ha : (p.autoParse u).1 = p := (PageNumberPagination.autoParse_eq p u).2.2.2 hp
  have hb : (q.autoParse u).1 = q :=
    (OffsetLimitPagination.offset_autoParse_eq q u).2.2.2.2.2 hq
  rw [ha] at a1 a2 a3 a4
  rw [hb] at b1 b2 b3 b4
  exact ⟨⟨a1, a2, a3, rfl, a4⟩, ⟨b1, b2, b3, rfl, b4⟩⟩

/-- Instance of C24 on the parsed states at page 3 and at offset 100, with a URL that
carries other positions. -/
theorem accessors_keep_parsed_state_witness :
    (pageState (GoInt.lit 3) true).parsed = true ∧ offsetExample.parsed = true ∧
    (((pageState (GoInt.lit 3) true).FirstPagingLink (exampleURL (str "page=9&offset=7"))).1
        = pageState (GoInt.lit 3) true ∧
     ((pageState (GoInt.lit 3) true).PrevPagingLink (exampleURL (str "page=9&offset=7"))).1
        = pageState (GoInt.lit 3) true ∧
     ((pageState (GoInt.lit 3) true).NextPagingLink (exampleURL (str "page=9&offset=7"))).1
        = pageState (GoInt.lit 3) true ∧
     ((pageState (GoInt.lit 3) true).LastPagingLink (exampleURL (str "page=9&offset=7"))).1
        = pageState (GoInt.lit 3) true ∧
     ((pageState (GoInt.lit 3) true).PagingLinks (exampleURL (str "page=9&offset=7"))).1
        = pageState (GoInt.lit 3) true) ∧
    ((offsetExample.FirstPagingLink (exampleURL (str "page=9&offset=7"))).1 = offsetExample ∧
     (offsetExample.PrevPagingLink (exampleURL (str "page=9&offset=7"))).1 = offsetExample ∧
     (offsetExample.NextPagingLink (exampleURL (str "page=9&offset=7"))).1 = offsetExample ∧
     (offsetExample.LastPagingLink (exampleURL (str "page=9&offset=7"))).1 = offsetExample ∧
     (offsetExample.PagingLinks (exampleURL (str "page=9&offset=7"))).1 = offsetExample) :=
  ⟨rfl, rfl, accessors_keep_parsed_state (pageState (GoInt.lit 3) true) offsetExample
    (exampleURL (str "page=9&offset=7")) rfl rfl⟩

/-- C25: `NewPageNumberPagination` has key `page`, page number 1 and is unparsed;
`NewOffsetLimitPagination` has keys `offset` and `limit`, page size 50, offset 0, limit 50
and is unparsed. -/
theorem constructor_defaults :
    (NewPageNumberPagination.PageNumberKey = str "page" ∧
     NewPageNumberPagination.PageNumber.val = 1 ∧
     NewPageNumberPagination.parsed = false) ∧
    (NewOffsetLimitPagination.OffsetKey = str "offset" ∧
     NewOffsetLimitPagination.LimitKey = str "limit" ∧
     NewOffsetLimitPagination.PageSize.val = 50 ∧
     NewOffsetLimitPagination.Offset.val = 0 ∧
     NewOffsetLimitPagination.Limit.val = 50 ∧
     NewOffsetLimitPagination.parsed = false) :=
  ⟨⟨rfl, rfl, rfl⟩, ⟨rfl, rfl, rfl, rfl, rfl, rfl⟩⟩

/-! ## Independence from the URL's own pagination parameters -/

theorem Values.Encode_set_congr (m1 m2 : Values) (k v : GoString) (h1 : m1.keys.Nodup)
    (h2 : m2.keys.Nodup) (h : ∀ k2, k2 ≠ k → m1.lookup k2 = m2.lookup k2) :
    (m1.Set k v).Encode = (m2.Set k v).Encode := by
  refine Values.Encode_congr _ _ (Values.nodup_keys_store _ _ _ h1)
    (Values.nodup_keys_store _ _ _ h2) (fun k2 => ?_)
  show Values.lookup (Values.store m1 k [v]) k2 = Values.lookup (Values.store m2 k [v]) k2
  by_cases hk : k2 = k
  · subst hk
    rw [Values.lookup_store_self, Values.lookup_store_self]
  · rw [Values.lookup_store_ne _ _ _ _ hk, Values.lookup_store_ne _ _ _ _ hk, h k2 hk]

theorem Values.Encode_set_set_congr (m1 m2 : Values) (k1 v1 k2 v2 : GoString)
    (h1 : m1.keys.Nodup) (h2 : m2.keys.Nodup)
    (h : ∀ k, k ∉ [k1, k2] → m1.lookup k = m2.lookup k) :
    ((m1.Set k1 v1).Set k2 v2).Encode = ((m2.Set k1 v1).Set k2 v2).Encode := by
  refine Values.Encode_set_congr _ _ k2 v2 (Values.nodup_keys_store _ _ _ h1)
    (Values.nodup_keys_store _ _ _ h2) (fun k hk => ?_)
  show Values.lookup (Values.store m1 k1 [v1]) k = Values.lookup (Values.store m2 k1 [v1]) k
  by_cases hk1 : k = k1
  · subst hk1
    rw [Values.lookup_store_self, Values.lookup_store_self]
  · rw [Values.lookup_store_ne _ _ _ _ hk1, Values.lookup_store_ne _ _ _ _ hk1]
    exact h k (by simp [hk, hk1])

theorem URL.AgreeOutside.rewrite_eq {u1 u2 : URL} {keys : List GoString}
    (h : u1.AgreeOutside u2 keys) (q : GoString) :
    ({ u1 with RawQuery := q } : URL) = { u2 with RawQuery := q } := by
  rw [h.1]

namespace PageNumberPagination

theorem accessors_congr (p : PageNumberPagination) (u1 u2 : URL) (hp : p.parsed = true)
    (h : u1.AgreeOutside u2 [p.PageNumberKey]) :
    p.FirstPagingLink u1 = p.FirstPagingLink u2 ∧
    p.PrevPagingLink u1 = p.PrevPagingLink u2 ∧
    p.NextPagingLink u1 = p.NextPagingLink u2 ∧
    p.PagingLinks u1 = p.PagingLinks u2 := by
  have ha1 : (p.autoParse u1).1 = p := (autoParse_eq p u1).2.2.2 hp
  have ha2 : (p.autoParse u2).1 = p := (autoParse_eq p u2).2.2.2 hp
  have henc : ∀ v, (u1.Query.Set p.PageNumberKey v).Encode
      = (u2.Query.Set p.PageNumberKey v).Encode := fun v =>
    Values.Encode_set_congr _ _ _ v (parseQuery_nodup _) (parseQuery_nodup _)
      (fun k hk => h.2 k (by simpa using hk))
  have e1 : p.FirstPagingLink u1 = p.FirstPagingLink u2 := by
    rw [FirstPagingLink_eq, FirstPagingLink_eq p u2, ha1, ha2, henc, h.rewrite_eq]
  have e2 : p.PrevPagingLink u1 = p.PrevPagingLink u2 := by
    rw [PrevPagingLink_eq, PrevPagingLink_eq p u2, ha1, ha2, henc, h.rewrite_eq]
  have e3 : p.NextPagingLink u1 = p.NextPagingLink u2 := by
    rw [NextPagingLink_eq, NextPagingLink_eq p u2, ha1, ha2, henc, h.rewrite_eq]
  refine ⟨e1, e2, e3, ?_⟩
  rw [PagingLinks_eq, PagingLinks_eq p u2, ha1, ha2, e1, e2, e3]

end PageNumberPagination

namespace OffsetLimitPagination

theorem offset_accessors_congr (p p2 : OffsetLimitPagination) (u1 u2 : URL)
    (hk1 : p2.OffsetKey = p.OffsetKey) (hk2 : p2.LimitKey = p.LimitKey)
    (hps : p2.PageSize = p.PageSize)
    (hst : (p.autoParse u1).1.Offset = (p2.autoParse u2).1.Offset)
    (h : u1.AgreeOutside u2 [p.OffsetKey, p.LimitKey]) :
    (p.FirstPagingLink u1).2 = (p2.FirstPagingLink u2).2 ∧
    (p.PrevPagingLink u1).2 = (p2.PrevPagingLink u2).2 ∧
    (p.NextPagingLink u1).2 = (p2.NextPagingLink u2).2 ∧
    (p.PagingLinks u1).2 = (p2.PagingLinks u2).2 := by
  have henc : ∀ v1 v2, ((u1.Query.Set p.OffsetKey v1).Set p.LimitKey v2).Encode
      = ((u2.Query.Set p.OffsetKey v1).Set p.LimitKey v2).Encode := fun v1 v2 =>
    Values.Encode_set_set_congr _ _ _ v1 _ v2 (parseQuery_nodup _) (parseQuery_nodup _) h.2
  have e1 : (p.FirstPagingLink u1).2 = (p2.FirstPagingLink u2).2 := by
    rw [offset_FirstPagingLink_eq, offset_FirstPagingLink_eq p2 u2, hk1, hk2, hps, henc,
      h.rewrite_eq]
  have e2 : (p.PrevPagingLink u1).2 = (p2.PrevPagingLink u2).2 := by
    rw [offset_PrevPagingLink_eq, offset_PrevPagingLink_eq p2 u2, hk1, hk2, hps, hst, henc,
      h.rewrite_eq]
    split <;> rfl
  have e3 : (p.NextPagingLink u1).2 = (p2.NextPagingLink u2).2 := by
    rw [offset_NextPagingLink_eq, offset_NextPagingLink_eq p2 u2, hk1, hk2, hps, hst, henc,
      h.rewrite_eq]
  refine ⟨e1, e2, e3, ?_⟩
  rw [offset_PagingLinks_eq, offset_PagingLinks_eq p2 u2, e1, e2, e3]

end OffsetLimitPagination

theorem vsGetInt_congr (m1 m2 : Values) (k : GoString) (d : GoInt)
    (h : m1.lookup k = m2.lookup k) : vsGetInt m1 k d = vsGetInt m2 k d := by
  unfold vsGetInt Values.Get
  rw [h]

theorem agree_example_page :
    (exampleURL (str "a=1&page=7")).AgreeOutside (exampleURL (str "page=9&a=1"))
      [(pageState (GoInt.lit 3) true).PageNumberKey] := by
  refine ⟨rfl, fun k hk => ?_⟩
  have h1 : (exampleURL (str "a=1&page=7")).Query
      = [(str "a", [str "1"]), (str "page", [str "7"])] := by decide
  have h2 : (exampleURL (str "page=9&a=1")).Query
      = [(str "page", [str "9"]), (str "a", [str "1"])] := by decide
  have hk2 : ¬ str "page" = k := fun hc => hk (by rw [← hc]; exact List.mem_singleton.2 rfl)
  rw [h1, h2]
  simp only [Values.lookup, hk2, if_false]

theorem agree_example_offset :
    (exampleURL (str "a=1&offset=7")).AgreeOutside (exampleURL (str "limit=9&a=1"))
      [offsetExample.OffsetKey, offsetExample.LimitKey] := by
  refine ⟨rfl, fun k hk => ?_⟩
  have h1 : (exampleURL (str "a=1&offset=7")).Query
      = [(str "a", [str "1"]), (str "offset", [str "7"])] := by decide
  have h2 : (exampleURL (str "limit=9&a=1")).Query
      = [(str "limit", [str "9"]), (str "a", [str "1"])] := by decide
  have hk1 : ¬ str "offset" = k := fun hc => hk (by rw [← hc]; exact List.mem_cons_self _ _)
  have hk2 : ¬ str "limit" = k := fun hc =>
    hk (by rw [← hc]; exact List.mem_cons_of_mem _ (List.mem_singleton.2 rfl))
  rw [h1, h2]
  simp only [Values.lookup, hk1, hk2, if_false]

theorem agree_example_limit :
    (exampleURL (str "a=1&offset=100&limit=7")).AgreeOutside
      (exampleURL (str "offset=100&a=1")) [NewOffsetLimitPagination.LimitKey] := by
  refine ⟨rfl, fun k hk => ?_⟩
  have h1 : (exampleURL (str "a=1&offset=100&limit=7")).Query
      = [(str "a", [str "1"]), (str "offset", [str "100"]), (str "limit", [str "7"])] := by
    decide
  have h2 : (exampleURL (str "offset=100&a=1")).Query
      = [(str "offset", [str "100"]), (str "a", [str "1"])] := by decide
  have hk2 : ¬ str "limit" = k := fun hc => hk (by rw [← hc]; exact List.mem_singleton.2 rfl)
  rw [h1, h2]
  simp only [Values.lookup, hk2, if_false]
  by_cases ha : str "a" = k
  · rw [← ha]
    decide
  · simp only [ha, if_false]

theorem agree_example_same_key :
    (exampleURL (str "k=0")).AgreeOutside (exampleURL (str "k=100")) [sameKeyFresh.LimitKey] := by
  refine ⟨rfl, fun k hk => ?_⟩
  have h1 : (exampleURL (str "k=0")).Query = [(str "k", [str "0"])] := by decide
  have h2 : (exampleURL (str "k=100")).Query = [(str "k", [str "100"])] := by decide
  have hk2 : ¬ str "k" = k := fun hc => hk (by rw [← hc]; exact List.mem_singleton.2 rfl)
  rw [h1, h2]
  simp only [Values.lookup, hk2, if_false]

/-- C27: on a parsed state of either strategy, and for two URLs that differ at most in
what they hold under the pagination key(s), every accessor returns the same links and
error on both URLs: the position comes from the stored state. -/
theorem parsed_position_from_state (p : PageNumberPagination) (q : OffsetLimitPagination)
    (u1 u2 w1 w2 : URL) (hp : p.parsed = true) (hq : q.parsed = true)
    (h1 : u1.AgreeOutside u2 [p.PageNumberKey])
    (h2 : w1.AgreeOutside w2 [q.OffsetKey, q.LimitKey]) :
    ((p.FirstPagingLink u1).2 = (p.FirstPagingLink u2).2 ∧
     (p.PrevPagingLink u1).2 = (p.PrevPagingLink u2).2 ∧
     (p.NextPagingLink u1).2 = (p.NextPagingLink u2).2 ∧
     (p.LastPagingLink u1).2 = (p.LastPagingLink u2).2 ∧
     (p.PagingLinks u1).2 = (p.PagingLinks u2).2) ∧
    ((q.FirstPagingLink w1).2 = (q.FirstPagingLink w2).2 ∧
     (q.PrevPagingLink w1).2 = (q.PrevPagingLink w2).2 ∧
     (q.NextPagingLink w1).2 = (q.NextPagingLink w2).2 ∧
     (q.LastPagingLink w1).2 = (q.LastPagingLink w2).2 ∧
     (q.PagingLinks w1).2 = (q.PagingLinks w2).2) := by
  obtain ⟨a1, a2, a3, a4⟩ := PageNumberPagination.accessors_congr p u1 u2 hp h1
  have hst : (q.autoParse w1).1.Offset = (q.autoParse w2).1.Offset := by
    rw [(OffsetLimitPagination.offset_autoParse_eq q w1).2.2.2.2.2 hq,
      (OffsetLimitPagination.offset_autoParse_eq q w2).2.2.2.2.2 hq]
  obtain ⟨b1, b2, b3, b4⟩ :=
    OffsetLimitPagination.offset_accessors_congr q q w1 w2 rfl rfl rfl hst h2
  rw [a1, a2, a3, a4]
  exact ⟨⟨rfl, rfl, rfl, rfl, rfl⟩, ⟨b1, b2, b3, rfl, b4⟩⟩

/-- Instance of C27: the state parsed at page 3 on `?a=1&page=7` and `?page=9&a=1`, the
state parsed at offset 100 on `?a=1&offset=7` and `?limit=9&a=1`. -/
theorem parsed_position_from_state_witness :
    (pageState (GoInt.lit 3) true).parsed = true ∧ offsetExample.parsed = true ∧
    (exampleURL (str "a=1&page=7")).AgreeOutside (exampleURL (str "page=9&a=1"))
      [(pageState (GoInt.lit 3) true).PageNumberKey] ∧
    (exampleURL (str "a=1&offset=7")).AgreeOutside (exampleURL (str "limit=9&a=1"))
      [offsetExample.OffsetKey, offsetExample.LimitKey] ∧
    (((pageState (GoInt.lit 3) true).FirstPagingLink (exampleURL (str "a=1&page=7"))).2
        = ((pageState (GoInt.lit 3) true).FirstPagingLink (exampleURL (str "page=9&a=1"))).2 ∧
     ((pageState (GoInt.lit 3) true).PrevPagingLink (exampleURL (str "a=1&page=7"))).2
        = ((pageState (GoInt.lit 3) true).PrevPagingLink (exampleURL (str "page=9&a=1"))).2 ∧
     ((pageState (GoInt.lit 3) true).NextPagingLink (exampleURL (str "a=1&page=7"))).2
        = ((pageState (GoInt.lit 3) true).NextPagingLink (exampleURL (str "page=9&a=1"))).2 ∧
     ((pageState (GoInt.lit 3) true).LastPagingLink (exampleURL (str "a=1&page=7"))).2
        = ((pageState (GoInt.lit 3) true).LastPagingLink (exampleURL (str "page=9&a=1"))).2 ∧
     ((pageState (GoInt.lit 3) true).PagingLinks (exampleURL (str "a=1&page=7"))).2
        = ((pageState (GoInt.lit 3) true).PagingLinks (exampleURL (str "page=9&a=1"))).2) ∧
    ((offsetExample.FirstPagingLink (exampleURL (str "a=1&offset=7"))).2
        = (offsetExample.FirstPagingLink (exampleURL (str "limit=9&a=1"))).2 ∧
     (offsetExample.PrevPagingLink (exampleURL (str "a=1&offset=7"))).2
        = (offsetExample.PrevPagingLink (exampleURL (str "limit=9&a=1"))).2 ∧
     (offsetExample.NextPagingLink (exampleURL (str "a=1&offset=7"))).2
        = (offsetExample.NextPagingLink (exampleURL (str "limit=9&a=1"))).2 ∧
     (offsetExample.LastPagingLink (exampleURL (str "a=1&offset=7"))).2
        = (offsetExample.LastPagingLink (exampleURL (str "limit=9&a=1"))).2 ∧
     (offsetExample.PagingLinks (exampleURL (str "a=1&offset=7"))).2
        = (offsetExample.PagingLinks (exampleURL (str "limit=9&a=1"))).2) :=
  ⟨rfl, rfl, agree_example_page, agree_example_offset,
    parsed_position_from_state (pageState (GoInt.lit 3) true) offsetExample
      (exampleURL (str "a=1&page=7")) (exampleURL (str "page=9&a=1"))
      (exampleURL (str "a=1&offset=7")) (exampleURL (str "limit=9&a=1")) rfl rfl
      agree_example_page agree_example_offset⟩

/-- C28 fails when both keys have the same name and the state is unparsed: the limit
parameter is then the offset parameter too. `?k=0` and `?k=100` differ in that parameter
only, yet `PrevPagingLink` returns no link on the first and a link on the second. -/
theorem limit_same_key_counterexample :
    (exampleURL (str "k=0")).AgreeOutside (exampleURL (str "k=100")) [sameKeyFresh.LimitKey] ∧
    (sameKeyFresh.PrevPagingLink (exampleURL (str "k=0"))).2.1 = none ∧
    (sameKeyFresh.PrevPagingLink (exampleURL (str "k=100"))).2.1.map (fun L => L.URL.RawQuery)
      = some (str "k=50") ∧
    (sameKeyFresh.PrevPagingLink (exampleURL (str "k=0"))).2
      ≠ (sameKeyFresh.PrevPagingLink (exampleURL (str "k=100"))).2 := by
  refine ⟨agree_example_same_key, by decide, by decide, by decide⟩

/-- C28, amended: for an offset/limit state whose offset key differs from its limit key,
the same state with any other stored limit, and two URLs that differ at most in what
they hold under the limit key, `FirstPagingLink`, `PrevPagingLink`, `NextPagingLink` and
`PagingLinks` return the same links and error. -/
theorem limit_never_influences (q : OffsetLimitPagination) (l : GoInt) (w1 w2 : URL)
    (hk : q.OffsetKey ≠ q.LimitKey) (h : w1.AgreeOutside w2 [q.LimitKey]) :
    (q.FirstPagingLink w1).2 = ({ q with Limit := l }.FirstPagingLink w2).2 ∧
    (q.PrevPagingLink w1).2 = ({ q with Limit := l }.PrevPagingLink w2).2 ∧
    (q.NextPagingLink w1).2 = ({ q with Limit := l }.NextPagingLink w2).2 ∧
    (q.PagingLinks w1).2 = ({ q with Limit := l }.PagingLinks w2).2 := by
  have h2 : w1.AgreeOutside w2 [q.OffsetKey, q.LimitKey] :=
    ⟨h.1, fun k hk2 => h.2 k (fun hc => hk2 (List.mem_cons_of_mem _ hc))⟩
  have hst : ∀ q2 : OffsetLimitPagination, q2.parsed = q.parsed → q2.OffsetKey = q.OffsetKey →
      q2.Offset = q.Offset → (q.autoParse w1).1.Offset = (q2.autoParse w2).1.Offset := by
    intro q2 hpar hkey hoff
    rcases Bool.eq_false_or_eq_true q.parsed with hp | hp
    · rw [(OffsetLimitPagination.offset_autoParse_eq q w1).2.2.2.2.2 hp,
        (OffsetLimitPagination.offset_autoParse_eq q2 w2).2.2.2.2.2 (hpar.trans hp), hoff]
    · rw [OffsetLimitPagination.offset_autoParse_of_unparsed q w1 hp,
        OffsetLimitPagination.offset_autoParse_of_unparsed q2 w2 (hpar.trans hp),
        OffsetLimitPagination.ParseURL_Offset, OffsetLimitPagination.ParseURL_Offset, hkey]
      exact vsGetInt_congr _ _ _ _ (h.2 _ (by simpa using hk))
  exact OffsetLimitPagination.offset_accessors_congr q _ w1 w2 rfl rfl rfl
    (hst _ rfl rfl rfl) h2

/-- Instance of the amended C28: the unparsed default state on `?a=1&offset=100&limit=7`,
and with stored limit 7 on `?offset=100&a=1`. -/
theorem limit_never_influences_witness :
    NewOffsetLimitPagination.OffsetKey ≠ NewOffsetLimitPagination.LimitKey ∧
    (exampleURL (str "a=1&offset=100&limit=7")).AgreeOutside
      (exampleURL (str "offset=100&a=1")) [NewOffsetLimitPagination.LimitKey] ∧
    (NewOffsetLimitPagination.FirstPagingLink (exampleURL (str "a=1&offset=100&limit=7"))).2
      = ({ NewOffsetLimitPagination with Limit := GoInt.lit 7 }.FirstPagingLink
          (exampleURL (str "offset=100&a=1"))).2 ∧
    (NewOffsetLimitPagination.PrevPagingLink (exampleURL (str "a=1&offset=100&limit=7"))).2
      = ({ NewOffsetLimitPagination with Limit := GoInt.lit 7 }.PrevPagingLink
          (exampleURL (str "offset=100&a=1"))).2 ∧
    (NewOffsetLimitPagination.NextPagingLink (exampleURL (str "a=1&offset=100&limit=7"))).2
      = ({ NewOffsetLimitPagination with Limit := GoInt.lit 7 }.NextPagingLink
          (exampleURL (str "offset=100&a=1"))).2 ∧
    (NewOffsetLimitPagination.PagingLinks (exampleURL (str "a=1&offset=100&limit=7"))).2
      = ({ NewOffsetLimitPagination with Limit := GoInt.lit 7 }.PagingLinks
          (exampleURL (str "offset=100&a=1"))).2 :=
  ⟨by decide, agree_example_limit,
    limit_never_influences NewOffsetLimitPagination (GoInt.lit 7)
      (exampleURL (str "a=1&offset=100&limit=7")) (exampleURL (str "offset=100&a=1"))
      (by decide) agree_example_limit⟩

/-! ## Decoded maps hold no empty value list -/

theorem Values.lookup_store (m : Values) (k k2 : GoString) (vs : List GoString) :
    (m.store k vs).lookup k2 = if k2 = k then some vs else m.lookup k2 := by
  by_cases h : k2 = k
  · rw [if_pos h, h, Values.lookup_store_self]
  · rw [if_neg h, Values.lookup_store_ne _ _ _ _ h]

theorem parseQueryStep_noEmpty (m : Values) (seg : GoString)
    (h : ∀ k vs, m.lookup k = some vs → vs ≠ []) :
    ∀ k vs, (parseQueryStep m seg).lookup k = some vs → vs ≠ [] := by
  unfold parseQueryStep
  split
  · exact h
  · split
    · exact h
    · split
      · exact h
      · split
        · exact h
        · intro k vs hl
          unfold Values.Add at hl
          rw [Values.lookup_store] at hl
          split at hl
          · injection hl with hl
            rw [← hl]
            simp
          · exact h k vs hl

theorem foldl_parseQueryStep_noEmpty (segs : List GoString) (m : Values)
    (h : ∀ k vs, m.lookup k = some vs → vs ≠ []) :
    ∀ k vs, (segs.foldl parseQueryStep m).lookup k = some vs → vs ≠ [] := by
  induction segs generalizing m with
  | nil => exact h
  | cons s rest ih => exact ih _ (parseQueryStep_noEmpty m s h)

theorem parseQuery_noEmpty (q : GoString) :
    ∀ k vs, (parseQuery q).lookup k = some vs → vs ≠ [] := by
  by_cases h : paramCount q ≤ 10000
  · rw [parseQuery_of_within q h]
    exact foldl_parseQueryStep_noEmpty _ [] (fun k vs h => by simp [Values.lookup] at h)
  · rw [parseQuery_of_over q (Nat.not_le.1 h)]
    intro k vs h2
    simp [Values.lookup] at h2

theorem Values.Set_noEmpty (m : Values) (k v : GoString)
    (h : ∀ k2 vs, m.lookup k2 = some vs → vs ≠ []) :
    ∀ k2 vs, (m.Set k v).lookup k2 = some vs → vs ≠ [] := by
  intro k2 vs hl
  unfold Values.Set at hl
  rw [Values.lookup_store] at hl
  by_cases hk : k2 = k
  · rw [if_pos hk] at hl
    injection hl with hl
    rw [← hl]
    simp
  · rw [if_neg hk] at hl
    exact h k2 vs hl

/-- Decoding the encoding of a map with distinct keys and no empty value list gives
back the values of every key, when the encoding is within the parameter limit. -/
theorem lookup_parseQuery_Encode_of_noEmpty (m : Values) (k : GoString) (hnd : m.keys.Nodup)
    (hne : ∀ k2 vs, m.lookup k2 = some vs → vs ≠ []) (hw : paramCount m.Encode ≤ 10000) :
    (parseQuery m.Encode).lookup k = m.lookup k := by
  rw [lookup_parseQuery_Encode m k hnd hw]
  cases hl : m.lookup k with
  | none => rfl
  | some vs =>
    have := hne k vs hl
    simp [this]

/-- Decoding a rewritten query that is within the parameter limit gives, under every
key, what the rewritten map holds. -/
theorem lookup_reparse_set (q : GoString) (k v k2 : GoString)
    (hw : paramCount ((parseQuery q).Set k v).Encode ≤ 10000) :
    (parseQuery ((parseQuery q).Set k v).Encode).lookup k2 = ((parseQuery q).Set k v).lookup k2 :=
  lookup_parseQuery_Encode_of_noEmpty _ _ (Values.nodup_keys_store _ _ _ (parseQuery_nodup _))
    (Values.Set_noEmpty _ _ _ (parseQuery_noEmpty _)) hw

theorem lookup_reparse_set_set (q : GoString) (k1 v1 k2 v2 k : GoString)
    (hw : paramCount (((parseQuery q).Set k1 v1).Set k2 v2).Encode ≤ 10000) :
    (parseQuery (((parseQuery q).Set k1 v1).Set k2 v2).Encode).lookup k
      = (((parseQuery q).Set k1 v1).Set k2 v2).lookup k :=
  lookup_parseQuery_Encode_of_noEmpty _ _
    (Values.nodup_keys_store _ _ _ (Values.nodup_keys_store _ _ _ (parseQuery_nodup _)))
    (Values.Set_noEmpty _ _ _ (Values.Set_noEmpty _ _ _ (parseQuery_noEmpty _))) hw

/-! ## Queries at the parameter limit -/

theorem paramCount_repeatedQuery (n : Nat) (hn : 0 < n) : paramCount (repeatedQuery n) = n := by
  unfold repeatedQuery
  rw [paramCount_eq_length, splitOn_intercalate _ _ (by
    intro hc
    have := congrArg List.length hc
    rw [List.length_replicate] at this
    exact absurd this (Nat.ne_of_gt hn)) (by
    intro p hp
    rw [List.eq_of_mem_replicate hp]
    decide), List.length_replicate]

theorem valuesOf_replicate (n : Nat) (k v : GoString) :
    valuesOf k (List.replicate n (k, v)) = List.replicate n v := by
  induction n with
  | zero => rfl
  | succ m ih =>
    rw [List.replicate_succ, List.replicate_succ, ← ih]
    simp [valuesOf]

/-- The decoded query of `n` times `a=1`, for `n` from 1 to 10000, holds `n` values
under `a`. -/
theorem lookup_repeatedQuery (n : Nat) (hn : 0 < n) (hle : n ≤ 10000) :
    (parseQuery (repeatedQuery n)).lookup (str "a") = some (List.replicate n (str "1")) := by
  have hc : paramCount (repeatedQuery n) ≤ 10000 := by
    rw [paramCount_repeatedQuery n hn]
    exact hle
  have hr : List.replicate n (str "a=1")
      = (List.replicate n (str "a", str "1")).map
          (fun kv => QueryEscape kv.1 ++ [ch '='] ++ QueryEscape kv.2) := by
    rw [List.map_replicate]
    congr 1
  rw [parseQuery_of_within _ hc]
  unfold repeatedQuery
  rw [splitOn_intercalate _ _ (by
    intro hc
    have := congrArg List.length hc
    rw [List.length_replicate] at this
    exact absurd this (Nat.ne_of_gt hn)) (by
    intro p hp
    rw [List.eq_of_mem_replicate hp]
    decide), hr, foldl_parseQueryStep_encoded, lookup_foldl_Add, valuesOf_replicate]
  have hne : List.replicate n (str "1") ≠ [] := by
    intro hc
    have := congrArg List.length hc
    rw [List.length_replicate] at this
    exact absurd this (Nat.ne_of_gt hn)
  rw [if_neg hne]
  rfl

theorem length_valuesOf_add_le (k1 k2 : GoString) (hne : k1 ≠ k2)
    (kvs : List (GoString × GoString)) :
    (valuesOf k1 kvs).length + (valuesOf k2 kvs).length ≤ kvs.length := by
  induction kvs with
  | nil => simp [valuesOf]
  | cons kv rest ih =>
    have e1 : ∀ k, valuesOf k (kv :: rest)
        = if kv.1 = k then kv.2 :: valuesOf k rest else valuesOf k rest := by
      intro k
      by_cases h : kv.1 = k <;> simp [valuesOf, h]
    rw [e1, e1, List.length_cons]
    by_cases h1 : kv.1 = k1
    · have h2 : ¬ kv.1 = k2 := fun hc => hne (h1.symm.trans hc)
      rw [if_pos h1, if_neg h2, List.length_cons]
      omega
    · by_cases h2 : kv.1 = k2
      · rw [if_neg h1, if_pos h2, List.length_cons]
        omega
      · rw [if_neg h1, if_neg h2]
        omega

/-- A map that holds 10000 values under one key and a value under another key has an
encoding beyond the parameter limit. -/
theorem Values.paramCount_Encode_gt (m : Values) (hnd : m.keys.Nodup) (k1 k2 : GoString)
    (hne : k1 ≠ k2) (h1 : 10000 ≤ ((m.lookup k1).getD []).length)
    (h2 : 1 ≤ ((m.lookup k2).getD []).length) : 10000 < paramCount m.Encode := by
  have h := length_valuesOf_add_le k1 k2 hne m.pairs
  rw [Values.valuesOf_pairs m k1 hnd, Values.valuesOf_pairs m k2 hnd] at h
  rw [Values.paramCount_Encode]
  omega

/-- Setting a key other than `a` in the decoded query of `manyParams` gives an encoding
of more than 10000 parameters, which decodes to the empty map. -/
theorem manyParams_set_over (k v : GoString) (hk : k ≠ str "a") :
    10000 < paramCount (manyParams.Query.Set k v).Encode ∧
    parseQuery (manyParams.Query.Set k v).Encode = [] := by
  have hl : manyParams.Query.lookup (str "a") = some (List.replicate 10000 (str "1")) :=
    lookup_repeatedQuery 10000 (by omega) (Nat.le_refl _)
  have h : 10000 < paramCount (manyParams.Query.Set k v).Encode := by
    refine Values.paramCount_Encode_gt _ (Values.nodup_keys_store _ _ _ (parseQuery_nodup _))
      (str "a") k (Ne.symm hk) ?_ ?_
    · show 10000 ≤ ((Values.lookup (Values.store manyParams.Query k [v]) (str "a")).getD
        []).length
      rw [Values.lookup_store, if_neg (Ne.symm hk), hl, Option.getD_some, List.length_replicate]
    · show 1 ≤ ((Values.lookup (Values.store manyParams.Query k [v]) k).getD []).length
      rw [Values.lookup_store_self]
      exact Nat.le_refl _
  exact ⟨h, parseQuery_of_over _ h⟩

theorem paramCount_bareQuery (n : Nat) : paramCount (bareQuery n) = n + 1 := by
  unfold paramCount bareQuery
  rw [List.count_append, List.count_replicate_self]
  have : List.count (ch '&') (str "b") = 0 := by decide
  omega

theorem isBareParameter_bareQuery (n : Nat) : IsBareParameter (bareQuery (n + 1)) (str "b") := by
  refine ⟨str "b", ?_, by decide, by decide, by decide, by decide⟩
  unfold bareQuery
  rw [List.replicate_succ, splitOn_append _ _ _ (by decide)]
  exact List.mem_cons_self _ _

/-! ## The first link as a fixed point -/

theorem Values.Encode_set_same (m : Values) (k v : GoString) (hnd : m.keys.Nodup)
    (h : m.lookup k = some [v]) : (m.Set k v).Encode = m.Encode := by
  refine Values.Encode_congr _ _ (Values.nodup_keys_store _ _ _ hnd) hnd (fun k2 => ?_)
  show Values.lookup (Values.store m k [v]) k2 = _
  rw [Values.lookup_store]
  by_cases hk : k2 = k
  · rw [if_pos hk, hk, h]
  · rw [if_neg hk]

/-- Setting the key again in the decoding of a rewritten query gives the query that
setting it in the original decoding gives, when the rewritten query is within the
parameter limit. -/
theorem Encode_set_reparse (q : GoString) (k v w : GoString)
    (hw : paramCount ((parseQuery q).Set k v).Encode ≤ 10000) :
    ((parseQuery ((parseQuery q).Set k v).Encode).Set k w).Encode
      = ((parseQuery q).Set k w).Encode := by
  refine Values.Encode_congr _ _ (Values.nodup_keys_store _ _ _ (parseQuery_nodup _))
    (Values.nodup_keys_store _ _ _ (parseQuery_nodup _)) (fun k2 => ?_)
  show Values.lookup (Values.store _ k [w]) k2
    = Values.lookup (Values.store (parseQuery q) k [w]) k2
  rw [Values.lookup_store, Values.lookup_store]
  by_cases hk : k2 = k
  · rw [if_pos hk, if_pos hk]
  · rw [if_neg hk, if_neg hk, lookup_reparse_set q k v k2 hw]
    show Values.lookup (Values.store (parseQuery q) k [v]) k2 = _
    rw [Values.lookup_store, if_neg hk]

theorem Encode_set_set_reparse (q : GoString) (k1 v1 k2 v2 w1 w2 : GoString)
    (hw : paramCount (((parseQuery q).Set k1 v1).Set k2 v2).Encode ≤ 10000) :
    (((parseQuery (((parseQuery q).Set k1 v1).Set k2 v2).Encode).Set k1 w1).Set k2 w2).Encode
      = (((parseQuery q).Set k1 w1).Set k2 w2).Encode := by
  refine Values.Encode_congr _ _
    (Values.nodup_keys_store _ _ _ (Values.nodup_keys_store _ _ _ (parseQuery_nodup _)))
    (Values.nodup_keys_store _ _ _ (Values.nodup_keys_store _ _ _ (parseQuery_nodup _)))
    (fun k => ?_)
  show Values.lookup (Values.store (Values.store _ k1 [w1]) k2 [w2]) k
    = Values.lookup (Values.store (Values.store (parseQuery q) k1 [w1]) k2 [w2]) k
  rw [Values.lookup_store, Values.lookup_store, Values.lookup_store, Values.lookup_store]
  by_cases hk2 : k = k2
  · rw [if_pos hk2, if_pos hk2]
  · rw [if_neg hk2, if_neg hk2]
    by_cases hk1 : k = k1
    · rw [if_pos hk1, if_pos hk1]
    · rw [if_neg hk1, if_neg hk1]
      have h := lookup_reparse_set_set q k1 v1 k2 v2 k hw
      rw [h]
      show Values.lookup (Values.store (Values.store (parseQuery q) k1 [v1]) k2 [v2]) k = _
      rw [Values.lookup_store, Values.lookup_store, if_neg hk2, if_neg hk1]

theorem PageNumberPagination.first_of_over (p : PageNumberPagination) (u : URL)
    (q : GoString) (h : 10000 < paramCount q) :
    (p.FirstPagingLink { u with RawQuery := q }).2.1
      = some { Rel := str "first", URL := { u with RawQuery :=
          (Values.Set [] p.PageNumberKey (str "1")).Encode } } := by
  rw [PageNumberPagination.FirstPagingLink_eq]
  unfold URL.Query
  dsimp only
  rw [parseQuery_of_over q h]

theorem paramCount_set_nil (k v : GoString) : paramCount (Values.Set [] k v).Encode ≤ 2 := by
  have h := paramCount_set_le [] k v
  rw [show parseQuery [] = [] from rfl] at h
  exact h

/-- Beyond the parameter limit the first link is no fixed point: when the first link of
`u` has more than 10000 parameters, the first link computed on it carries the page key
alone. -/
theorem PageNumberPagination.first_not_fixed_of_over (p : PageNumberPagination) (u : URL)
    (h : 10000 < paramCount (u.Query.Set p.PageNumberKey (str "1")).Encode) :
    ∃ t, (p.FirstPagingLink u).2.1 = some t ∧
      10000 < paramCount t.URL.RawQuery ∧
      (p.FirstPagingLink t.URL).2.1.map (fun L => L.URL.RawQuery)
        = some (Values.Set [] p.PageNumberKey (str "1")).Encode ∧
      (p.FirstPagingLink t.URL).2.1 ≠ some t := by
  have hf2 := PageNumberPagination.first_of_over p u
    (u.Query.Set p.PageNumberKey (str "1")).Encode h
  have h4 := paramCount_set_nil p.PageNumberKey (str "1")
  refine ⟨{ Rel := str "first", URL := { u with RawQuery :=
    (u.Query.Set p.PageNumberKey (str "1")).Encode } },
    by rw [PageNumberPagination.FirstPagingLink_eq], ?_, ?_, ?_⟩
  · dsimp only
    exact h
  · dsimp only
    rw [hf2]
    rfl
  · dsimp only
    rw [hf2]
    intro hc
    have h2 := congrArg (fun L : PagingLink => paramCount L.URL.RawQuery) (Option.some.inj hc)
    dsimp only at h2
    omega

/-- C26 fails beyond the parameter limit of `net/url`: the query of `manyParams` holds
`a=1` 10000 times, the first link `t` adds `page=1` and has more than 10000 parameters,
so the decoded query of `t` is empty and the first link computed on `t` carries
`page=1` alone: it is not `t`. -/
theorem first_link_over_limit_counterexample :
    paramCount manyParams.RawQuery = 10000 ∧
    ∃ t, (NewPageNumberPagination.FirstPagingLink manyParams).2.1 = some t ∧
      10000 < paramCount t.URL.RawQuery ∧
      (NewPageNumberPagination.FirstPagingLink t.URL).2.1.map (fun L => L.URL.RawQuery)
        = some (str "page=1") ∧
      (NewPageNumberPagination.FirstPagingLink t.URL).2.1 ≠ some t := by
  obtain ⟨t, h1, h2, h3, h4⟩ :=
    PageNumberPagination.first_not_fixed_of_over NewPageNumberPagination manyParams
      (manyParams_set_over NewPageNumberPagination.PageNumberKey (str "1") (by decide)).1
  have e : (Values.Set [] NewPageNumberPagination.PageNumberKey (str "1")).Encode
      = str "page=1" := by decide
  rw [e] at h3
  exact ⟨paramCount_repeatedQuery 10000 (by omega), t, h1, h2, h3, h4⟩

/-- C26, amended: for both strategies and every URL `u`, let `t` be the first link
computed on `u`. When the raw query of `t` has at most 10000 parameters, counted as
`net/url` counts them, the first link computed on the URL of `t` by a strategy with the
same keys and page size is `t` again: same relation and same URL, normalised query
included. The raw query of `t` has at most 10000 parameters whenever that of `u` has at
most 9999 (9998 for the offset/limit strategy). This holds for the freshly constructed
strategies in particular. -/
theorem first_link_fixed_point (p : PageNumberPagination) (q : OffsetLimitPagination)
    (u : URL) (n : GoInt) (b : Bool) (o l : GoInt) (b2 : Bool) :
    (∃ t, (p.FirstPagingLink u).2.1 = some t ∧
      (paramCount u.RawQuery + 1 ≤ 10000 → paramCount t.URL.RawQuery ≤ 10000) ∧
      (paramCount t.URL.RawQuery ≤ 10000 →
        (({ p with PageNumber := n, parsed := b } : PageNumberPagination).FirstPagingLink
          t.URL).2.1 = some t)) ∧
    (∃ t, (q.FirstPagingLink u).2.1 = some t ∧
      (paramCount u.RawQuery + 2 ≤ 10000 → paramCount t.URL.RawQuery ≤ 10000) ∧
      (paramCount t.URL.RawQuery ≤ 10000 →
        (({ q with Offset := o, Limit := l, parsed := b2 } :
          OffsetLimitPagination).FirstPagingLink t.URL).2.1 = some t)) := by
  constructor
  · refine ⟨{ Rel := str "first", URL := { u with RawQuery :=
      (u.Query.Set p.PageNumberKey (str "1")).Encode } },
      by rw [PageNumberPagination.FirstPagingLink_eq], ?_, ?_⟩
    · intro hu
      dsimp only
      exact Nat.le_trans (paramCount_set_le u.RawQuery _ _) hu
    dsimp only
    intro hw
    rw [PageNumberPagination.FirstPagingLink_eq]
    show some ({ Rel := str "first", URL := { u with RawQuery :=
      ((parseQuery ((parseQuery u.RawQuery).Set p.PageNumberKey (str "1")).Encode).Set
        p.PageNumberKey (str "1")).Encode } } : PagingLink) = _
    rw [Encode_set_reparse _ _ _ _ hw]
    rfl
  · refine ⟨{ Rel := str "first", URL := { u with RawQuery :=
      ((u.Query.Set q.OffsetKey (str "0")).Set q.LimitKey (Itoa q.PageSize)).Encode } },
      by rw [OffsetLimitPagination.offset_FirstPagingLink_eq], ?_, ?_⟩
    · intro hu
      dsimp only
      exact Nat.le_trans (paramCount_set_set_le u.RawQuery _ _ _ _) hu
    dsimp only
    intro hw
    rw [OffsetLimitPagination.offset_FirstPagingLink_eq]
    show some ({ Rel := str "first", URL := { u with RawQuery :=
      (((parseQuery (((parseQuery u.RawQuery).Set q.OffsetKey (str "0")).Set q.LimitKey
        (Itoa q.PageSize)).Encode).Set q.OffsetKey (str "0")).Set q.LimitKey
          (Itoa q.PageSize)).Encode } } : PagingLink) = _
    rw [Encode_set_set_reparse _ _ _ _ _ _ _ hw]
    rfl

/-- Instance of the amended C26 on `?page=3&offset=100&limit=20`, a query of three
parameters: the first links of the freshly constructed strategies are within the
parameter limit and are fixed points. -/
theorem first_link_fixed_point_witness :
    paramCount exampleBoth.RawQuery = 3 ∧
    (∃ t, (NewPageNumberPagination.FirstPagingLink exampleBoth).2.1 = some t ∧
      paramCount t.URL.RawQuery ≤ 10000 ∧
      (({ NewPageNumberPagination with PageNumber := GoInt.lit 7, parsed := true } :
        PageNumberPagination).FirstPagingLink t.URL).2.1 = some t) ∧
    (∃ t, (NewOffsetLimitPagination.FirstPagingLink exampleBoth).2.1 = some t ∧
      paramCount t.URL.RawQuery ≤ 10000 ∧
      (({ NewOffsetLimitPagination with
          Offset := GoInt.lit 5, Limit := GoInt.lit 6, parsed := false } :
        OffsetLimitPagination).FirstPagingLink t.URL).2.1 = some t) := by
  obtain ⟨⟨t1, a1, a2, a3⟩, ⟨t2, b1, b2, b3⟩⟩ :=
    first_link_fixed_point NewPageNumberPagination NewOffsetLimitPagination exampleBoth
      (GoInt.lit 7) true (GoInt.lit 5) (GoInt.lit 6) false
  exact ⟨by decide, ⟨t1, a1, a2 (by decide), a3 (a2 (by decide))⟩,
    ⟨t2, b1, b2 (by decide), b3 (b2 (by decide))⟩⟩

/-- The fixed point on the URLs of the tests, for the freshly constructed strategies:
`?bar+baz%3Aqux&page=3` gives `?bar+baz%3Aqux=&page=1`, which gives itself. -/
theorem first_link_fixed_point_examples :
    (NewPageNumberPagination.FirstPagingLink (exampleURL (str "bar+baz%3Aqux&page=3"))).2.1
      = some { Rel := str "first", URL := exampleURL (str "bar+baz%3Aqux=&page=1") } ∧
    (NewPageNumberPagination.FirstPagingLink (exampleURL (str "bar+baz%3Aqux=&page=1"))).2.1
      = some { Rel := str "first", URL := exampleURL (str "bar+baz%3Aqux=&page=1") } ∧
    (NewOffsetLimitPagination.FirstPagingLink
        (exampleURL (str "bar+baz%3Aqux&limit=20&offset=100"))).2.1
      = some { Rel := str "first",
               URL := exampleURL (str "bar+baz%3Aqux=&limit=50&offset=0") } ∧
    (NewOffsetLimitPagination.FirstPagingLink
        (exampleURL (str "bar+baz%3Aqux=&limit=50&offset=0"))).2.1
      = some { Rel := str "first",
               URL := exampleURL (str "bar+baz%3Aqux=&limit=50&offset=0") } := by
  decide

/-! ## `int` arithmetic without overflow -/

theorem GoInt.add_val (a b : GoInt) : (a.add b).val = wrapInt (a.val + b.val) := rfl

theorem GoInt.sub_val (a b : GoInt) : (a.sub b).val = wrapInt (a.val - b.val) := rfl

theorem GoInt.lit_one_val : (GoInt.lit 1).val = 1 := rfl

theorem GoInt.add_val_of_range (a b : GoInt) (h1 : minInt ≤ a.val + b.val)
    (h2 : a.val + b.val ≤ maxInt) : (a.add b).val = a.val + b.val := by
  rw [GoInt.add_val, wrapInt_of_range _ h1 h2]

theorem GoInt.sub_val_of_range (a b : GoInt) (h1 : minInt ≤ a.val - b.val)
    (h2 : a.val - b.val ≤ maxInt) : (a.sub b).val = a.val - b.val := by
  rw [GoInt.sub_val, wrapInt_of_range _ h1 h2]

theorem GoInt.add_one_val (a : GoInt) (h : a.val < maxInt) :
    (a.add (GoInt.lit 1)).val = a.val + 1 := by
  have hr := a.property
  unfold minInt maxInt at hr
  unfold maxInt at h
  rw [GoInt.add_val_of_range _ _ (by rw [GoInt.lit_one_val]; unfold minInt; omega)
    (by rw [GoInt.lit_one_val]; unfold maxInt; omega), GoInt.lit_one_val]

theorem GoInt.sub_one_val (a : GoInt) (h : minInt < a.val) :
    (a.sub (GoInt.lit 1)).val = a.val - 1 := by
  have hr := a.property
  unfold minInt maxInt at hr
  unfold minInt at h
  rw [GoInt.sub_val_of_range _ _ (by rw [GoInt.lit_one_val]; unfold minInt; omega)
    (by rw [GoInt.lit_one_val]; unfold maxInt; omega), GoInt.lit_one_val]

/-! ## Where a previous link points, and next after prev -/

namespace PageNumberPagination

theorem targetPage_rewrite (p : PageNumberPagination) (u : URL) (r v : GoString) (i : GoInt)
    (ha : Atoi v = some i)
    (hw : paramCount (u.Query.Set p.PageNumberKey v).Encode ≤ 10000) :
    p.targetPage { Rel := r, URL := { u with RawQuery := (u.Query.Set p.PageNumberKey v).Encode } }
      = i.val := by
  have h := reparse_page p u p.PageNumber p.parsed v i ha hw
  exact congrArg Subtype.val h

theorem autoParse_rewrite (p : PageNumberPagination) (u : URL) (v : GoString) (i : GoInt)
    (hp : p.parsed = false) (ha : Atoi v = some i)
    (hw : paramCount (u.Query.Set p.PageNumberKey v).Encode ≤ 10000) :
    (p.autoParse { u with RawQuery := (u.Query.Set p.PageNumberKey v).Encode }).1.PageNumber
      = i := by
  rw [autoParse_of_unparsed p _ hp]
  exact reparse_page p u p.PageNumber p.parsed v i ha hw

theorem targetPage_over (p : PageNumberPagination) (L : PagingLink)
    (h : 10000 < paramCount L.URL.RawQuery) : p.targetPage L = 1 := by
  unfold targetPage
  rw [ParseURL_PageNumber, parseQuery_of_over _ h]
  rfl

theorem autoParse_val (p : PageNumberPagination) (u : URL) (hp : p.parsed = false) :
    (p.autoParse u).1.PageNumber.val = specInt u.Query p.PageNumberKey 1 := by
  rw [autoParse_of_unparsed p u hp, ParseURL_PageNumber]
  exact vsGetInt_val u.Query p.PageNumberKey (GoInt.lit 1)

end PageNumberPagination

namespace OffsetLimitPagination

theorem targetOffset_rewrite (p : OffsetLimitPagination) (u : URL) (r v1 v2 : GoString)
    (i1 i2 : GoInt) (hk : p.OffsetKey ≠ p.LimitKey) (h1 : Atoi v1 = some i1)
    (h2 : Atoi v2 = some i2)
    (hw : paramCount ((u.Query.Set p.OffsetKey v1).Set p.LimitKey v2).Encode ≤ 10000) :
    p.targetOffset { Rel := r, URL := { u with RawQuery :=
      ((u.Query.Set p.OffsetKey v1).Set p.LimitKey v2).Encode } } = i1.val := by
  have h := (reparse_offset p u p.Offset p.Limit p.parsed v1 v2 i1 i2 hk h1 h2 hw).1
  exact congrArg Subtype.val h

theorem offset_autoParse_rewrite (p : OffsetLimitPagination) (u : URL) (v1 v2 : GoString)
    (i1 i2 : GoInt) (hp : p.parsed = false) (hk : p.OffsetKey ≠ p.LimitKey)
    (h1 : Atoi v1 = some i1) (h2 : Atoi v2 = some i2)
    (hw : paramCount ((u.Query.Set p.OffsetKey v1).Set p.LimitKey v2).Encode ≤ 10000) :
    (p.autoParse { u with RawQuery :=
      ((u.Query.Set p.OffsetKey v1).Set p.LimitKey v2).Encode }).1.Offset = i1 := by
  rw [offset_autoParse_of_unparsed p _ hp]
  exact (reparse_offset p u p.Offset p.Limit p.parsed v1 v2 i1 i2 hk h1 h2 hw).1

theorem targetOffset_over (p : OffsetLimitPagination) (L : PagingLink)
    (h : 10000 < paramCount L.URL.RawQuery) : p.targetOffset L = 0 := by
  unfold targetOffset
  rw [ParseURL_Offset, parseQuery_of_over _ h]
  rfl

theorem offset_autoParse_val (p : OffsetLimitPagination) (u : URL) (hp : p.parsed = false) :
    (p.autoParse u).1.Offset.val = specInt u.Query p.OffsetKey 0 := by
  rw [offset_autoParse_of_unparsed p u hp, ParseURL_Offset]
  exact vsGetInt_val u.Query p.OffsetKey (GoInt.lit 0)

end OffsetLimitPagination

/-- C29 fails for the offset/limit strategy when both keys have the same name: at offset
50 with page size 50 the prev link carries `k=50` alone, so it points to offset 50,
which is not smaller than the current offset. -/
theorem prev_same_key_counterexample :
    0 < sameKeyAtPageSize.PageSize.val ∧
    (sameKeyAtPageSize.current (exampleURL [])).val = 50 ∧
    (sameKeyAtPageSize.PrevPagingLink (exampleURL [])).2.1.map (fun L => L.URL.RawQuery)
      = some (str "k=50") ∧
    (sameKeyAtPageSize.PrevPagingLink (exampleURL [])).2.1.map sameKeyAtPageSize.targetOffset
      = some 50 ∧
    ¬ ∀ L ∈ (sameKeyAtPageSize.PrevPagingLink (exampleURL [])).2.1,
      0 ≤ sameKeyAtPageSize.targetOffset L ∧
      sameKeyAtPageSize.targetOffset L < (sameKeyAtPageSize.current (exampleURL [])).val := by
  refine ⟨by decide, by decide, by decide, by decide, ?_⟩
  decide

/-- C29, amended: a prev link of the page-number strategy points to a page `>= 1`; a prev
link of an offset/limit strategy with distinct keys and a page size `> 0` points to an
offset `>= 0` that is smaller than the offset in effect. -/
theorem prev_not_before_start (p : PageNumberPagination) (q : OffsetLimitPagination) (u : URL)
    (hk : q.OffsetKey ≠ q.LimitKey) (hs : 0 < q.PageSize.val) :
    (∀ L ∈ (p.PrevPagingLink u).2.1, 1 ≤ p.targetPage L) ∧
    (∀ L ∈ (q.PrevPagingLink u).2.1,
      0 ≤ q.targetOffset L ∧ q.targetOffset L < (q.current u).val) := by
  constructor
  · intro L hL
    rw [PageNumberPagination.PrevPagingLink_eq] at hL
    by_cases hlt : (p.autoParse u).1.PageNumber.val < 2
    · rw [if_pos hlt] at hL
      exact absurd hL (by simp)
    · rw [if_neg hlt] at hL
      have hL2 := Option.some.inj (Option.mem_def.1 hL)
      by_cases hc : paramCount L.URL.RawQuery ≤ 10000
      · rw [← hL2] at hc
        rw [← hL2, PageNumberPagination.targetPage_rewrite p u _ _ _ (Atoi_Itoa _) hc]
        have hr := (p.autoParse u).1.PageNumber.property
        unfold minInt maxInt at hr
        have hw : wrapInt ((p.autoParse u).1.PageNumber.val - 1)
            = (p.autoParse u).1.PageNumber.val - 1 :=
          wrapInt_of_range _ (by unfold minInt; omega) (by unfold maxInt; omega)
        simp only [GoInt.sub, GoInt.wrap, GoInt.lit, Nat.cast_one, hw]
        omega
      · rw [PageNumberPagination.targetPage_over p L (Nat.not_le.1 hc)]
  · intro L hL
    rw [OffsetLimitPagination.offset_current_eq]
    rw [OffsetLimitPagination.offset_PrevPagingLink_eq] at hL
    by_cases hlt : (q.autoParse u).1.Offset.val < q.PageSize.val
    · rw [if_pos hlt] at hL
      exact absurd hL (by simp)
    · rw [if_neg hlt] at hL
      have hL2 := Option.some.inj (Option.mem_def.1 hL)
      by_cases hc : paramCount L.URL.RawQuery ≤ 10000
      · rw [← hL2] at hc
        rw [← hL2, OffsetLimitPagination.targetOffset_rewrite q u _ _ _ _ _ hk (Atoi_Itoa _)
          (Atoi_Itoa _) hc]
        have hr := (q.autoParse u).1.Offset.property
        have hr2 := q.PageSize.property
        unfold minInt maxInt at hr hr2
        have hw : wrapInt ((q.autoParse u).1.Offset.val - q.PageSize.val)
            = (q.autoParse u).1.Offset.val - q.PageSize.val :=
          wrapInt_of_range _ (by unfold minInt; omega) (by unfold maxInt; omega)
        simp only [GoInt.sub, GoInt.wrap, hw]
        omega
      · rw [OffsetLimitPagination.targetOffset_over q L (Nat.not_le.1 hc)]
        omega

/-- Instance of the amended C29 on the states at page 3 and at offset 100. -/
theorem prev_not_before_start_witness :
    offsetExample.OffsetKey ≠ offsetExample.LimitKey ∧ 0 < offsetExample.PageSize.val ∧
    (∀ L ∈ ((pageState (GoInt.lit 3) true).PrevPagingLink exampleBoth).2.1,
      1 ≤ (pageState (GoInt.lit 3) true).targetPage L) ∧
    (∀ L ∈ (offsetExample.PrevPagingLink exampleBoth).2.1,
      0 ≤ offsetExample.targetOffset L ∧
      offsetExample.targetOffset L < (offsetExample.current exampleBoth).val) :=
  ⟨by decide, by decide,
    prev_not_before_start (pageState (GoInt.lit 3) true) offsetExample exampleBoth
      (by decide) (by decide)⟩

/-! ## Next after prev and prev after next -/

namespace PageNumberPagination

theorem within_rewrite (p : PageNumberPagination) (u : URL) (v : GoString)
    (hw : ∀ w, paramCount (u.Query.Set p.PageNumberKey w).Encode ≤ 10000) :
    ∀ w, paramCount ((URL.Query { u with RawQuery :=
      (u.Query.Set p.PageNumberKey v).Encode }).Set p.PageNumberKey w).Encode ≤ 10000 := by
  intro w
  unfold URL.Query at hw ⊢
  dsimp only
  rw [Encode_set_reparse u.RawQuery p.PageNumberKey v w (hw v)]
  exact hw w

theorem next_target (p : PageNumberPagination) (u : URL) (hp : p.parsed = false)
    (hw : ∀ w, paramCount (u.Query.Set p.PageNumberKey w).Encode ≤ 10000) :
    ∃ L, (p.NextPagingLink u).2.1 = some L ∧
      (p.autoParse L.URL).1.PageNumber = (p.autoParse u).1.PageNumber.add (GoInt.lit 1) ∧
      p.targetPage L = ((p.autoParse u).1.PageNumber.add (GoInt.lit 1)).val ∧
      ∀ w, paramCount (L.URL.Query.Set p.PageNumberKey w).Encode ≤ 10000 := by
  refine ⟨_, by rw [NextPagingLink_eq], ?_, ?_, ?_⟩
  · exact autoParse_rewrite p u _ _ hp (Atoi_Itoa _) (hw _)
  · exact targetPage_rewrite p u _ _ _ (Atoi_Itoa _) (hw _)
  · exact within_rewrite p u _ hw

theorem prev_target (p : PageNumberPagination) (u : URL) (hp : p.parsed = false)
    (hw : ∀ w, paramCount (u.Query.Set p.PageNumberKey w).Encode ≤ 10000)
    (h : 2 ≤ (p.autoParse u).1.PageNumber.val) :
    ∃ L, (p.PrevPagingLink u).2.1 = some L ∧
      (p.autoParse L.URL).1.PageNumber = (p.autoParse u).1.PageNumber.sub (GoInt.lit 1) ∧
      p.targetPage L = ((p.autoParse u).1.PageNumber.sub (GoInt.lit 1)).val ∧
      ∀ w, paramCount (L.URL.Query.Set p.PageNumberKey w).Encode ≤ 10000 := by
  refine ⟨_, by rw [PrevPagingLink_eq, if_neg (not_lt.2 h)], ?_, ?_, ?_⟩
  · exact autoParse_rewrite p u _ _ hp (Atoi_Itoa _) (hw _)
  · exact targetPage_rewrite p u _ _ _ (Atoi_Itoa _) (hw _)
  · exact within_rewrite p u _ hw

theorem prev_of_next (p : PageNumberPagination) (u : URL) (hp : p.parsed = false)
    (hu : paramCount u.RawQuery + 1 ≤ 10000)
    (h1 : 1 ≤ specInt u.Query p.PageNumberKey 1) (h2 : specInt u.Query p.PageNumberKey 1 < maxInt) :
    ((p.NextPagingLink u).2.1.bind fun L => (p.PrevPagingLink L.URL).2.1).map p.targetPage
      = some (specInt u.Query p.PageNumberKey 1) := by
  have hv := autoParse_val p u hp
  rw [← hv] at h1 h2
  rw [← hv]
  have hw := GoInt.add_one_val _ h2
  have hc : ∀ w, paramCount (u.Query.Set p.PageNumberKey w).Encode ≤ 10000 :=
    fun w => Nat.le_trans (paramCount_set_le u.RawQuery _ w) hu
  obtain ⟨L1, hL1, ha1, -, hc1⟩ := next_target p u hp hc
  obtain ⟨L2, hL2, -, ht2, -⟩ := prev_target p L1.URL hp hc1 (by rw [ha1, hw]; omega)
  rw [hL1, Option.some_bind, hL2, Option.map_some', ht2, ha1,
    GoInt.sub_one_val _ (by rw [hw]; unfold minInt; omega), hw]
  congr 1
  omega

theorem next_of_prev (p : PageNumberPagination) (u : URL) (hp : p.parsed = false)
    (hu : paramCount u.RawQuery + 1 ≤ 10000)
    (h1 : 2 ≤ specInt u.Query p.PageNumberKey 1) :
    ((p.PrevPagingLink u).2.1.bind fun L => (p.NextPagingLink L.URL).2.1).map p.targetPage
      = some (specInt u.Query p.PageNumberKey 1) := by
  have hv := autoParse_val p u hp
  rw [← hv] at h1
  rw [← hv]
  have hr := (p.autoParse u).1.PageNumber.property
  unfold minInt maxInt at hr
  have hw := GoInt.sub_one_val (p.autoParse u).1.PageNumber (by unfold minInt; omega)
  have hc : ∀ w, paramCount (u.Query.Set p.PageNumberKey w).Encode ≤ 10000 :=
    fun w => Nat.le_trans (paramCount_set_le u.RawQuery _ w) hu
  obtain ⟨L1, hL1, ha1, -, hc1⟩ := prev_target p u hp hc h1
  obtain ⟨L2, hL2, -, ht2, -⟩ := next_target p L1.URL hp hc1
  rw [hL1, Option.some_bind, hL2, Option.map_some', ht2, ha1,
    GoInt.add_one_val _ (by rw [hw]; unfold maxInt; omega), hw]
  congr 1
  omega

end PageNumberPagination

namespace OffsetLimitPagination

theorem offset_within_rewrite (q : OffsetLimitPagination) (u : URL) (v1 v2 : GoString)
    (hw : ∀ w1 w2,
      paramCount ((u.Query.Set q.OffsetKey w1).Set q.LimitKey w2).Encode ≤ 10000) :
    ∀ w1 w2, paramCount (((URL.Query { u with RawQuery :=
      ((u.Query.Set q.OffsetKey v1).Set q.LimitKey v2).Encode }).Set q.OffsetKey w1).Set
        q.LimitKey w2).Encode ≤ 10000 := by
  intro w1 w2
  unfold URL.Query at hw ⊢
  dsimp only
  rw [Encode_set_set_reparse u.RawQuery q.OffsetKey v1 q.LimitKey v2 w1 w2 (hw v1 v2)]
  exact hw w1 w2

theorem offset_next_target (q : OffsetLimitPagination) (u : URL) (hq : q.parsed = false)
    (hk : q.OffsetKey ≠ q.LimitKey)
    (hw : ∀ w1 w2,
      paramCount ((u.Query.Set q.OffsetKey w1).Set q.LimitKey w2).Encode ≤ 10000) :
    ∃ L, (q.NextPagingLink u).2.1 = some L ∧
      (q.autoParse L.URL).1.Offset = (q.autoParse u).1.Offset.add q.PageSize ∧
      q.targetOffset L = ((q.autoParse u).1.Offset.add q.PageSize).val ∧
      ∀ w1 w2,
        paramCount ((L.URL.Query.Set q.OffsetKey w1).Set q.LimitKey w2).Encode ≤ 10000 := by
  refine ⟨_, by rw [offset_NextPagingLink_eq], ?_, ?_, ?_⟩
  · exact offset_autoParse_rewrite q u _ _ _ _ hq hk (Atoi_Itoa _) (Atoi_Itoa _) (hw _ _)
  · exact targetOffset_rewrite q u _ _ _ _ _ hk (Atoi_Itoa _) (Atoi_Itoa _) (hw _ _)
  · exact offset_within_rewrite q u _ _ hw

theorem offset_prev_target (q : OffsetLimitPagination) (u : URL) (hq : q.parsed = false)
    (hk : q.OffsetKey ≠ q.LimitKey)
    (hw : ∀ w1 w2,
      paramCount ((u.Query.Set q.OffsetKey w1).Set q.LimitKey w2).Encode ≤ 10000)
    (h : q.PageSize.val ≤ (q.autoParse u).1.Offset.val) :
    ∃ L, (q.PrevPagingLink u).2.1 = some L ∧
      (q.autoParse L.URL).1.Offset = (q.autoParse u).1.Offset.sub q.PageSize ∧
      q.targetOffset L = ((q.autoParse u).1.Offset.sub q.PageSize).val ∧
      ∀ w1 w2,
        paramCount ((L.URL.Query.Set q.OffsetKey w1).Set q.LimitKey w2).Encode ≤ 10000 := by
  refine ⟨_, by rw [offset_PrevPagingLink_eq, if_neg (not_lt.2 h)], ?_, ?_, ?_⟩
  · exact offset_autoParse_rewrite q u _ _ _ _ hq hk (Atoi_Itoa _) (Atoi_Itoa _) (hw _ _)
  · exact targetOffset_rewrite q u _ _ _ _ _ hk (Atoi_Itoa _) (Atoi_Itoa _) (hw _ _)
  · exact offset_within_rewrite q u _ _ hw

theorem offset_prev_of_next (q : OffsetLimitPagination) (u : URL) (hq : q.parsed = false)
    (hk : q.OffsetKey ≠ q.LimitKey) (hs : 0 < q.PageSize.val)
    (hu : paramCount u.RawQuery + 2 ≤ 10000)
    (h1 : 0 ≤ specInt u.Query q.OffsetKey 0)
    (h2 : specInt u.Query q.OffsetKey 0 + q.PageSize.val ≤ maxInt) :
    ((q.NextPagingLink u).2.1.bind fun L => (q.PrevPagingLink L.URL).2.1).map q.targetOffset
      = some (specInt u.Query q.OffsetKey 0) := by
  have hv := offset_autoParse_val q u hq
  rw [← hv] at h1 h2
  rw [← hv]
  have hw := GoInt.add_val_of_range (q.autoParse u).1.Offset q.PageSize
    (by unfold minInt; omega) h2
  unfold maxInt at h2
  have hc : ∀ w1 w2,
      paramCount ((u.Query.Set q.OffsetKey w1).Set q.LimitKey w2).Encode ≤ 10000 :=
    fun w1 w2 => Nat.le_trans (paramCount_set_set_le u.RawQuery _ w1 _ w2) hu
  obtain ⟨L1, hL1, ha1, -, hc1⟩ := offset_next_target q u hq hk hc
  obtain ⟨L2, hL2, -, ht2, -⟩ :=
    offset_prev_target q L1.URL hq hk hc1 (by rw [ha1, hw]; omega)
  rw [hL1, Option.some_bind, hL2, Option.map_some', ht2, ha1,
    GoInt.sub_val_of_range _ _ (by rw [hw]; unfold minInt; omega)
      (by rw [hw]; unfold maxInt; omega), hw]
  congr 1
  omega

theorem offset_next_of_prev (q : OffsetLimitPagination) (u : URL) (hq : q.parsed = false)
    (hk : q.OffsetKey ≠ q.LimitKey) (hs : 0 < q.PageSize.val)
    (hu : paramCount u.RawQuery + 2 ≤ 10000)
    (h1 : q.PageSize.val ≤ specInt u.Query q.OffsetKey 0) :
    ((q.PrevPagingLink u).2.1.bind fun L => (q.NextPagingLink L.URL).2.1).map q.targetOffset
      = some (specInt u.Query q.OffsetKey 0) := by
  have hv := offset_autoParse_val q u hq
  rw [← hv] at h1
  rw [← hv]
  have hr := (q.autoParse u).1.Offset.property
  unfold minInt maxInt at hr
  have hw := GoInt.sub_val_of_range (q.autoParse u).1.Offset q.PageSize
    (by unfold minInt; omega) (by unfold maxInt; omega)
  have hc : ∀ w1 w2,
      paramCount ((u.Query.Set q.OffsetKey w1).Set q.LimitKey w2).Encode ≤ 10000 :=
    fun w1 w2 => Nat.le_trans (paramCount_set_set_le u.RawQuery _ w1 _ w2) hu
  obtain ⟨L1, hL1, ha1, -, hc1⟩ := offset_prev_target q u hq hk hc h1
  obtain ⟨L2, hL2, -, ht2, -⟩ := offset_next_target q L1.URL hq hk hc1
  rw [hL1, Option.some_bind, hL2, Option.map_some', ht2, ha1,
    GoInt.add_val_of_range _ _ (by rw [hw]; unfold minInt; omega)
      (by rw [hw]; unfold maxInt; omega), hw]
  congr 1
  omega

end OffsetLimitPagination

/-- C30 fails for the offset/limit strategy when both keys have the same name: on
`?k=100` the next link carries `k=50` alone, and the prev link computed on it by a fresh
strategy points to offset 50, not back to offset 100. -/
theorem next_prev_same_key_counterexample :
    sameKeyFresh.parsed = false ∧ 0 < sameKeyFresh.PageSize.val ∧
    specInt (exampleURL (str "k=100")).Query sameKeyFresh.OffsetKey 0 = 100 ∧
    ((sameKeyFresh.NextPagingLink (exampleURL (str "k=100"))).2.1.bind
        fun L => (sameKeyFresh.PrevPagingLink L.URL).2.1).map sameKeyFresh.targetOffset
      = some 50 ∧
    ((sameKeyFresh.NextPagingLink (exampleURL (str "k=100"))).2.1.bind
        fun L => (sameKeyFresh.PrevPagingLink L.URL).2.1).map sameKeyFresh.targetOffset
      ≠ some (specInt (exampleURL (str "k=100")).Query sameKeyFresh.OffsetKey 0) := by
  decide

/-- C30, amended: for an unparsed page-number strategy and a URL whose raw query has at
most 9999 parameters, counted as `net/url` counts them, and whose page parameter denotes
`n` (1 when it is missing or malformed), the prev link computed by the unparsed strategy
on the URL of the next link points to page `n` when `1 <= n < 2^63 - 1`, and the next
link computed on the URL of the prev link points to page `n` when `n >= 2`. For an
unparsed offset/limit strategy with distinct keys and page size `s > 0`, and a URL whose
raw query has at most 9998 parameters and whose offset parameter denotes `o`, prev of
next points to offset `o` when `o >= 0` and `o + s` fits in `int`, and next of prev
points to offset `o` when `o >= s`. -/
theorem next_prev_inverse (p : PageNumberPagination) (q : OffsetLimitPagination) (u : URL)
    (hp : p.parsed = false) (hq : q.parsed = false) (hk : q.OffsetKey ≠ q.LimitKey)
    (hs : 0 < q.PageSize.val) :
    (paramCount u.RawQuery + 1 ≤ 10000 →
      1 ≤ specInt u.Query p.PageNumberKey 1 → specInt u.Query p.PageNumberKey 1 < maxInt →
      ((p.NextPagingLink u).2.1.bind fun L => (p.PrevPagingLink L.URL).2.1).map p.targetPage
        = some (specInt u.Query p.PageNumberKey 1)) ∧
    (paramCount u.RawQuery + 1 ≤ 10000 → 2 ≤ specInt u.Query p.PageNumberKey 1 →
      ((p.PrevPagingLink u).2.1.bind fun L => (p.NextPagingLink L.URL).2.1).map p.targetPage
        = some (specInt u.Query p.PageNumberKey 1)) ∧
    (paramCount u.RawQuery + 2 ≤ 10000 → 0 ≤ specInt u.Query q.OffsetKey 0 →
      specInt u.Query q.OffsetKey 0 + q.PageSize.val ≤ maxInt →
      ((q.NextPagingLink u).2.1.bind fun L => (q.PrevPagingLink L.URL).2.1).map q.targetOffset
        = some (specInt u.Query q.OffsetKey 0)) ∧
    (paramCount u.RawQuery + 2 ≤ 10000 → q.PageSize.val ≤ specInt u.Query q.OffsetKey 0 →
      ((q.PrevPagingLink u).2.1.bind fun L => (q.NextPagingLink L.URL).2.1).map q.targetOffset
        = some (specInt u.Query q.OffsetKey 0)) :=
  ⟨PageNumberPagination.prev_of_next p u hp, PageNumberPagination.next_of_prev p u hp,
    OffsetLimitPagination.offset_prev_of_next q u hq hk hs,
    OffsetLimitPagination.offset_next_of_prev q u hq hk hs⟩

/-- Instance of the amended C30 on the freshly constructed strategies and
`?page=3&offset=100&limit=20`, a query of three parameters that denotes page 3 and
offset 100. -/
theorem next_prev_inverse_witness :
    NewPageNumberPagination.parsed = false ∧ NewOffsetLimitPagination.parsed = false ∧
    NewOffsetLimitPagination.OffsetKey ≠ NewOffsetLimitPagination.LimitKey ∧
    0 < NewOffsetLimitPagination.PageSize.val ∧
    paramCount exampleBoth.RawQuery = 3 ∧
    ((NewPageNumberPagination.NextPagingLink exampleBoth).2.1.bind
        fun L => (NewPageNumberPagination.PrevPagingLink L.URL).2.1).map
        NewPageNumberPagination.targetPage
      = some (specInt exampleBoth.Query NewPageNumberPagination.PageNumberKey 1) ∧
    ((NewPageNumberPagination.PrevPagingLink exampleBoth).2.1.bind
        fun L => (NewPageNumberPagination.NextPagingLink L.URL).2.1).map
        NewPageNumberPagination.targetPage
      = some (specInt exampleBoth.Query NewPageNumberPagination.PageNumberKey 1) ∧
    ((NewOffsetLimitPagination.NextPagingLink exampleBoth).2.1.bind
        fun L => (NewOffsetLimitPagination.PrevPagingLink L.URL).2.1).map
        NewOffsetLimitPagination.targetOffset
      = some (specInt exampleBoth.Query NewOffsetLimitPagination.OffsetKey 0) ∧
    ((NewOffsetLimitPagination.PrevPagingLink exampleBoth).2.1.bind
        fun L => (NewOffsetLimitPagination.NextPagingLink L.URL).2.1).map
        NewOffsetLimitPagination.targetOffset
      = some (specInt exampleBoth.Query NewOffsetLimitPagination.OffsetKey 0) :=
  ⟨rfl, rfl, by decide, by decide, by decide,
    (next_prev_inverse NewPageNumberPagination NewOffsetLimitPagination exampleBoth rfl rfl
      (by decide) (by decide)).1 (by decide) (by decide) (by decide),
    (next_prev_inverse NewPageNumberPagination NewOffsetLimitPagination exampleBoth rfl rfl
      (by decide) (by decide)).2.1 (by decide) (by decide),
    (next_prev_inverse NewPageNumberPagination NewOffsetLimitPagination exampleBoth rfl rfl
      (by decide) (by decide)).2.2.1 (by decide) (by decide) (by decide),
    (next_prev_inverse NewPageNumberPagination NewOffsetLimitPagination exampleBoth rfl rfl
      (by decide) (by decide)).2.2.2 (by decide) (by decide)⟩

/-- The round trips of C30 on `?page=3&offset=100&limit=20`, evaluated: the page
parameter denotes 3 and both composites point to page 3; the offset parameter denotes
100 and both composites point to offset 100. -/
theorem next_prev_inverse_examples :
    specInt exampleBoth.Query NewPageNumberPagination.PageNumberKey 1 = 3 ∧
    ((NewPageNumberPagination.NextPagingLink exampleBoth).2.1.bind
        fun L => (NewPageNumberPagination.PrevPagingLink L.URL).2.1).map
        NewPageNumberPagination.targetPage = some 3 ∧
    ((NewPageNumberPagination.PrevPagingLink exampleBoth).2.1.bind
        fun L => (NewPageNumberPagination.NextPagingLink L.URL).2.1).map
        NewPageNumberPagination.targetPage = some 3 ∧
    specInt exampleBoth.Query NewOffsetLimitPagination.OffsetKey 0 = 100 ∧
    ((NewOffsetLimitPagination.NextPagingLink exampleBoth).2.1.bind
        fun L => (NewOffsetLimitPagination.PrevPagingLink L.URL).2.1).map
        NewOffsetLimitPagination.targetOffset = some 100 ∧
    ((NewOffsetLimitPagination.PrevPagingLink exampleBoth).2.1.bind
        fun L => (NewOffsetLimitPagination.NextPagingLink L.URL).2.1).map
        NewOffsetLimitPagination.targetOffset = some 100 := by
  decide

/-! ## Round trips beyond the parameter limit -/

theorem valuesOf_replicate_ne (n : Nat) (k k2 v : GoString) (hk : k ≠ k2) :
    valuesOf k (List.replicate n (k2, v)) = [] := by
  induction n with
  | zero => rfl
  | succ m ih =>
    rw [List.replicate_succ]
    unfold valuesOf at ih ⊢
    rw [List.filter_cons_of_neg (by simpa using Ne.symm hk)]
    exact ih

/-- The decoded query of `n` times `a=1` holds nothing under a key other than `a`. -/
theorem lookup_repeatedQuery_other (n : Nat) (hn : 0 < n) (hle : n ≤ 10000) (k : GoString)
    (hk : k ≠ str "a") : (parseQuery (repeatedQuery n)).lookup k = none := by
  have hc : paramCount (repeatedQuery n) ≤ 10000 := by
    rw [paramCount_repeatedQuery n hn]
    exact hle
  have hr : List.replicate n (str "a=1")
      = (List.replicate n (str "a", str "1")).map
          (fun kv => QueryEscape kv.1 ++ [ch '='] ++ QueryEscape kv.2) := by
    rw [List.map_replicate]
    congr 1
  rw [parseQuery_of_within _ hc]
  unfold repeatedQuery
  rw [splitOn_intercalate _ _ (by
    intro hc
    have := congrArg List.length hc
    rw [List.length_replicate] at this
    exact absurd this (Nat.ne_of_gt hn)) (by
    intro p hp
    rw [List.eq_of_mem_replicate hp]
    decide), hr, foldl_parseQueryStep_encoded, lookup_foldl_Add,
    valuesOf_replicate_ne n k (str "a") (str "1") hk, if_pos rfl]
  rfl

theorem vsGetInt_of_lookup_none (m : Values) (k : GoString) (d : GoInt)
    (h : m.lookup k = none) : vsGetInt m k d = d := by
  unfold vsGetInt Values.Get
  rw [h]
  rfl

theorem specInt_of_lookup_none (m : Values) (k : GoString) (d : Int)
    (h : m.lookup k = none) : specInt m k d = d := by
  unfold specInt
  rw [h]

/-- Beyond the parameter limit a next link does not lead back: when the links of `u` have
more than 10000 parameters, an unparsed strategy reads page 1 from the next link and
returns no prev link for it. -/
theorem PageNumberPagination.next_over (p : PageNumberPagination) (u : URL)
    (hp : p.parsed = false)
    (h : ∀ v, 10000 < paramCount (u.Query.Set p.PageNumberKey v).Encode) :
    ∃ L, (p.NextPagingLink u).2.1 = some L ∧ 10000 < paramCount L.URL.RawQuery ∧
      (p.ParseURL L.URL).1.PageNumber.val = 1 ∧ (p.PrevPagingLink L.URL).2.1 = none := by
  have hq : ∀ v, (p.ParseURL { u with RawQuery :=
      (u.Query.Set p.PageNumberKey v).Encode }).1.PageNumber = GoInt.lit 1 := by
    intro v
    rw [PageNumberPagination.ParseURL_PageNumber]
    dsimp only
    rw [parseQuery_of_over _ (h v)]
    rfl
  refine ⟨{ Rel := str "next", URL := { u with RawQuery := (u.Query.Set p.PageNumberKey
      (Itoa ((p.autoParse u).1.PageNumber.add (GoInt.lit 1)))).Encode } },
    by rw [PageNumberPagination.NextPagingLink_eq], ?_, ?_, ?_⟩
  · dsimp only
    exact h _
  · dsimp only
    rw [hq]
    rfl
  · dsimp only
    rw [PageNumberPagination.PrevPagingLink_eq,
      PageNumberPagination.autoParse_of_unparsed p _ hp, hq, if_pos (by decide)]

/-- The round trips of C18 and C30 fail beyond the parameter limit of `net/url`: the
query of `manyParams` holds `a=1` 10000 times and no page, so the page in effect is 1
and the next link is written for page 2; the link has more than 10000 parameters, so a
strategy reads page 1 from it, not 2, and returns no prev link for it, where page 1
would be the way back. -/
theorem round_trip_over_limit_examples :
    paramCount manyParams.RawQuery = 10000 ∧
    specInt manyParams.Query NewPageNumberPagination.PageNumberKey 1 = 1 ∧
    (∃ L, (NewPageNumberPagination.NextPagingLink manyParams).2.1 = some L ∧
      10000 < paramCount L.URL.RawQuery ∧
      (NewPageNumberPagination.ParseURL L.URL).1.PageNumber.val = 1 ∧
      (NewPageNumberPagination.PrevPagingLink L.URL).2.1 = none) ∧
    ((NewPageNumberPagination.NextPagingLink manyParams).2.1.bind
        fun L => (NewPageNumberPagination.PrevPagingLink L.URL).2.1).map
        NewPageNumberPagination.targetPage = none := by
  have hl : manyParams.Query.lookup NewPageNumberPagination.PageNumberKey = none :=
    lookup_repeatedQuery_other 10000 (by omega) (Nat.le_refl _) _ (by decide)
  have hn := PageNumberPagination.next_over NewPageNumberPagination manyParams rfl
    (fun v => (manyParams_set_over NewPageNumberPagination.PageNumberKey v (by decide)).1)
  refine ⟨paramCount_repeatedQuery 10000 (by omega), specInt_of_lookup_none _ _ _ hl, hn, ?_⟩
  obtain ⟨L, h1, -, -, h4⟩ := hn
  rw [h1, Option.some_bind, h4]
  rfl

/-! ## The canonical encoding of a rewritten query -/

theorem Values.sortedKeys_sorted (m : Values) :
    m.sortedKeys.Pairwise (fun a b => strLe a b = true) := by
  haveI : IsTotal GoString (fun a b => strLe a b = true) := ⟨strLe_total⟩
  haveI : IsTrans GoString (fun a b => strLe a b = true) := ⟨strLe_trans⟩
  exact List.sorted_insertionSort _ _

theorem strLe_refl (a : GoString) : strLe a a = true := by
  rcases strLe_total a a with h | h <;> exact h

theorem mem_keys_flatMap (f : GoString → List GoString) (ks : List GoString) (y : GoString)
    (h : y ∈ (ks.flatMap fun k => (f k).map fun v => (k, v)).map Prod.fst) : y ∈ ks := by
  rw [List.mem_map] at h
  obtain ⟨kv, hkv, rfl⟩ := h
  rw [List.mem_flatMap] at hkv
  obtain ⟨k, hk, hkv⟩ := hkv
  rw [List.mem_map] at hkv
  obtain ⟨v, -, rfl⟩ := hkv
  exact hk

theorem pairwise_keys_flatMap (f : GoString → List GoString) (ks : List GoString)
    (h : ks.Pairwise (fun a b => strLe a b = true)) :
    ((ks.flatMap fun k => (f k).map fun v => (k, v)).map Prod.fst).Pairwise
      (fun a b => strLe a b = true) := by
  induction ks with
  | nil => simp
  | cons a rest ih =>
    rw [List.pairwise_cons] at h
    have hfst : ∀ x ∈ ((f a).map fun v => (a, v)).map Prod.fst, x = a := by
      intro x hx
      rw [List.map_map, List.mem_map] at hx
      obtain ⟨v, -, rfl⟩ := hx
      rfl
    rw [List.flatMap_cons, List.map_append, List.pairwise_append]
    refine ⟨List.pairwise_of_forall_mem_list ?_, ih h.2, ?_⟩
    · intro x hx y hy
      rw [hfst x hx, hfst y hy]
      exact strLe_refl a
    · intro x hx y hy
      rw [hfst x hx]
      exact h.1 y (mem_keys_flatMap f rest y hy)

/-- The encoding written by `Encode` is the canonical encoding of the map. -/
theorem Values.isCanonicalEncoding_Encode (m : Values) (hnd : m.keys.Nodup) :
    IsCanonicalEncoding m.Encode m :=
  ⟨m.pairs, pairwise_keys_flatMap _ _ (Values.sortedKeys_sorted m),
    fun k => Values.valuesOf_pairs m k hnd, Values.Encode_eq_pairs m⟩

theorem mem_appendLink (links : PagingLinks) (o : Option PagingLink) (L : PagingLink) :
    L ∈ appendLink links o ↔ L ∈ links ∨ o = some L := by
  cases o with
  | none => simp [appendLink]
  | some t =>
    simp only [appendLink, List.mem_append, List.mem_singleton, Option.some.injEq]
    exact ⟨fun h => h.imp id Eq.symm, fun h => h.imp id Eq.symm⟩

/-- Every link a method of the page-number strategy returns on `u` has the URL `u` with
the raw query replaced by the encoding of the decoded query of `u` after the page key
was set to a decimal numeral. -/
theorem PageNumberPagination.returnedLinks_form (p : PageNumberPagination) (c : Call)
    (u : URL) (L : PagingLink) (h : L ∈ p.returnedLinks c u) :
    ∃ n : GoInt, L.URL
      = { u with RawQuery := (u.Query.Set p.PageNumberKey (Itoa n)).Encode } := by
  have h1 : ∀ L, (p.FirstPagingLink u).2.1 = some L → ∃ n : GoInt, L.URL
      = { u with RawQuery := (u.Query.Set p.PageNumberKey (Itoa n)).Encode } := by
    intro L hL
    rw [PageNumberPagination.FirstPagingLink_eq] at hL
    have hL2 := Option.some.inj hL
    exact ⟨GoInt.lit 1, by rw [← hL2]; rfl⟩
  have h2 : ∀ L, (p.PrevPagingLink u).2.1 = some L → ∃ n : GoInt, L.URL
      = { u with RawQuery := (u.Query.Set p.PageNumberKey (Itoa n)).Encode } := by
    intro L hL
    rw [PageNumberPagination.PrevPagingLink_eq] at hL
    split at hL
    · exact absurd hL (by simp)
    · have hL2 := Option.some.inj hL
      exact ⟨_, by rw [← hL2]⟩
  have h3 : ∀ L, (p.NextPagingLink u).2.1 = some L → ∃ n : GoInt, L.URL
      = { u with RawQuery := (u.Query.Set p.PageNumberKey (Itoa n)).Encode } := by
    intro L hL
    rw [PageNumberPagination.NextPagingLink_eq] at hL
    have hL2 := Option.some.inj hL
    exact ⟨_, by rw [← hL2]⟩
  cases c with
  | parseURL => simp [PageNumberPagination.returnedLinks] at h
  | firstPagingLink => exact h1 L (Option.mem_toList.1 h)
  | prevPagingLink => exact h2 L (Option.mem_toList.1 h)
  | nextPagingLink => exact h3 L (Option.mem_toList.1 h)
  | lastPagingLink => simp [PageNumberPagination.returnedLinks, PageNumberPagination.LastPagingLink] at h
  | pagingLinks =>
    unfold PageNumberPagination.returnedLinks at h
    simp only [] at h
    rw [PageNumberPagination.PagingLinks_eq] at h
    simp only [mem_appendLink, List.not_mem_nil, false_or] at h
    rcases h with (h | h) | h
    · exact h1 L h
    · exact h2 L h
    · exact h3 L h

/-- Every link a method of the offset/limit strategy returns on `u` has the URL `u` with
the raw query replaced by the encoding of the decoded query of `u` after the offset key
was set to a decimal numeral and then the limit key to the page size. -/
theorem OffsetLimitPagination.offset_returnedLinks_form (q : OffsetLimitPagination) (c : Call)
    (u : URL) (L : PagingLink) (h : L ∈ q.returnedLinks c u) :
    ∃ n : GoInt, L.URL
      = { u with RawQuery := ((u.Query.Set q.OffsetKey (Itoa n)).Set q.LimitKey
            (Itoa q.PageSize)).Encode } := by
  have h1 : ∀ L, (q.FirstPagingLink u).2.1 = some L → ∃ n : GoInt, L.URL
      = { u with RawQuery := ((u.Query.Set q.OffsetKey (Itoa n)).Set q.LimitKey
            (Itoa q.PageSize)).Encode } := by
    intro L hL
    rw [OffsetLimitPagination.offset_FirstPagingLink_eq] at hL
    have hL2 := Option.some.inj hL
    exact ⟨GoInt.lit 0, by rw [← hL2]; rfl⟩
  have h2 : ∀ L, (q.PrevPagingLink u).2.1 = some L → ∃ n : GoInt, L.URL
      = { u with RawQuery := ((u.Query.Set q.OffsetKey (Itoa n)).Set q.LimitKey
            (Itoa q.PageSize)).Encode } := by
    intro L hL
    rw [OffsetLimitPagination.offset_PrevPagingLink_eq] at hL
    split at hL
    · exact absurd hL (by simp)
    · have hL2 := Option.some.inj hL
      exact ⟨_, by rw [← hL2]⟩
  have h3 : ∀ L, (q.NextPagingLink u).2.1 = some L → ∃ n : GoInt, L.URL
      = { u with RawQuery := ((u.Query.Set q.OffsetKey (Itoa n)).Set q.LimitKey
            (Itoa q.PageSize)).Encode } := by
    intro L hL
    rw [OffsetLimitPagination.offset_NextPagingLink_eq] at hL
    have hL2 := Option.some.inj hL
    exact ⟨_, by rw [← hL2]⟩
  cases c with
  | parseURL => simp [OffsetLimitPagination.returnedLinks] at h
  | firstPagingLink => exact h1 L (Option.mem_toList.1 h)
  | prevPagingLink => exact h2 L (Option.mem_toList.1 h)
  | nextPagingLink => exact h3 L (Option.mem_toList.1 h)
  | lastPagingLink => simp [OffsetLimitPagination.returnedLinks, OffsetLimitPagination.LastPagingLink] at h
  | pagingLinks =>
    unfold OffsetLimitPagination.returnedLinks at h
    simp only [] at h
    rw [OffsetLimitPagination.offset_PagingLinks_eq] at h
    simp only [mem_appendLink, List.not_mem_nil, false_or] at h
    rcases h with (h | h) | h
    · exact h1 L h
    · exact h2 L h
    · exact h3 L h

/-! ## Bare parameters -/

theorem cut_of_not_mem (sep : Byte) (s : GoString) (h : sep ∉ s) : cut sep s = (s, []) := by
  induction s with
  | nil => rfl
  | cons c rest ih =>
    rw [List.mem_cons, not_or] at h
    rw [cut, if_neg (Ne.symm h.1), ih h.2]

theorem Values.mem_lookup_Add (m : Values) (k v k2 v2 : GoString)
    (h : v2 ∈ (m.lookup k2).getD [] ∨ (k2 = k ∧ v2 = v)) :
    v2 ∈ ((m.Add k v).lookup k2).getD [] := by
  unfold Values.Add
  rw [Values.lookup_store]
  by_cases hk : k2 = k
  · rw [if_pos hk, Option.getD_some, List.mem_append, List.mem_singleton]
    rcases h with h | h
    · left; rw [← hk]; exact h
    · right; exact h.2
  · rw [if_neg hk]
    rcases h with h | h
    · exact h
    · exact absurd h.1 hk

theorem mem_lookup_parseQueryStep (m : Values) (seg k v : GoString)
    (h : v ∈ (m.lookup k).getD []) : v ∈ ((parseQueryStep m seg).lookup k).getD [] := by
  unfold parseQueryStep
  split
  · exact h
  · split
    · exact h
    · split
      · exact h
      · split
        · exact h
        · exact Values.mem_lookup_Add _ _ _ _ _ (Or.inl h)

theorem mem_lookup_foldl_parseQueryStep (segs : List GoString) (m : Values) (k v : GoString)
    (h : v ∈ (m.lookup k).getD []) :
    v ∈ ((segs.foldl parseQueryStep m).lookup k).getD [] := by
  induction segs generalizing m with
  | nil => exact h
  | cons s rest ih => exact ih _ (mem_lookup_parseQueryStep m s k v h)

theorem parseQueryStep_bare (m : Values) (seg k : GoString) (hne : seg ≠ [])
    (heq : ch '=' ∉ seg) (hsemi : ch ';' ∉ seg) (hk : QueryUnescape seg = some k) :
    [] ∈ ((parseQueryStep m seg).lookup k).getD [] := by
  have hu : QueryUnescape [] = some [] := by simp [QueryUnescape]
  unfold parseQueryStep
  rw [if_neg hsemi, if_neg hne, cut_of_not_mem _ _ heq]
  simp only [hk, hu]
  exact Values.mem_lookup_Add _ _ _ _ _ (Or.inr ⟨rfl, rfl⟩)

theorem foldl_parseQueryStep_bare (segs : List GoString) (m : Values) (seg k : GoString)
    (hmem : seg ∈ segs) (hne : seg ≠ []) (heq : ch '=' ∉ seg) (hsemi : ch ';' ∉ seg)
    (hk : QueryUnescape seg = some k) :
    [] ∈ ((segs.foldl parseQueryStep m).lookup k).getD [] := by
  induction segs generalizing m with
  | nil => exact absurd hmem (List.not_mem_nil _)
  | cons s rest ih =>
    rw [List.foldl_cons]
    rcases List.mem_cons.1 hmem with h | h
    · rw [← h]
      exact mem_lookup_foldl_parseQueryStep rest _ k []
        (parseQueryStep_bare m seg k hne heq hsemi hk)
    · exact ih _ h

/-- A bare parameter decodes to an empty value under its key. -/
theorem mem_lookup_of_bare (q k : GoString) (hw : paramCount q ≤ 10000)
    (h : IsBareParameter q k) : [] ∈ ((parseQuery q).lookup k).getD [] := by
  obtain ⟨seg, hmem, hne, heq, hsemi, hk⟩ := h
  rw [parseQuery_of_within q hw]
  exact foldl_parseQueryStep_bare _ [] seg k hmem hne heq hsemi hk

/-- Every value of a map with distinct keys is a piece `escaped-key=escaped-value` of
the encoding of the map. -/
theorem Values.mem_splitOn_Encode (m : Values) (k v : GoString) (hnd : m.keys.Nodup)
    (h : v ∈ (m.lookup k).getD []) :
    QueryEscape k ++ [ch '='] ++ QueryEscape v ∈ splitOn (ch '&') m.Encode := by
  have hp : (k, v) ∈ m.pairs := by
    rw [← Values.valuesOf_pairs m k hnd] at h
    unfold valuesOf at h
    rw [List.mem_map] at h
    obtain ⟨kv, hkv, rfl⟩ := h
    rw [List.mem_filter] at hkv
    have h2 : kv.1 = k := of_decide_eq_true hkv.2
    rw [← h2]
    exact hkv.1
  rw [Values.Encode_eq_pairs, splitOn_intercalate]
  · exact List.mem_map.2 ⟨(k, v), hp, rfl⟩
  · intro hnil
    rw [List.map_eq_nil_iff] at hnil
    rw [hnil] at hp
    exact absurd hp (List.not_mem_nil _)
  · intro piece hpiece
    rw [List.mem_map] at hpiece
    obtain ⟨kv, -, rfl⟩ := hpiece
    simp only [List.mem_append, List.mem_singleton, not_or]
    exact ⟨⟨not_mem_of_clean _ (by decide) kv.1, by decide⟩, not_mem_of_clean _ (by decide) kv.2⟩

theorem Values.bare_piece_of_set (m : Values) (k key v : GoString)
    (hk : k ≠ key) (h : [] ∈ (m.lookup k).getD []) :
    [] ∈ ((m.Set key v).lookup k).getD [] := by
  unfold Values.Set
  rw [Values.lookup_store, if_neg hk]
  exact h

theorem QueryEscape_nil : QueryEscape [] = [] := by
  simp [QueryEscape]

theorem PageNumberPagination.first_of_over_limit (p : PageNumberPagination) (u : URL)
    (h : 10000 < paramCount u.RawQuery) :
    (p.FirstPagingLink u).2.1 = some { Rel := str "first", URL := { u with RawQuery :=
      (Values.Set [] p.PageNumberKey (str "1")).Encode } } := by
  rw [PageNumberPagination.FirstPagingLink_eq]
  unfold URL.Query
  rw [parseQuery_of_over _ h]

/-- C23 fails beyond the parameter limit of `net/url`: the query of `bareOverLimit` is
the bare parameter `b` followed by 10000 times `&`, 10001 parameters as `net/url` counts
them, so its decoded query is empty, the first link carries `page=1` alone and the piece
`b=` is not in it. -/
theorem bare_over_limit_counterexample :
    paramCount bareOverLimit.RawQuery = 10001 ∧
    IsBareParameter bareOverLimit.RawQuery (str "b") ∧
    str "b" ≠ NewPageNumberPagination.PageNumberKey ∧
    (NewPageNumberPagination.FirstPagingLink bareOverLimit).2.1.map
        (fun L => L.URL.RawQuery) = some (str "page=1") ∧
    QueryEscape (str "b") ++ [ch '='] ∉ splitOn (ch '&') (str "page=1") := by
  have hc : 10000 < paramCount bareOverLimit.RawQuery := by
    show 10000 < paramCount (bareQuery 10000)
    rw [paramCount_bareQuery]
    omega
  refine ⟨paramCount_bareQuery 10000, isBareParameter_bareQuery 9999, by decide, ?_,
    by decide⟩
  rw [PageNumberPagination.first_of_over_limit NewPageNumberPagination bareOverLimit hc]
  decide

/-- C23, amended: for both strategies, every state, every URL `u` and every link `L`
returned by `FirstPagingLink`, `PrevPagingLink`, `NextPagingLink`, `LastPagingLink` or
`PagingLinks` on `u`, the raw query of `L.URL` is the canonical encoding of the decoded
query of `u` after the pagination keys were set (the page key to a decimal numeral; the
offset key to a decimal numeral and then the limit key to the page size): pairs in
ascending key order, each rendered as escaped key, `=`, escaped value, joined with `&`.
Hence, when the raw query of `u` has at most 10000 parameters, counted as `net/url`
counts them, a bare parameter of `u` whose key is not a pagination key shows in the raw
query of `L.URL` as the piece `key=`. -/
theorem rewritten_query_canonical (p : PageNumberPagination) (q : OffsetLimitPagination)
    (u : URL) (c : Call) (L : PagingLink) :
    (L ∈ p.returnedLinks c u →
      (∃ n : GoInt,
        IsCanonicalEncoding L.URL.RawQuery (u.Query.Set p.PageNumberKey (Itoa n))) ∧
      ∀ k, k ≠ p.PageNumberKey → paramCount u.RawQuery ≤ 10000 →
        IsBareParameter u.RawQuery k →
        QueryEscape k ++ [ch '='] ∈ splitOn (ch '&') L.URL.RawQuery) ∧
    (L ∈ q.returnedLinks c u →
      (∃ n : GoInt,
        IsCanonicalEncoding L.URL.RawQuery
          ((u.Query.Set q.OffsetKey (Itoa n)).Set q.LimitKey (Itoa q.PageSize))) ∧
      ∀ k, k ≠ q.OffsetKey → k ≠ q.LimitKey → paramCount u.RawQuery ≤ 10000 →
        IsBareParameter u.RawQuery k →
        QueryEscape k ++ [ch '='] ∈ splitOn (ch '&') L.URL.RawQuery) := by
  constructor
  · intro h
    obtain ⟨n, hn⟩ := PageNumberPagination.returnedLinks_form p c u L h
    have hnd : (u.Query.Set p.PageNumberKey (Itoa n)).keys.Nodup :=
      Values.nodup_keys_store _ _ _ (parseQuery_nodup _)
    rw [hn]
    refine ⟨⟨n, Values.isCanonicalEncoding_Encode _ hnd⟩, fun k hk hw hb => ?_⟩
    have h1 := Values.mem_splitOn_Encode _ k [] hnd
      (Values.bare_piece_of_set _ k _ (Itoa n) hk
        (mem_lookup_of_bare _ _ hw hb))
    rw [QueryEscape_nil, List.append_nil] at h1
    exact h1
  · intro h
    obtain ⟨n, hn⟩ := OffsetLimitPagination.offset_returnedLinks_form q c u L h
    have hnd1 : (u.Query.Set q.OffsetKey (Itoa n)).keys.Nodup :=
      Values.nodup_keys_store _ _ _ (parseQuery_nodup _)
    have hnd : ((u.Query.Set q.OffsetKey (Itoa n)).Set q.LimitKey (Itoa q.PageSize)).keys.Nodup :=
      Values.nodup_keys_store _ _ _ hnd1
    rw [hn]
    refine ⟨⟨n, Values.isCanonicalEncoding_Encode _ hnd⟩, fun k hk1 hk2 hw hb => ?_⟩
    have h1 := Values.mem_splitOn_Encode _ k [] hnd
      (Values.bare_piece_of_set _ k _ (Itoa q.PageSize) hk2
        (Values.bare_piece_of_set _ k _ (Itoa n) hk1
          (mem_lookup_of_bare _ _ hw hb)))
    rw [QueryEscape_nil, List.append_nil] at h1
    exact h1

/-- Instance of the amended C23 on the first links of the freshly constructed strategies
for the queries of the tests, each with the bare parameter `bar+baz%3Aqux`. -/
theorem rewritten_query_canonical_witness :
    (({ Rel := str "first", URL := exampleURL (str "bar+baz%3Aqux=&page=1") } : PagingLink)
        ∈ NewPageNumberPagination.returnedLinks Call.firstPagingLink
            (exampleURL (str "bar+baz%3Aqux&page=3")) ∧
      paramCount (str "bar+baz%3Aqux&page=3") = 2 ∧
      IsBareParameter (str "bar+baz%3Aqux&page=3") (str "bar baz:qux") ∧
      (∃ n : GoInt, IsCanonicalEncoding (str "bar+baz%3Aqux=&page=1")
        ((exampleURL (str "bar+baz%3Aqux&page=3")).Query.Set (str "page") (Itoa n))) ∧
      QueryEscape (str "bar baz:qux") ++ [ch '=']
        ∈ splitOn (ch '&') (str "bar+baz%3Aqux=&page=1")) ∧
    (({ Rel := str "first",
        URL := exampleURL (str "bar+baz%3Aqux=&limit=50&offset=0") } : PagingLink)
        ∈ NewOffsetLimitPagination.returnedLinks Call.pagingLinks
            (exampleURL (str "bar+baz%3Aqux&limit=50&offset=100")) ∧
      paramCount (str "bar+baz%3Aqux&limit=50&offset=100") = 3 ∧
      IsBareParameter (str "bar+baz%3Aqux&limit=50&offset=100") (str "bar baz:qux") ∧
      (∃ n : GoInt, IsCanonicalEncoding (str "bar+baz%3Aqux=&limit=50&offset=0")
        (((exampleURL (str "bar+baz%3Aqux&limit=50&offset=100")).Query.Set (str "offset")
          (Itoa n)).Set (str "limit") (Itoa (GoInt.lit 50)))) ∧
      QueryEscape (str "bar baz:qux") ++ [ch '=']
        ∈ splitOn (ch '&') (str "bar+baz%3Aqux=&limit=50&offset=0")) := by
  have hb1 : IsBareParameter (str "bar+baz%3Aqux&page=3") (str "bar baz:qux") :=
    ⟨str "bar+baz%3Aqux", by decide, by decide, by decide, by decide, by decide⟩
  have hb2 : IsBareParameter (str "bar+baz%3Aqux&limit=50&offset=100") (str "bar baz:qux") :=
    ⟨str "bar+baz%3Aqux", by decide, by decide, by decide, by decide, by decide⟩
  have h1 := (rewritten_query_canonical NewPageNumberPagination NewOffsetLimitPagination
    (exampleURL (str "bar+baz%3Aqux&page=3")) Call.firstPagingLink
    { Rel := str "first", URL := exampleURL (str "bar+baz%3Aqux=&page=1") }).1 (by decide)
  have h2 := (rewritten_query_canonical NewPageNumberPagination NewOffsetLimitPagination
    (exampleURL (str "bar+baz%3Aqux&limit=50&offset=100")) Call.pagingLinks
    { Rel := str "first", URL := exampleURL (str "bar+baz%3Aqux=&limit=50&offset=0") }).2
    (by decide)
  exact ⟨⟨by decide, by decide, hb1, h1.1, h1.2 _ (by decide) (by decide) hb1⟩,
    ⟨by decide, by decide, hb2, h2.1, h2.2 _ (by decide) (by decide) (by decide) hb2⟩⟩

/-- The queries of the tests, evaluated: the first link of `?bar+baz%3Aqux&page=3` has
the query `bar+baz%3Aqux=&page=1`, the first link of `?bar+baz%3Aqux&limit=50&offset=100`
has `bar+baz%3Aqux=&limit=50&offset=0`, and the bare key is escaped as `bar+baz%3Aqux`. -/
theorem rewritten_query_examples :
    (NewPageNumberPagination.FirstPagingLink
        (exampleURL (str "bar+baz%3Aqux&page=3"))).2.1.map (fun L => L.URL.RawQuery)
      = some (str "bar+baz%3Aqux=&page=1") ∧
    (NewOffsetLimitPagination.FirstPagingLink
        (exampleURL (str "bar+baz%3Aqux&limit=50&offset=100"))).2.1.map
          (fun L => L.URL.RawQuery)
      = some (str "bar+baz%3Aqux=&limit=50&offset=0") ∧
    QueryEscape (str "bar baz:qux") ++ [ch '='] = str "bar+baz%3Aqux=" := by
  decide

/-! ## Links in fresh cells -/

theorem Heap.copy_set (h : Heap) (u : Nat) (q : GoString) :
    (copyURLRef h u).1.setRawQuery (copyURLRef h u).2 q
      = (h.alloc { h.cells u with RawQuery := q }).1 := by
  unfold copyURLRef Heap.alloc Heap.setRawQuery
  simp only [Heap.mk.injEq, and_true]
  funext a
  by_cases ha : a = h.next
  · simp [ha]
  · simp [ha]

theorem Heap.lift_none {S : Type} (h : Heap) (s : S) (e : Option GoError) :
    h.lift (s, none, e) = (h, s, none, e) := rfl

theorem Heap.lift_some {S : Type} (h : Heap) (s : S) (L : PagingLink) (e : Option GoError) :
    h.lift (s, some L, e)
      = ((h.alloc L.URL).1, s, some { Rel := L.Rel, URL := h.next }, e) := rfl

theorem PageNumberPagination.FirstPagingLinkRef_eq (p : PageNumberPagination) (h : Heap)
    (u : Nat) : p.FirstPagingLinkRef h u = h.lift (p.FirstPagingLink (h.cells u)) := by
  obtain ⟨h1, h2, -, -⟩ := PageNumberPagination.autoParse_eq p (h.cells u)
  rw [PageNumberPagination.FirstPagingLink_eq, Heap.lift_some]
  unfold PageNumberPagination.FirstPagingLinkRef
  rw [h1]
  simp only [Heap.copy_set, h2]
  rfl

theorem PageNumberPagination.PrevPagingLinkRef_eq (p : PageNumberPagination) (h : Heap)
    (u : Nat) : p.PrevPagingLinkRef h u = h.lift (p.PrevPagingLink (h.cells u)) := by
  obtain ⟨h1, h2, -, -⟩ := PageNumberPagination.autoParse_eq p (h.cells u)
  rw [PageNumberPagination.PrevPagingLink_eq]
  unfold PageNumberPagination.PrevPagingLinkRef
  rw [h1]
  simp only [Heap.copy_set, h2]
  split
  · rw [Heap.lift_none]
  · rw [Heap.lift_some]
    rfl

theorem PageNumberPagination.NextPagingLinkRef_eq (p : PageNumberPagination) (h : Heap)
    (u : Nat) : p.NextPagingLinkRef h u = h.lift (p.NextPagingLink (h.cells u)) := by
  obtain ⟨h1, h2, -, -⟩ := PageNumberPagination.autoParse_eq p (h.cells u)
  rw [PageNumberPagination.NextPagingLink_eq, Heap.lift_some]
  unfold PageNumberPagination.NextPagingLinkRef
  rw [h1]
  simp only [Heap.copy_set, h2]
  rfl

theorem OffsetLimitPagination.offset_FirstPagingLinkRef_eq (p : OffsetLimitPagination)
    (h : Heap) (u : Nat) :
    p.FirstPagingLinkRef h u = h.lift (p.FirstPagingLink (h.cells u)) := by
  obtain ⟨h1, h2, h3, h4, -, -⟩ := OffsetLimitPagination.offset_autoParse_eq p (h.cells u)
  rw [OffsetLimitPagination.offset_FirstPagingLink_eq, Heap.lift_some]
  unfold OffsetLimitPagination.FirstPagingLinkRef
  rw [h1]
  simp only [Heap.copy_set, h2, h3, h4]
  rfl

theorem OffsetLimitPagination.offset_PrevPagingLinkRef_eq (p : OffsetLimitPagination)
    (h : Heap) (u : Nat) :
    p.PrevPagingLinkRef h u = h.lift (p.PrevPagingLink (h.cells u)) := by
  obtain ⟨h1, h2, h3, h4, -, -⟩ := OffsetLimitPagination.offset_autoParse_eq p (h.cells u)
  rw [OffsetLimitPagination.offset_PrevPagingLink_eq]
  unfold OffsetLimitPagination.PrevPagingLinkRef
  rw [h1]
  simp only [Heap.copy_set, h2, h3, h4]
  split
  · rw [Heap.lift_none]
  · rw [Heap.lift_some]
    rfl

theorem OffsetLimitPagination.offset_NextPagingLinkRef_eq (p : OffsetLimitPagination)
    (h : Heap) (u : Nat) :
    p.NextPagingLinkRef h u = h.lift (p.NextPagingLink (h.cells u)) := by
  obtain ⟨h1, h2, h3, h4, -, -⟩ := OffsetLimitPagination.offset_autoParse_eq p (h.cells u)
  rw [OffsetLimitPagination.offset_NextPagingLink_eq, Heap.lift_some]
  unfold OffsetLimitPagination.NextPagingLinkRef
  rw [h1]
  simp only [Heap.copy_set, h2, h3, h4]
  rfl

theorem appendLink_eq (links : PagingLinks) (o : Option PagingLink) :
    appendLink links o = links ++ o.toList := by
  cases o <;> simp [appendLink]

theorem appendLinkRef_eq (links : List PagingLinkRef) (o : Option PagingLinkRef) :
    appendLinkRef links o = links ++ o.toList := by
  cases o <;> simp [appendLinkRef]

theorem Heap.Stores.refl (h : Heap) : h.Stores h [] [] :=
  ⟨Nat.le_refl _, fun _ _ => rfl, fun _ hL => absurd hL (List.not_mem_nil _), rfl⟩

theorem Heap.Stores.append {h h1 h2 : Heap} {l1 l2 : List PagingLinkRef}
    {v1 v2 : List PagingLink} (a : h.Stores h1 l1 v1) (b : h1.Stores h2 l2 v2) :
    h.Stores h2 (l1 ++ l2) (v1 ++ v2) := by
  obtain ⟨a1, a2, a3, a4⟩ := a
  obtain ⟨b1, b2, b3, b4⟩ := b
  refine ⟨Nat.le_trans a1 b1, fun x hx => ?_, fun L hL => ?_, ?_⟩
  · rw [b2 x (Nat.lt_of_lt_of_le hx a1), a2 x hx]
  · rcases List.mem_append.1 hL with hL | hL
    · exact ⟨(a3 L hL).1, Nat.lt_of_lt_of_le (a3 L hL).2 b1⟩
    · exact ⟨Nat.le_trans a1 (b3 L hL).1, (b3 L hL).2⟩
  · rw [List.map_append, b4, ← a4]
    congr 1
    refine List.map_congr_left (fun L hL => ?_)
    unfold PagingLinkRef.deref
    rw [b2 L.URL (a3 L hL).2]

/-- Carrying a value-level outcome to a store writes no cell of the store and puts the
link, when there is one, in a fresh cell. -/
theorem Heap.lift_stores {S : Type} (h : Heap) (r : S × Option PagingLink × Option GoError) :
    h.Stores (h.lift r).1 (h.lift r).2.2.1.toList r.2.1.toList ∧
    (h.lift r).2.1 = r.1 ∧ (h.lift r).2.2.2 = r.2.2 := by
  obtain ⟨s, o, e⟩ := r
  cases o with
  | none => exact ⟨Heap.Stores.refl h, rfl, rfl⟩
  | some L =>
    rw [Heap.lift_some]
    refine ⟨⟨Nat.le_succ _, fun a ha => ?_, fun L2 hL2 => ?_, ?_⟩, rfl, rfl⟩
    · show (if a = h.next then L.URL else h.cells a) = h.cells a
      rw [if_neg (Nat.ne_of_lt ha)]
    · rw [Option.mem_toList] at hL2
      have := Option.some.inj (Option.mem_def.1 hL2)
      rw [← this]
      exact ⟨Nat.le_refl _, Nat.lt_succ_self _⟩
    · show [({ Rel := L.Rel, URL := if h.next = h.next then L.URL else h.cells h.next }
        : PagingLink)] = [L]
      rw [if_pos rfl]

theorem Heap.lift_eta {S : Type} (h : Heap) (r : S × Option PagingLink × Option GoError) :
    h.lift r = ((h.lift r).1, r.1, (h.lift r).2.2.1, r.2.2) := by
  obtain ⟨s, o, e⟩ := r
  cases o <;> rfl

namespace PageNumberPagination

theorem PagingLinksRef_stores (p : PageNumberPagination) (h : Heap) (u : Nat)
    (hu : u < h.next) :
    h.Stores (p.PagingLinksRef h u).1 (p.PagingLinksRef h u).2.2.1
      (p.PagingLinks (h.cells u)).2.1 := by
  obtain ⟨h1, -, -, -⟩ := autoParse_eq p (h.cells u)
  obtain ⟨e1, e2, e3, -⟩ := accessors_after_autoParse p (h.cells u)
  obtain ⟨s1, s2, s3, -⟩ := state_after_accessor p (h.cells u)
  have n1 : (p.FirstPagingLink (h.cells u)).2.2 = none := by rw [FirstPagingLink_eq]
  have n2 : (p.PrevPagingLink (h.cells u)).2.2 = none := by
    rw [PrevPagingLink_eq]; split <;> rfl
  have n3 : (p.NextPagingLink (h.cells u)).2.2 = none := by rw [NextPagingLink_eq]
  obtain ⟨a1, -, -⟩ := Heap.lift_stores h (p.FirstPagingLink (h.cells u))
  have c1 : (h.lift (p.FirstPagingLink (h.cells u))).1.cells u = h.cells u := a1.2.1 u hu
  have hu1 : u < (h.lift (p.FirstPagingLink (h.cells u))).1.next :=
    Nat.lt_of_lt_of_le hu a1.1
  obtain ⟨a2, -, -⟩ := Heap.lift_stores (h.lift (p.FirstPagingLink (h.cells u))).1
    (p.PrevPagingLink (h.cells u))
  have c2 : ((h.lift (p.FirstPagingLink (h.cells u))).1.lift
      (p.PrevPagingLink (h.cells u))).1.cells u = h.cells u := by
    rw [a2.2.1 u hu1, c1]
  obtain ⟨a3, -, -⟩ := Heap.lift_stores ((h.lift (p.FirstPagingLink (h.cells u))).1.lift
      (p.PrevPagingLink (h.cells u))).1 (p.NextPagingLink (h.cells u))
  have key : p.PagingLinksRef h u =
      ((((h.lift (p.FirstPagingLink (h.cells u))).1.lift
          (p.PrevPagingLink (h.cells u))).1.lift (p.NextPagingLink (h.cells u))).1,
        (p.autoParse (h.cells u)).1,
        ([] ++ (h.lift (p.FirstPagingLink (h.cells u))).2.2.1.toList
          ++ ((h.lift (p.FirstPagingLink (h.cells u))).1.lift
              (p.PrevPagingLink (h.cells u))).2.2.1.toList)
          ++ (((h.lift (p.FirstPagingLink (h.cells u))).1.lift
              (p.PrevPagingLink (h.cells u))).1.lift
                (p.NextPagingLink (h.cells u))).2.2.1.toList,
        none) := by
    unfold PagingLinksRef
    rw [h1]
    simp only []
    rw [FirstPagingLinkRef_eq, e1, Heap.lift_eta, n1, s1]
    simp only []
    rw [PrevPagingLinkRef_eq, c1, e2, Heap.lift_eta, n2, s2]
    simp only []
    rw [NextPagingLinkRef_eq, c2, e3, Heap.lift_eta, n3, s3]
    simp only [appendLinkRef_eq]
  rw [key, PagingLinks_eq]
  simp only [appendLink_eq]
  exact ((Heap.Stores.refl h).append a1 |>.append a2).append a3

end PageNumberPagination

namespace OffsetLimitPagination

theorem offset_PagingLinksRef_stores (p : OffsetLimitPagination) (h : Heap) (u : Nat)
    (hu : u < h.next) :
    h.Stores (p.PagingLinksRef h u).1 (p.PagingLinksRef h u).2.2.1
      (p.PagingLinks (h.cells u)).2.1 := by
  obtain ⟨h1, -, -, -, -, -⟩ := offset_autoParse_eq p (h.cells u)
  obtain ⟨e1, e2, e3, -⟩ := offset_accessors_after_autoParse p (h.cells u)
  obtain ⟨s1, s2, s3, -⟩ := offset_state_after_accessor p (h.cells u)
  have n1 : (p.FirstPagingLink (h.cells u)).2.2 = none := by rw [offset_FirstPagingLink_eq]
  have n2 : (p.PrevPagingLink (h.cells u)).2.2 = none := by
    rw [offset_PrevPagingLink_eq]; split <;> rfl
  have n3 : (p.NextPagingLink (h.cells u)).2.2 = none := by rw [offset_NextPagingLink_eq]
  obtain ⟨a1, -, -⟩ := Heap.lift_stores h (p.FirstPagingLink (h.cells u))
  have c1 : (h.lift (p.FirstPagingLink (h.cells u))).1.cells u = h.cells u := a1.2.1 u hu
  have hu1 : u < (h.lift (p.FirstPagingLink (h.cells u))).1.next :=
    Nat.lt_of_lt_of_le hu a1.1
  obtain ⟨a2, -, -⟩ := Heap.lift_stores (h.lift (p.FirstPagingLink (h.cells u))).1
    (p.PrevPagingLink (h.cells u))
  have c2 : ((h.lift (p.FirstPagingLink (h.cells u))).1.lift
      (p.PrevPagingLink (h.cells u))).1.cells u = h.cells u := by
    rw [a2.2.1 u hu1, c1]
  obtain ⟨a3, -, -⟩ := Heap.lift_stores ((h.lift (p.FirstPagingLink (h.cells u))).1.lift
      (p.PrevPagingLink (h.cells u))).1 (p.NextPagingLink (h.cells u))
  have key : p.PagingLinksRef h u =
      ((((h.lift (p.FirstPagingLink (h.cells u))).1.lift
          (p.PrevPagingLink (h.cells u))).1.lift (p.NextPagingLink (h.cells u))).1,
        (p.autoParse (h.cells u)).1,
        ([] ++ (h.lift (p.FirstPagingLink (h.cells u))).2.2.1.toList
          ++ ((h.lift (p.FirstPagingLink (h.cells u))).1.lift
              (p.PrevPagingLink (h.cells u))).2.2.1.toList)
          ++ (((h.lift (p.FirstPagingLink (h.cells u))).1.lift
              (p.PrevPagingLink (h.cells u))).1.lift
                (p.NextPagingLink (h.cells u))).2.2.1.toList,
        none) := by
    unfold PagingLinksRef
    rw [h1]
    simp only []
    rw [offset_FirstPagingLinkRef_eq, e1, Heap.lift_eta, n1, s1]
    simp only []
    rw [offset_PrevPagingLinkRef_eq, c1, e2, Heap.lift_eta, n2, s2]
    simp only []
    rw [offset_NextPagingLinkRef_eq, c2, e3, Heap.lift_eta, n3, s3]
    simp only [appendLinkRef_eq]
  rw [key, offset_PagingLinks_eq]
  simp only [appendLink_eq]
  exact ((Heap.Stores.refl h).append a1 |>.append a2).append a3

end OffsetLimitPagination

/-- A method of the page-number strategy called on an allocated pointer writes no cell
of the store, and the links it returns, read in the store afterwards, are the links of
the value-level method on the URL behind the pointer. -/
theorem PageNumberPagination.returnedLinksRef_stores (p : PageNumberPagination) (c : Call)
    (h : Heap) (u : Nat) (hu : u < h.next) :
    h.Stores (p.returnedLinksRef c h u).1 (p.returnedLinksRef c h u).2
      (p.returnedLinks c (h.cells u)) := by
  cases c with
  | parseURL => exact Heap.Stores.refl h
  | firstPagingLink =>
    show h.Stores (p.FirstPagingLinkRef h u).1 (p.FirstPagingLinkRef h u).2.2.1.toList _
    rw [PageNumberPagination.FirstPagingLinkRef_eq]
    exact (Heap.lift_stores h _).1
  | prevPagingLink =>
    show h.Stores (p.PrevPagingLinkRef h u).1 (p.PrevPagingLinkRef h u).2.2.1.toList _
    rw [PageNumberPagination.PrevPagingLinkRef_eq]
    exact (Heap.lift_stores h _).1
  | nextPagingLink =>
    show h.Stores (p.NextPagingLinkRef h u).1 (p.NextPagingLinkRef h u).2.2.1.toList _
    rw [PageNumberPagination.NextPagingLinkRef_eq]
    exact (Heap.lift_stores h _).1
  | lastPagingLink => exact Heap.Stores.refl h
  | pagingLinks => exact PageNumberPagination.PagingLinksRef_stores p h u hu

/-- The same for the offset/limit strategy. -/
theorem OffsetLimitPagination.offset_returnedLinksRef_stores (p : OffsetLimitPagination)
    (c : Call) (h : Heap) (u : Nat) (hu : u < h.next) :
    h.Stores (p.returnedLinksRef c h u).1 (p.returnedLinksRef c h u).2
      (p.returnedLinks c (h.cells u)) := by
  cases c with
  | parseURL => exact Heap.Stores.refl h
  | firstPagingLink =>
    show h.Stores (p.FirstPagingLinkRef h u).1 (p.FirstPagingLinkRef h u).2.2.1.toList _
    rw [OffsetLimitPagination.offset_FirstPagingLinkRef_eq]
    exact (Heap.lift_stores h _).1
  | prevPagingLink =>
    show h.Stores (p.PrevPagingLinkRef h u).1 (p.PrevPagingLinkRef h u).2.2.1.toList _
    rw [OffsetLimitPagination.offset_PrevPagingLinkRef_eq]
    exact (Heap.lift_stores h _).1
  | nextPagingLink =>
    show h.Stores (p.NextPagingLinkRef h u).1 (p.NextPagingLinkRef h u).2.2.1.toList _
    rw [OffsetLimitPagination.offset_NextPagingLinkRef_eq]
    exact (Heap.lift_stores h _).1
  | lastPagingLink => exact Heap.Stores.refl h
  | pagingLinks => exact OffsetLimitPagination.offset_PagingLinksRef_stores p h u hu

/-- Every link the page-number strategy returns on `u` has a URL equal to `u` but for the
raw query; the raw query is within the parameter limit when that of `u` has at most
9999 parameters; and when it is within the limit, the decoded queries of the link and of
`u` hold the same values under every key other than the page key. -/
theorem PageNumberPagination.returnedLinks_frame (p : PageNumberPagination) (c : Call)
    (u : URL) (L : PagingLink) (h : L ∈ p.returnedLinks c u) :
    L.URL = { u with RawQuery := L.URL.RawQuery } ∧
    (paramCount u.RawQuery + 1 ≤ 10000 → paramCount L.URL.RawQuery ≤ 10000) ∧
    (paramCount L.URL.RawQuery ≤ 10000 → u.AgreeOutside L.URL [p.PageNumberKey]) := by
  obtain ⟨n, hn⟩ := PageNumberPagination.returnedLinks_form p c u L h
  rw [hn]
  dsimp only
  refine ⟨rfl, fun hu => Nat.le_trans (paramCount_set_le u.RawQuery _ _) hu,
    fun hw => ⟨rfl, fun k hk => ?_⟩⟩
  rw [List.mem_singleton] at hk
  show (parseQuery u.RawQuery).lookup k
    = (parseQuery ((parseQuery u.RawQuery).Set p.PageNumberKey (Itoa n)).Encode).lookup k
  rw [lookup_reparse_set _ _ _ _ hw]
  unfold Values.Set
  rw [Values.lookup_store, if_neg hk]

/-- Every link the offset/limit strategy returns on `u` has a URL equal to `u` but for
the raw query; the raw query is within the parameter limit when that of `u` has at most
9998 parameters; and when it is within the limit, the decoded queries of the link and of
`u` hold the same values under every key other than the offset key and the limit key. -/
theorem OffsetLimitPagination.offset_returnedLinks_frame (q : OffsetLimitPagination)
    (c : Call) (u : URL) (L : PagingLink) (h : L ∈ q.returnedLinks c u) :
    L.URL = { u with RawQuery := L.URL.RawQuery } ∧
    (paramCount u.RawQuery + 2 ≤ 10000 → paramCount L.URL.RawQuery ≤ 10000) ∧
    (paramCount L.URL.RawQuery ≤ 10000 →
      u.AgreeOutside L.URL [q.OffsetKey, q.LimitKey]) := by
  obtain ⟨n, hn⟩ := OffsetLimitPagination.offset_returnedLinks_form q c u L h
  rw [hn]
  dsimp only
  refine ⟨rfl, fun hu => Nat.le_trans (paramCount_set_set_le u.RawQuery _ _ _ _) hu,
    fun hw => ⟨rfl, fun k hk => ?_⟩⟩
  simp only [List.mem_cons, List.mem_singleton, List.not_mem_nil, or_false, not_or] at hk
  show (parseQuery u.RawQuery).lookup k
    = (parseQuery (((parseQuery u.RawQuery).Set q.OffsetKey (Itoa n)).Set q.LimitKey
        (Itoa q.PageSize)).Encode).lookup k
  rw [lookup_reparse_set_set _ _ _ _ _ _ hw]
  unfold Values.Set
  rw [Values.lookup_store, if_neg hk.2, Values.lookup_store, if_neg hk.1]

/-- Beyond the parameter limit the other keys are lost: when the first link of `u` has
more than 10000 parameters, its decoded query is empty, whatever the decoded query of
`u` holds. -/
theorem PageNumberPagination.not_agree_of_over (p : PageNumberPagination) (u : URL)
    (k : GoString) (vs : List GoString) (hk : k ≠ p.PageNumberKey)
    (hl : u.Query.lookup k = some vs)
    (h : 10000 < paramCount (u.Query.Set p.PageNumberKey (str "1")).Encode) :
    ∃ L ∈ p.returnedLinks Call.firstPagingLink u,
      10000 < paramCount L.URL.RawQuery ∧ L.URL.Query.lookup k = none ∧
      ¬ u.AgreeOutside L.URL [p.PageNumberKey] := by
  have hq : URL.Query { u with RawQuery :=
      (u.Query.Set p.PageNumberKey (str "1")).Encode } = [] := by
    unfold URL.Query
    dsimp only
    exact parseQuery_of_over _ h
  refine ⟨{ Rel := str "first", URL := { u with RawQuery :=
    (u.Query.Set p.PageNumberKey (str "1")).Encode } }, ?_, ?_, ?_, ?_⟩
  · show _ ∈ (p.FirstPagingLink u).2.1.toList
    rw [PageNumberPagination.FirstPagingLink_eq]
    exact Option.mem_toList.2 rfl
  · dsimp only
    exact h
  · dsimp only
    rw [hq]
    rfl
  · dsimp only
    intro hc
    have h2 := hc.2 k (by rw [List.mem_singleton]; exact hk)
    rw [hl, hq] at h2
    exact absurd h2 (by simp [Values.lookup])

/-- C22 fails beyond the parameter limit of `net/url`: the query of `manyParams` holds
`a=1` 10000 times, the first link adds `page=1` and has more than 10000 parameters, so
the decoded query of the link holds nothing under `a`, where that of `manyParams` holds
10000 values. -/
theorem other_keys_over_limit_counterexample :
    paramCount manyParams.RawQuery = 10000 ∧
    manyParams.Query.lookup (str "a") = some (List.replicate 10000 (str "1")) ∧
    ∃ L ∈ NewPageNumberPagination.returnedLinks Call.firstPagingLink manyParams,
      10000 < paramCount L.URL.RawQuery ∧ L.URL.Query.lookup (str "a") = none ∧
      ¬ manyParams.AgreeOutside L.URL [NewPageNumberPagination.PageNumberKey] :=
  ⟨paramCount_repeatedQuery 10000 (by omega),
    lookup_repeatedQuery 10000 (by omega) (Nat.le_refl _),
    PageNumberPagination.not_agree_of_over NewPageNumberPagination manyParams (str "a")
      (List.replicate 10000 (str "1")) (by decide)
      (lookup_repeatedQuery 10000 (by omega) (Nat.le_refl _))
      (manyParams_set_over NewPageNumberPagination.PageNumberKey (str "1") (by decide)).1⟩

/-- C22, amended: for both strategies, every state, every store, every allocated pointer
`u` and every method, the call writes no cell that was allocated before it, so the URL
behind the caller's `u` is the same after the call; every returned link `L` points to a
cell other than that of `u`; the URL behind `L.URL` equals the URL behind `u` in every
component other than the raw query; and when the raw query behind `L.URL` has at most
10000 parameters, counted as `net/url` counts them, its decoded query holds, under every
key other than the pagination key(s) of the strategy, the list of values that the
decoded query of `u` holds. The raw query behind `L.URL` has at most 10000 parameters
whenever that of `u` has at most 9999 (9998 for the offset/limit strategy). The returned
links, read in the store after the call, are the links of the methods on URL values. -/
theorem only_pagination_parameters_rewritten (p : PageNumberPagination)
    (q : OffsetLimitPagination) (h : Heap) (u : Nat) (c : Call) (hu : u < h.next) :
    ((∀ a, a < h.next → (p.returnedLinksRef c h u).1.cells a = h.cells a) ∧
     (p.returnedLinksRef c h u).2.map (PagingLinkRef.deref (p.returnedLinksRef c h u).1)
        = p.returnedLinks c (h.cells u) ∧
     ∀ L ∈ (p.returnedLinksRef c h u).2, L.URL ≠ u ∧
        (p.returnedLinksRef c h u).1.cells L.URL
          = { h.cells u with
              RawQuery := ((p.returnedLinksRef c h u).1.cells L.URL).RawQuery } ∧
        (paramCount (h.cells u).RawQuery + 1 ≤ 10000 →
          paramCount ((p.returnedLinksRef c h u).1.cells L.URL).RawQuery ≤ 10000) ∧
        (paramCount ((p.returnedLinksRef c h u).1.cells L.URL).RawQuery ≤ 10000 →
          (h.cells u).AgreeOutside ((p.returnedLinksRef c h u).1.cells L.URL)
            [p.PageNumberKey])) ∧
    ((∀ a, a < h.next → (q.returnedLinksRef c h u).1.cells a = h.cells a) ∧
     (q.returnedLinksRef c h u).2.map (PagingLinkRef.deref (q.returnedLinksRef c h u).1)
        = q.returnedLinks c (h.cells u) ∧
     ∀ L ∈ (q.returnedLinksRef c h u).2, L.URL ≠ u ∧
        (q.returnedLinksRef c h u).1.cells L.URL
          = { h.cells u with
              RawQuery := ((q.returnedLinksRef c h u).1.cells L.URL).RawQuery } ∧
        (paramCount (h.cells u).RawQuery + 2 ≤ 10000 →
          paramCount ((q.returnedLinksRef c h u).1.cells L.URL).RawQuery ≤ 10000) ∧
        (paramCount ((q.returnedLinksRef c h u).1.cells L.URL).RawQuery ≤ 10000 →
          (h.cells u).AgreeOutside ((q.returnedLinksRef c h u).1.cells L.URL)
            [q.OffsetKey, q.LimitKey])) := by
  obtain ⟨-, a2, a3, a4⟩ := PageNumberPagination.returnedLinksRef_stores p c h u hu
  obtain ⟨-, b2, b3, b4⟩ := OffsetLimitPagination.offset_returnedLinksRef_stores q c h u hu
  refine ⟨⟨a2, a4, fun L hL => ⟨fun he => ?_, ?_⟩⟩, ⟨b2, b4, fun L hL => ⟨fun he => ?_, ?_⟩⟩⟩
  · have := (a3 L hL).1
    omega
  · refine PageNumberPagination.returnedLinks_frame p c (h.cells u)
      (PagingLinkRef.deref (p.returnedLinksRef c h u).1 L) ?_
    rw [← a4]
    exact List.mem_map_of_mem _ hL
  · have := (b3 L hL).1
    omega
  · refine OffsetLimitPagination.offset_returnedLinks_frame q c (h.cells u)
      (PagingLinkRef.deref (q.returnedLinksRef c h u).1 L) ?_
    rw [← b4]
    exact List.mem_map_of_mem _ hL

/-- Instance of the amended C22 on a store with the one cell
`?page=3&offset=100&limit=20`, the freshly constructed strategies and `PagingLinks`. -/
theorem only_pagination_parameters_rewritten_witness :
    0 < exampleHeap.next ∧
    ((∀ a, a < exampleHeap.next →
        (NewPageNumberPagination.returnedLinksRef Call.pagingLinks exampleHeap 0).1.cells a
          = exampleHeap.cells a) ∧
     (NewPageNumberPagination.returnedLinksRef Call.pagingLinks exampleHeap 0).2.map
        (PagingLinkRef.deref
          (NewPageNumberPagination.returnedLinksRef Call.pagingLinks exampleHeap 0).1)
        = NewPageNumberPagination.returnedLinks Call.pagingLinks (exampleHeap.cells 0) ∧
     ∀ L ∈ (NewPageNumberPagination.returnedLinksRef Call.pagingLinks exampleHeap 0).2,
        L.URL ≠ 0 ∧
        (NewPageNumberPagination.returnedLinksRef Call.pagingLinks exampleHeap 0).1.cells L.URL
          = { exampleHeap.cells 0 with
              RawQuery := ((NewPageNumberPagination.returnedLinksRef Call.pagingLinks
                exampleHeap 0).1.cells L.URL).RawQuery } ∧
        (paramCount (exampleHeap.cells 0).RawQuery + 1 ≤ 10000 →
          paramCount ((NewPageNumberPagination.returnedLinksRef Call.pagingLinks
            exampleHeap 0).1.cells L.URL).RawQuery ≤ 10000) ∧
        (paramCount ((NewPageNumberPagination.returnedLinksRef Call.pagingLinks
            exampleHeap 0).1.cells L.URL).RawQuery ≤ 10000 →
          (exampleHeap.cells 0).AgreeOutside
            ((NewPageNumberPagination.returnedLinksRef Call.pagingLinks exampleHeap 0).1.cells
              L.URL) [NewPageNumberPagination.PageNumberKey])) ∧
    ((∀ a, a < exampleHeap.next →
        (NewOffsetLimitPagination.returnedLinksRef Call.pagingLinks exampleHeap 0).1.cells a
          = exampleHeap.cells a) ∧
     (NewOffsetLimitPagination.returnedLinksRef Call.pagingLinks exampleHeap 0).2.map
        (PagingLinkRef.deref
          (NewOffsetLimitPagination.returnedLinksRef Call.pagingLinks exampleHeap 0).1)
        = NewOffsetLimitPagination.returnedLinks Call.pagingLinks (exampleHeap.cells 0) ∧
     ∀ L ∈ (NewOffsetLimitPagination.returnedLinksRef Call.pagingLinks exampleHeap 0).2,
        L.URL ≠ 0 ∧
        (NewOffsetLimitPagination.returnedLinksRef Call.pagingLinks exampleHeap 0).1.cells L.URL
          = { exampleHeap.cells 0 with
              RawQuery := ((NewOffsetLimitPagination.returnedLinksRef Call.pagingLinks
                exampleHeap 0).1.cells L.URL).RawQuery } ∧
        (paramCount (exampleHeap.cells 0).RawQuery + 2 ≤ 10000 →
          paramCount ((NewOffsetLimitPagination.returnedLinksRef Call.pagingLinks
            exampleHeap 0).1.cells L.URL).RawQuery ≤ 10000) ∧
        (paramCount ((NewOffsetLimitPagination.returnedLinksRef Call.pagingLinks
            exampleHeap 0).1.cells L.URL).RawQuery ≤ 10000 →
          (exampleHeap.cells 0).AgreeOutside
            ((NewOffsetLimitPagination.returnedLinksRef Call.pagingLinks exampleHeap 0).1.cells
              L.URL) [NewOffsetLimitPagination.OffsetKey, NewOffsetLimitPagination.LimitKey])) :=
  ⟨by decide, only_pagination_parameters_rewritten NewPageNumberPagination
    NewOffsetLimitPagination exampleHeap 0 Call.pagingLinks (by decide)⟩

/-- The store of the instance, evaluated: `PagingLinks` of the page-number strategy
returns three links at the addresses 1, 2 and 3, the caller's cell 0 still holds
`?page=3&offset=100&limit=20`, and the new cells hold that URL with `page` set to 1, 2
and 4 and the other parameters kept. -/
theorem only_pagination_parameters_rewritten_examples :
    (NewPageNumberPagination.returnedLinksRef Call.pagingLinks exampleHeap 0).2
      = [{ Rel := str "first", URL := 1 }, { Rel := str "prev", URL := 2 },
         { Rel := str "next", URL := 3 }] ∧
    (NewPageNumberPagination.returnedLinksRef Call.pagingLinks exampleHeap 0).1.cells 0
      = exampleURL (str "page=3&offset=100&limit=20") ∧
    (NewPageNumberPagination.returnedLinksRef Call.pagingLinks exampleHeap 0).1.cells 1
      = exampleURL (str "limit=20&offset=100&page=1") ∧
    (NewPageNumberPagination.returnedLinksRef Call.pagingLinks exampleHeap 0).1.cells 2
      = exampleURL (str "limit=20&offset=100&page=2") ∧
    (NewPageNumberPagination.returnedLinksRef Call.pagingLinks exampleHeap 0).1.cells 3
      = exampleURL (str "limit=20&offset=100&page=4") ∧
    (NewOffsetLimitPagination.returnedLinksRef Call.pagingLinks exampleHeap 0).1.cells 0
      = exampleURL (str "page=3&offset=100&limit=20") ∧
    (NewOffsetLimitPagination.returnedLinksRef Call.pagingLinks exampleHeap 0).1.cells 2
      = exampleURL (str "limit=50&offset=50&page=3") := by
  decide

/-! ## Integer strings beyond the `int` range -/

/-- The conversion `Atoi` fails on an integer string whose value is outside the `int`
range. -/
theorem Atoi_out_of_range (v : GoString)
    (hr : integerValue v < minInt ∨ maxInt < integerValue v) : Atoi v = none := by
  have h := Atoi_val v
  rw [if_neg (fun hc => by rcases hr with hr | hr <;> omega)] at h
  cases ha : Atoi v with
  | none => rfl
  | some i => rw [ha] at h; exact absurd h (by simp)

theorem vsGetInt_of_Atoi_none (vs : Values) (key : GoString) (d : GoInt)
    (h : Atoi (vs.Get key) = none) : vsGetInt vs key d = d := by
  unfold vsGetInt
  simp only [h]

/-- C31: an integer string (decimal digits, with or without a sign) whose value lies
outside the 64-bit `int` range is treated as malformed. `Atoi` fails on it; `vsGetInt`
returns the default when it is the first value of the key; `ParseURL` of the page-number
strategy then stores page number 1, and `ParseURL` of the offset/limit strategy stores
offset 0 when it is the offset and the page size as limit when it is the limit. Every
value stored by `ParseURL` is the value of an integer string within the range or the
default, and lies within `[-2^63, 2^63 - 1]`. -/
theorem out_of_range_takes_default (v : GoString) (_hv : isIntegerString v = true)
    (hr : integerValue v < minInt ∨ maxInt < integerValue v) :
    Atoi v = none ∧
    (∀ (vs : Values) (key : GoString) (d : GoInt), vs.Get key = v → vsGetInt vs key d = d) ∧
    (∀ (p : PageNumberPagination) (u : URL), u.Query.Get p.PageNumberKey = v →
      (p.ParseURL u).1.PageNumber.val = 1) ∧
    (∀ (q : OffsetLimitPagination) (u : URL), u.Query.Get q.OffsetKey = v →
      (q.ParseURL u).1.Offset.val = 0) ∧
    (∀ (q : OffsetLimitPagination) (u : URL), u.Query.Get q.LimitKey = v →
      (q.ParseURL u).1.Limit = q.PageSize) ∧
    (∀ (p : PageNumberPagination) (q : OffsetLimitPagination) (u : URL),
      ((p.ParseURL u).1.PageNumber.val = specInt u.Query p.PageNumberKey 1 ∧
        -9223372036854775808 ≤ (p.ParseURL u).1.PageNumber.val ∧
        (p.ParseURL u).1.PageNumber.val ≤ 9223372036854775807) ∧
      ((q.ParseURL u).1.Offset.val = specInt u.Query q.OffsetKey 0 ∧
        -9223372036854775808 ≤ (q.ParseURL u).1.Offset.val ∧
        (q.ParseURL u).1.Offset.val ≤ 9223372036854775807) ∧
      ((q.ParseURL u).1.Limit.val = specInt u.Query q.LimitKey q.PageSize.val ∧
        -9223372036854775808 ≤ (q.ParseURL u).1.Limit.val ∧
        (q.ParseURL u).1.Limit.val ≤ 9223372036854775807)) := by
  have ha := Atoi_out_of_range v hr
  refine ⟨ha, fun vs key d hg => ?_, fun p u hg => ?_, fun q u hg => ?_,
    fun q u hg => ?_, fun p q u => ⟨⟨?_, ?_⟩, ⟨?_, ?_⟩, ⟨?_, ?_⟩⟩⟩
  · exact vsGetInt_of_Atoi_none vs key d (by rw [hg]; exact ha)
  · rw [PageNumberPagination.ParseURL_PageNumber,
      vsGetInt_of_Atoi_none _ _ _ (by rw [← ha, ← hg]; rfl)]
    rfl
  · rw [OffsetLimitPagination.ParseURL_Offset,
      vsGetInt_of_Atoi_none _ _ _ (by rw [← ha, ← hg]; rfl)]
    rfl
  · rw [OffsetLimitPagination.ParseURL_Limit,
      vsGetInt_of_Atoi_none _ _ _ (by rw [← ha, ← hg]; rfl)]
  · rw [PageNumberPagination.ParseURL_PageNumber]
    exact vsGetInt_val u.Query p.PageNumberKey (GoInt.lit 1)
  · exact (p.ParseURL u).1.PageNumber.property
  · rw [OffsetLimitPagination.ParseURL_Offset]
    exact vsGetInt_val u.Query q.OffsetKey (GoInt.lit 0)
  · exact (q.ParseURL u).1.Offset.property
  · rw [OffsetLimitPagination.ParseURL_Limit]
    exact vsGetInt_val u.Query q.LimitKey q.PageSize
  · exact (q.ParseURL u).1.Limit.property

/-- Instance of C31 on `9223372036854775808`, the least digit string beyond the range. -/
theorem out_of_range_takes_default_witness :
    isIntegerString (str "9223372036854775808") = true ∧
    (integerValue (str "9223372036854775808") < minInt ∨
      maxInt < integerValue (str "9223372036854775808")) ∧
    Atoi (str "9223372036854775808") = none ∧
    (∀ (vs : Values) (key : GoString) (d : GoInt),
      vs.Get key = str "9223372036854775808" → vsGetInt vs key d = d) ∧
    (∀ (p : PageNumberPagination) (u : URL),
      u.Query.Get p.PageNumberKey = str "9223372036854775808" →
      (p.ParseURL u).1.PageNumber.val = 1) ∧
    (∀ (q : OffsetLimitPagination) (u : URL),
      u.Query.Get q.OffsetKey = str "9223372036854775808" →
      (q.ParseURL u).1.Offset.val = 0) ∧
    (∀ (q : OffsetLimitPagination) (u : URL),
      u.Query.Get q.LimitKey = str "9223372036854775808" →
      (q.ParseURL u).1.Limit = q.PageSize) ∧
    (∀ (p : PageNumberPagination) (q : OffsetLimitPagination) (u : URL),
      ((p.ParseURL u).1.PageNumber.val = specInt u.Query p.PageNumberKey 1 ∧
        -9223372036854775808 ≤ (p.ParseURL u).1.PageNumber.val ∧
        (p.ParseURL u).1.PageNumber.val ≤ 9223372036854775807) ∧
      ((q.ParseURL u).1.Offset.val = specInt u.Query q.OffsetKey 0 ∧
        -9223372036854775808 ≤ (q.ParseURL u).1.Offset.val ∧
        (q.ParseURL u).1.Offset.val ≤ 9223372036854775807) ∧
      ((q.ParseURL u).1.Limit.val = specInt u.Query q.LimitKey q.PageSize.val ∧
        -9223372036854775808 ≤ (q.ParseURL u).1.Limit.val ∧
        (q.ParseURL u).1.Limit.val ≤ 9223372036854775807)) :=
  ⟨by decide, Or.inr (by decide),
    out_of_range_takes_default (str "9223372036854775808") (by decide) (Or.inr (by decide))⟩

/-- The range boundary, evaluated on the freshly constructed strategies:
`?page=9223372036854775808` gives page number 1 and `?offset=9223372036854775808` gives
offset 0, as do the signed strings `+9223372036854775808` and `-9223372036854775809`;
the largest and the least `int`, `9223372036854775807` and `-9223372036854775808`, are
stored as they are. -/
theorem out_of_range_examples :
    (NewPageNumberPagination.ParseURL
      (exampleURL (str "page=9223372036854775808"))).1.PageNumber.val = 1 ∧
    (NewOffsetLimitPagination.ParseURL
      (exampleURL (str "offset=9223372036854775808"))).1.Offset.val = 0 ∧
    (NewOffsetLimitPagination.ParseURL
      (exampleURL (str "limit=9223372036854775808"))).1.Limit.val = 50 ∧
    (NewPageNumberPagination.ParseURL
      (exampleURL (str "page=%2B9223372036854775808"))).1.PageNumber.val = 1 ∧
    (NewOffsetLimitPagination.ParseURL
      (exampleURL (str "offset=-9223372036854775809"))).1.Offset.val = 0 ∧
    (NewPageNumberPagination.ParseURL
      (exampleURL (str "page=9223372036854775807"))).1.PageNumber.val
        = 9223372036854775807 ∧
    (NewOffsetLimitPagination.ParseURL
      (exampleURL (str "offset=-9223372036854775808"))).1.Offset.val
        = -9223372036854775808 := by
  decide

end Lambique
